import Mathlib

/-!
Shallow embedding of the graph-server core (src/workers/actions.py,
src/workers/__init__.py, src/utils/compression.py) and proofs about the
frozen specification claims.

Conventions of the embedding:
* JSON values loaded by json.load are modelled by the flat inductive `Val`
  (the claims only exercise null / bool / int / string property values).
* Python dicts are modelled as ordered association lists (`Obj`) with
  duplicate-free keys in practice; insertion order is preserved exactly as
  CPython preserves it.
* networkx.DiGraph is modelled by `DiGraph`: a node list in insertion order
  plus an edge list; at most one edge per ordered pair, as in nx.DiGraph.
* Fallible Python code (KeyError, ValueError, TypeError, raised ValueError)
  is modelled with `Except String`.
* `uuid.uuid4()` is modelled by an explicit supply of fresh identifier
  strings threaded through the functions that create instances; theorems
  that need freshness state it as a hypothesis.
* `time.time()` is modelled by an explicit `now : Int` argument.
* `time.sleep` performs no state change; retry loops count their checks and
  sleeps so that the bounded-retry behaviour is observable.
-/

/-- JSON-like property value as produced by json.load in the source. -/
inductive Val where
  | null
  | b (x : Bool)
  | n (x : Int)
  | s (x : String)
deriving DecidableEq, Repr

/-- A Python dict: an insertion-ordered association list with string keys. -/
abbrev Obj := List (String × Val)

/-- Dict lookup, d.get(k): first binding wins (Python dicts are duplicate-free). -/
def objGet (k : String) : Obj → Option Val
  | [] => none
  | (k2, v) :: rest => if k2 = k then some v else objGet k rest

/-- Python `k in d`. -/
def objHasKey (k : String) (o : Obj) : Bool := (objGet k o).isSome

/-- Python `d[k] = v`: overwrite the binding in place keeping its position
(Python dicts are duplicate-free, so the first binding is the binding), else
append at the end. -/
def objSet : Obj → String → Val → Obj
  | [], k, v => [(k, v)]
  | (k0, v0) :: rest, k, v =>
    if k0 = k then (k, v) :: rest else (k0, v0) :: objSet rest k v

/-- Python `d.update(new)`: fold `d[k] = v` over the entries of `new` in order. -/
def objUpdate (o new : Obj) : Obj :=
  new.foldl (fun acc p => objSet acc p.1 p.2) o

/-- Python `list(d.keys())`. -/
def objKeys (o : Obj) : List String := o.map Prod.fst

/-- Python truthiness of a JSON value. -/
def pyTruthy : Val → Bool
  | .null => false
  | .b x => x
  | .n x => x ≠ 0
  | .s x => x ≠ ""

/-- Numeric view of a value: Python bools are ints (False = 0, True = 1). -/
def valNum? : Val → Option Int
  | .n x => some x
  | .b x => some (if x then 1 else 0)
  | _ => none

/-- Python `a < b` on JSON values: defined for number/number and
string/string, a TypeError (`none`) otherwise. -/
def valLt? (a b : Val) : Option Bool :=
  match valNum? a, valNum? b with
  | some x, some y => some (x < y)
  | _, _ =>
    match a, b with
    | .s x, .s y => some (decide (x < y))
    | _, _ => none

/-- Comparison actually used inside sorting folds; the surrounding code
checks comparability first, so the `false` default is never reached there. -/
def valLtB (a b : Val) : Bool := (valLt? a b).getD false

/-- Python `int(str)`, approximated by Lean integer parsing of the trimmed
string; `none` models ValueError. -/
def pyStrToInt? (sv : String) : Option Int := (sv.trim).toInt?

/-- A networkx node: identifier (any hashable, here a `Val`) plus its
attribute dict. -/
structure NXNode where
  id : Val
  attrs : Obj
deriving DecidableEq, Repr

/-- A networkx directed edge with its attribute dict. -/
structure NXEdge where
  source : Val
  target : Val
  attrs : Obj
deriving DecidableEq, Repr

/-- networkx.DiGraph: nodes in insertion order, at most one edge per ordered
pair. -/
structure DiGraph where
  nodes : List NXNode
  edges : List NXEdge
deriving DecidableEq, Repr

def DiGraph.empty : DiGraph := ⟨[], []⟩

/-- G.has_node(v). -/
def hasNode (g : DiGraph) (v : Val) : Bool := g.nodes.any (fun nd => nd.id = v)

/-- G.nodes[v], the live attribute dict of a node. -/
def getNodeAttrs (g : DiGraph) (v : Val) : Option Obj :=
  (g.nodes.find? (fun nd => nd.id = v)).map NXNode.attrs

/-- G.add_node(v, **attrs): merge attributes into an existing node in place,
or append a new node. -/
def addNode (g : DiGraph) (v : Val) (attrs : Obj) : DiGraph :=
  if hasNode g v then
    ⟨g.nodes.map (fun nd => if nd.id = v then ⟨v, objUpdate nd.attrs attrs⟩ else nd),
     g.edges⟩
  else
    ⟨g.nodes ++ [⟨v, attrs⟩], g.edges⟩

/-- G.nodes[v].update(attrs) / G.nodes[v][k] = val for an existing node. -/
def updateNodeAttrs (g : DiGraph) (v : Val) (new : Obj) : DiGraph :=
  ⟨g.nodes.map (fun nd => if nd.id = v then ⟨nd.id, objUpdate nd.attrs new⟩ else nd),
   g.edges⟩

/-- G.has_edge(s, t). -/
def hasEdge (g : DiGraph) (src tgt : Val) : Bool :=
  g.edges.any (fun e => e.source = src ∧ e.target = tgt)

/-- G.get_edge_data(s, t). -/
def getEdgeAttrs (g : DiGraph) (src tgt : Val) : Option Obj :=
  (g.edges.find? (fun e => e.source = src ∧ e.target = tgt)).map NXEdge.attrs

/-- G.add_edge(s, t, **attrs): nx adds missing endpoints as attribute-free
nodes and merges attributes into an existing edge. -/
def addEdge (g : DiGraph) (src tgt : Val) (attrs : Obj) : DiGraph :=
  let g1 := if hasNode g src then g else ⟨g.nodes ++ [⟨src, []⟩], g.edges⟩
  let g2 := if hasNode g1 tgt then g1 else ⟨g1.nodes ++ [⟨tgt, []⟩], g1.edges⟩
  if hasEdge g2 src tgt then
    ⟨g2.nodes,
     g2.edges.map (fun e =>
       if e.source = src ∧ e.target = tgt then ⟨src, tgt, objUpdate e.attrs attrs⟩ else e)⟩
  else
    ⟨g2.nodes, g2.edges ++ [⟨src, tgt, attrs⟩]⟩

/-- G.remove_edge(s, t). -/
def removeEdge (g : DiGraph) (src tgt : Val) : DiGraph :=
  ⟨g.nodes, g.edges.filter (fun e => ¬(e.source = src ∧ e.target = tgt))⟩

/-- G.remove_node(v): drop the node together with all incident edges. -/
def removeNode (g : DiGraph) (v : Val) : DiGraph :=
  ⟨g.nodes.filter (fun nd => nd.id ≠ v),
   g.edges.filter (fun e => ¬(e.source = v ∨ e.target = v))⟩

/-- G.remove_nodes_from(vs): missing entries are ignored, as in nx. -/
def removeNodesFrom (g : DiGraph) (vs : List Val) : DiGraph :=
  vs.foldl removeNode g

/-- Direct successors of a node, following directed edges. -/
def succs (g : DiGraph) (v : Val) : List Val :=
  g.edges.filterMap (fun e => if e.source = v then some e.target else none)

/-- One round of reachability expansion: add unseen successors of members. -/
def expandOnce (g : DiGraph) (acc : List Val) : List Val :=
  acc.foldl
    (fun seen v =>
      (succs g v).foldl (fun sn w => if sn.contains w then sn else sn ++ [w]) seen)
    acc

/-- Fuelled reachability closure. -/
def reachFrom (g : DiGraph) : Nat → List Val → List Val
  | 0, acc => acc
  | fuel + 1, acc => reachFrom g fuel (expandOnce g acc)

/-- nx.descendants(G, v): every node reachable from v, excluding v itself.
The fuel `g.nodes.length + 1` exceeds the longest simple path, so the
closure is complete. -/
def descendants (g : DiGraph) (v : Val) : List Val :=
  (reachFrom g (g.nodes.length + 1) [v]).filter (fun w => w ≠ v)

/-! ## Python int() coercions as they appear in src/workers/actions.py -/

/-- units coercion in process_schema_create (lines 124-128): `int(units) if
units is not None else 0`, with ValueError and TypeError both caught and
defaulted to 0. -/
def unitsOfCreate : Val → Int
  | .null => 0
  | .n i => i
  | .b x => if x then 1 else 0
  | .s sv => (pyStrToInt? sv).getD 0

/-- expiry coercion in process_schema_create (lines 132-142): `int(expiry_val)`
with None / ValueError / TypeError defaulting to one year from now. -/
def expiryOfCreate (now : Int) : Val → Int
  | .null => now + 31536000
  | .n i => i
  | .b x => if x then 1 else 0
  | .s sv => (pyStrToInt? sv).getD (now + 31536000)

/-- units coercion in process_schema_update (lines 235-241): only truthy
values are passed through `int`, only ValueError is caught; a falsy None or
empty string survives to `current_count > target_count` inside
update_state_instances, which raises TypeError (modelled here at the
coercion site; the observable outcome, an error with no state change, is
the same). -/
def unitsOfUpdate : Val → Except String Int
  | .n i => .ok i
  | .b _ => .ok 0
  | .null => .error "TypeError: int vs NoneType comparison"
  | .s sv =>
    if sv = "" then .error "TypeError: int vs str comparison"
    else .ok ((pyStrToInt? sv).getD 0)

/-- expiry coercion in process_schema_update (lines 243-248): `int(...)`
catching only ValueError (defaulting to 0); int(None) raises TypeError,
uncaught. -/
def expiryOfUpdate : Val → Except String Int
  | .null => .error "TypeError: int() of NoneType"
  | .n i => .ok i
  | .b x => .ok (if x then 1 else 0)
  | .s sv => .ok ((pyStrToInt? sv).getD 0)

/-! ## Instance reconciliation (actions.py lines 355-427) -/

/-- find_nodes_with_property (line 356): ids of the nodes whose attribute
`key` (with Python get-default None) equals `value`, in insertion order. -/
def find_nodes_with_property (g : DiGraph) (key : String) (value : Val) : List Val :=
  g.nodes.filterMap
    (fun nd => if (objGet key nd.attrs).getD .null = value then some nd.id else none)

/-- Sort key of the eviction loop (lines 401-411): expiry attribute, falling
back to created_at, falling back to 0. -/
def evictKeyOf (attrs : Obj) : Val :=
  (objGet "expiry" attrs).getD ((objGet "created_at" attrs).getD (.n 0))

def evictKey (g : DiGraph) (v : Val) : Val :=
  match getNodeAttrs g v with
  | some attrs => evictKeyOf attrs
  | none => .n 0

/-- Guard modelling Python sorted() raising TypeError on unorderable key
types: every pair of distinct positions must be comparable. (CPython only
compares the pairs its sort visits, so this model errs on the strict side;
every claim proved below stays within integer keys, where the two agree.) -/
def pairwiseComparable : List Val → Bool
  | [] => true
  | x :: xs => xs.all (fun y => (valLt? x y).isSome) && pairwiseComparable xs

/-- sorted(l, key)[0]: the first element carrying a minimal key, as Python's
stable sort returns it. -/
def firstMinBy (key : Val → Val) : List Val → Option Val
  | [] => none
  | x :: xs => some (xs.foldl (fun best y => if valLtB (key y) (key best) then y else best) x)

/-- The excess-removal loop of update_state_instances (lines 392-412): each
round recomputes the candidates, picks the earliest-expiring one (first in
insertion order on ties) and removes it. -/
def evictLoop (parent_id : Val) : Nat → DiGraph → Except String DiGraph
  | 0, g => .ok g
  | m + 1, g =>
    let cands := find_nodes_with_property g "parent_id" parent_id
    if pairwiseComparable (cands.map (evictKey g)) then
      match firstMinBy (evictKey g) cands with
      | some v => evictLoop parent_id m (removeNode g v)
      | none => .error "IndexError: no candidate left"
    else .error "TypeError: unorderable sort keys"

/-- Attributes given to a freshly created instance (lines 419-425). -/
def instanceAttrs (parent_id ty : Val) (created_at expiry : Int) : Obj :=
  [("parent_id", parent_id), ("node_type", ty),
   ("created_at", .n created_at), ("expiry", .n expiry)]

/-- update_state_instances (lines 360-427). uuid4 is modelled by consuming
the supplied list of fresh identifier strings; the remaining supply is
returned. -/
def update_state_instances (state_data : DiGraph) (parent_id ty : Val)
    (target_count created_at : Int) (expiry : Option Int) (supply : List String) :
    Except String (DiGraph × List String) :=
  let expiryV : Int := expiry.getD (created_at + 31536000)
  let current : Nat := (find_nodes_with_property state_data "parent_id" parent_id).length
  if target_count < (current : Int) then
    (evictLoop parent_id ((current : Int) - target_count).toNat state_data).map
      (fun g => (g, supply))
  else if (current : Int) < target_count then
    let need := (target_count - (current : Int)).toNat
    if supply.length < need then .error "model: fresh identifier supply exhausted"
    else
      .ok ((supply.take need).foldl
            (fun g fid => addNode g (.s fid) (instanceAttrs parent_id ty created_at expiryV))
            state_data,
          supply.drop need)
  else .ok (state_data, supply)

/-! ## Mutation payloads (actions.py lines 30-353) -/

/-- A single mutation payload; the source discriminates the variants by key
presence, modelled here by Option fields. -/
structure Payload where
  node_id : Option Val := none
  node_type : Option Val := none
  source_id : Option Val := none
  target_id : Option Val := none
  edge_type : Option Val := none
  cascade : Option Val := none
  properties : Option Obj := none
deriving DecidableEq, Repr

/-- schema[source][target].update(edge_attrs) on an existing edge. -/
def updateEdgeAttrs (g : DiGraph) (src tgt : Val) (new : Obj) : DiGraph :=
  ⟨g.nodes,
   g.edges.map (fun e =>
     if e.source = src ∧ e.target = tgt then ⟨src, tgt, objUpdate e.attrs new⟩ else e)⟩

/-- Node arm of process_schema_create (lines 98-152), factored out because
both fall-through paths of the key-presence dispatch reach it. -/
def process_schema_create_node (payload : Payload) (schema_data state_data : DiGraph)
    (timestamp now : Int) (supply : List String) :
    Except String (DiGraph × DiGraph × List String) :=
  match payload.node_id with
  | none => .error "KeyError: node_id"
  | some node_id =>
    match payload.node_type with
    | none => .error "KeyError: node_type"
    | some nt =>
      match payload.properties with
      | none => .error "KeyError: properties"
      | some props =>
        let node_attrs := objUpdate [("node_type", nt)] props
        let schema :=
          if hasNode schema_data node_id then
            updateNodeAttrs schema_data node_id node_attrs
          else
            addNode schema_data node_id node_attrs
        if objHasKey "units_in_chain" props then
          let units := unitsOfCreate ((objGet "units_in_chain" props).getD (.n 0))
          let expiry : Option Int :=
            if objHasKey "expiry" props then
              some (expiryOfCreate now ((objGet "expiry" props).getD (.n 0)))
            else none
          (update_state_instances state_data node_id nt units timestamp expiry supply).map
            (fun p => (schema, p.1, p.2))
        else
          .ok (schema, state_data, supply)

/-- process_schema_create (lines 30-160). -/
def process_schema_create (payload : Payload) (schema_data state_data : DiGraph)
    (timestamp now : Int) (supply : List String) :
    Except String (DiGraph × DiGraph × List String) :=
  match payload.source_id, payload.target_id with
  | some source_id, some target_id =>
    if ¬ hasNode schema_data source_id then
      .error "ValueError: source node does not exist in schema"
    else if ¬ hasNode schema_data target_id then
      .error "ValueError: target node does not exist in schema"
    else
      match payload.edge_type with
      | none => .error "KeyError: edge_type"
      | some et =>
        let edge_attrs := objUpdate [("relationship_type", et)] (payload.properties.getD [])
        let schema :=
          if hasEdge schema_data source_id target_id then
            updateEdgeAttrs schema_data source_id target_id edge_attrs
          else
            addEdge schema_data source_id target_id edge_attrs
        .ok (schema, state_data, supply)
  | _, _ => process_schema_create_node payload schema_data state_data timestamp now supply

/-- The wait-and-retry loop of the edge-update branch (lines 186-208); the
graph cannot change between iterations. Returns the possibly updated graph,
the final retry_count, the number of has_edge checks and of sleep(0.1)
calls. -/
def edgeUpdateGo (g : DiGraph) (src tgt : Val) (props : Obj) :
    Nat → Nat → Nat → Nat → DiGraph × Nat × Nat × Nat
  | 0, rc, ch, sl => (g, rc, ch, sl)
  | fuel + 1, rc, ch, sl =>
    if hasEdge g src tgt then
      ((if props = [] then g else updateEdgeAttrs g src tgt props), rc, ch + 1, sl)
    else
      let rc2 := rc + 1
      if rc2 < 3 then edgeUpdateGo g src tgt props fuel rc2 (ch + 1) (sl + 1)
      else (g, rc2, ch + 1, sl)

def edgeUpdateRetry (g : DiGraph) (src tgt : Val) (props : Obj) : DiGraph × Nat × Nat × Nat :=
  edgeUpdateGo g src tgt props 3 0 0 0

/-- Node arm of process_schema_update (lines 216-257), factored out because
both fall-through paths of the key-presence dispatch reach it. -/
def process_schema_update_node (payload : Payload) (schema_data state_data : DiGraph)
    (timestamp : Int) (supply : List String) :
    Except String (DiGraph × DiGraph × List String) :=
  match payload.node_id with
    | none => .error "KeyError: node_id"
    | some node_id =>
      if ¬ hasNode schema_data node_id then
        .error "ValueError: node does not exist in schema"
      else
        let props := payload.properties.getD []
        if props = [] then .ok (schema_data, state_data, supply)
        else
          let schema := updateNodeAttrs schema_data node_id props
          if objHasKey "units_in_chain" props then
            match unitsOfUpdate ((objGet "units_in_chain" props).getD .null) with
            | .error e => .error e
            | .ok units =>
              let expiryE : Except String (Option Int) :=
                if objHasKey "expiry" props then
                  (expiryOfUpdate ((objGet "expiry" props).getD .null)).map some
                else .ok none
              match expiryE with
              | .error e => .error e
              | .ok expiry =>
                match (getNodeAttrs schema node_id).bind (objGet "node_type") with
                | none => .error "KeyError: node_type"
                | some nt =>
                  (update_state_instances state_data node_id nt units timestamp expiry supply).map
                    (fun p => (schema, p.1, p.2))
          else
            .ok (schema, state_data, supply)

/-- process_schema_update (lines 163-263). -/
def process_schema_update (payload : Payload) (schema_data state_data : DiGraph)
    (timestamp : Int) (supply : List String) :
    Except String (DiGraph × DiGraph × List String) :=
  match payload.source_id, payload.target_id with
  | some source_id, some target_id =>
    match payload.edge_type with
    | none => .error "KeyError: edge_type"
    | some _ =>
      let props := payload.properties.getD []
      let r := edgeUpdateRetry schema_data source_id target_id props
      if r.2.1 = 3 then
        .error "ValueError: edge does not exist after 3 retries"
      else
        .ok (r.1, state_data, supply)
  | _, _ => process_schema_update_node payload schema_data state_data timestamp supply

/-- Node arm of process_schema_delete (lines 317-343), factored out because
both fall-through paths of the key-presence dispatch reach it. -/
def process_schema_delete_node (payload : Payload) (schema_data state_data : DiGraph)
    (timestamp : Int) (supply : List String) :
    Except String (DiGraph × DiGraph × List String) :=
  match payload.node_id with
    | none => .error "KeyError: node_id"
    | some node_id =>
      if ¬ hasNode schema_data node_id then
        .error "ValueError: node does not exist in schema"
      else
        let schema1 :=
          if pyTruthy (payload.cascade.getD (.b false)) then
            removeNodesFrom schema_data (descendants schema_data node_id)
          else schema_data
        let node_properties := (getNodeAttrs schema1 node_id).getD []
        if objHasKey "units_in_chain" node_properties then
          match objGet "node_type" node_properties with
          | none => .error "KeyError: node_type"
          | some nt =>
            (update_state_instances state_data node_id nt 0 timestamp none supply).map
              (fun p => (removeNode schema1 node_id, p.1, p.2))
        else
          .ok (removeNode schema1 node_id, state_data, supply)

/-- process_schema_delete (lines 266-352). -/
def process_schema_delete (payload : Payload) (schema_data state_data : DiGraph)
    (timestamp : Int) (supply : List String) :
    Except String (DiGraph × DiGraph × List String) :=
  match payload.source_id, payload.target_id with
  | some source_id, some target_id =>
    if ¬ hasEdge schema_data source_id target_id then
      .error "ValueError: edge does not exist"
    else
      match payload.edge_type with
      | some et =>
        let edge_data := (getEdgeAttrs schema_data source_id target_id).getD []
        if (objGet "relationship_type" edge_data).getD .null = et then
          .ok (removeEdge schema_data source_id target_id, state_data, supply)
        else
          .ok (schema_data, state_data, supply)
      | none =>
        .ok (removeEdge schema_data source_id target_id, state_data, supply)
  | _, _ => process_schema_delete_node payload schema_data state_data timestamp supply

/-! ## Node-link documents (networkx json_graph, with edges="links") -/

/-- The canonical node-link document. -/
structure NodeLinkDoc where
  directed : Bool
  multigraph : Bool
  graph : Obj
  nodes : List Obj
  links : List Obj
deriving DecidableEq, Repr

def objRemoveKeys (o : Obj) (ks : List String) : Obj :=
  o.filter (fun p => ¬ ks.contains p.1)

/-- json_graph.node_link_graph: nodes first (attribute dict without the id
key), then edges (attributes without source/target; missing endpoints are
added by add_edge). -/
def node_link_graph (doc : NodeLinkDoc) : Except String DiGraph :=
  match doc.nodes.foldlM
      (fun g nd =>
        match objGet "id" nd with
        | none => Except.error "KeyError: id"
        | some i => Except.ok (addNode g i (objRemoveKeys nd ["id"])))
      DiGraph.empty with
  | .error e => .error e
  | .ok g1 =>
    doc.links.foldlM
      (fun g lk =>
        match objGet "source" lk, objGet "target" lk with
        | some sv, some tv => .ok (addEdge g sv tv (objRemoveKeys lk ["source", "target"]))
        | _, _ => .error "KeyError: source/target")
      g1

/-- json_graph.node_link_data: attributes first, then id (resp.
source/target), with directed=true, multigraph=false, graph={}. -/
def node_link_data (g : DiGraph) : NodeLinkDoc :=
  ⟨true, false, [],
   g.nodes.map (fun nd => nd.attrs ++ [("id", nd.id)]),
   g.edges.map (fun e => e.attrs ++ [("source", e.source), ("target", e.target)])⟩

/-- Loop body of process_schema_create_direct (lines 462-491): reconcile a
single imported node carrying units_in_chain against the running state. -/
def directStep (timestamp now : Int) (acc : DiGraph × List String) (nd : NXNode) :
    Except String (DiGraph × List String) :=
  if objHasKey "units_in_chain" nd.attrs then
    let units := unitsOfCreate ((objGet "units_in_chain" nd.attrs).getD (.n 0))
    let expiry : Option Int :=
      if objHasKey "expiry" nd.attrs then
        some (expiryOfCreate now ((objGet "expiry" nd.attrs).getD (.n 0)))
      else none
    update_state_instances acc.1 nd.id
      ((objGet "node_type" nd.attrs).getD (.s "unknown")) units timestamp expiry acc.2
  else .ok acc

/-- process_schema_create_direct (lines 430-505): replace the schema with
the imported graph, then reconcile every imported node carrying
units_in_chain against the current state graph, in node order. -/
def process_schema_create_direct (payload : NodeLinkDoc) (state_data : DiGraph)
    (timestamp now : Int) (supply : List String) :
    Except String (DiGraph × DiGraph × List String) :=
  match node_link_graph payload with
  | .error e => .error e
  | .ok new_schema =>
    match new_schema.nodes.foldlM (directStep timestamp now) (state_data, supply) with
    | .error e => .error e
    | .ok r => .ok (new_schema, r.1, r.2)

/-! ## Compression codec (src/utils/compression.py) -/

/-- The compressed archive form. Mapping keys are the node_type /
relationship_type values (any JSON value, a string in practice). -/
structure CompressedDoc where
  directed : Bool
  multigraph : Bool
  graph : Obj
  node_types : List (Val × List String)
  node_values : List (Val × List (List Val))
  relationship_types : List (Val × List String)
  link_values : List (List Val)
deriving DecidableEq, Repr

def assocGet {β : Type} (k : Val) : List (Val × β) → Option β
  | [] => none
  | (k2, v) :: rest => if k2 = k then some v else assocGet k rest

def assocAppendRow (k : Val) (row : List Val) :
    List (Val × List (List Val)) → List (Val × List (List Val))
  | l => l.map (fun p => if p.1 = k then (k, p.2 ++ [row]) else p)

/-- Python `[rec[key] for key in keys]`; `none` is the KeyError. -/
def recordRow (keys : List String) (rec : Obj) : Option (List Val) :=
  keys.mapM (fun k => objGet k rec)

/-- Node loop of compress_graph_json (lines 13-24). -/
def compressNodesAux :
    List Obj → List (Val × List String) → List (Val × List (List Val)) →
    Except String (List (Val × List String) × List (Val × List (List Val)))
  | [], nts, nvs => .ok (nts, nvs)
  | node :: rest, nts, nvs =>
    match objGet "node_type" node with
    | none => .error "KeyError: node_type"
    | some t =>
      match assocGet t nts with
      | some keys =>
        match recordRow keys node with
        | none => .error "KeyError: node lacks a key of its type bucket"
        | some row => compressNodesAux rest nts (assocAppendRow t row nvs)
      | none =>
        let keys := objKeys node
        match recordRow keys node with
        | none => .error "KeyError: node lacks its own key"
        | some row => compressNodesAux rest (nts ++ [(t, keys)]) (nvs ++ [(t, [row])])

/-- Link loop of compress_graph_json (lines 27-37). -/
def compressLinksAux :
    List Obj → List (Val × List String) → List (List Val) →
    Except String (List (Val × List String) × List (List Val))
  | [], rts, lvs => .ok (rts, lvs)
  | link :: rest, rts, lvs =>
    match objGet "relationship_type" link with
    | none => .error "KeyError: relationship_type"
    | some r =>
      match assocGet r rts with
      | some keys =>
        match recordRow keys link with
        | none => .error "KeyError: link lacks a key of its type bucket"
        | some row => compressLinksAux rest rts (lvs ++ [row])
      | none =>
        let keys := objKeys link
        match recordRow keys link with
        | none => .error "KeyError: link lacks its own key"
        | some row => compressLinksAux rest (rts ++ [(r, keys)]) (lvs ++ [row])

def compress_graph_json (d : NodeLinkDoc) : Except String CompressedDoc :=
  match compressNodesAux d.nodes [] [] with
  | .error e => .error e
  | .ok n =>
    match compressLinksAux d.links [] [] with
    | .error e => .error e
    | .ok l => .ok ⟨d.directed, d.multigraph, d.graph, n.1, n.2, l.1, l.2⟩

/-- dict(zip(keys, values)): truncates at the shorter list. -/
def zipObj (keys : List String) (row : List Val) : Obj := List.zip keys row

/-- Node loop of decompress_graph_json (lines 52-55). -/
def decompressNodes (nts : List (Val × List String)) (nvs : List (Val × List (List Val))) :
    Except String (List Obj) :=
  nts.foldlM
    (fun acc p =>
      match assocGet p.1 nvs with
      | none => .error "KeyError: node_values bucket missing"
      | some rows => .ok (acc ++ rows.map (zipObj p.2)))
    []

/-- Link loop of decompress_graph_json (lines 58-62): the first position of
a value-array is read back as the relationship type. -/
def decompressLinks (rts : List (Val × List String)) (lvs : List (List Val)) :
    Except String (List Obj) :=
  lvs.foldlM
    (fun acc row =>
      match row with
      | [] => .error "IndexError: empty link row"
      | r :: _ =>
        match assocGet r rts with
        | none => .error "KeyError: unknown relationship type"
        | some keys => .ok (acc ++ [zipObj keys row]))
    []

def decompress_graph_json (c : CompressedDoc) : Except String NodeLinkDoc :=
  match decompressNodes c.node_types c.node_values with
  | .error e => .error e
  | .ok nodes =>
    match decompressLinks c.relationship_types c.link_values with
    | .error e => .error e
    | .ok links => .ok ⟨c.directed, c.multigraph, c.graph, nodes, links⟩

/-! ## Worker layer (src/workers/__init__.py) -/

/-- One on-disk live file: absent, undecodable, or a decoded graph. -/
inductive LiveFile where
  | missing
  | corrupt
  | good (g : DiGraph)
deriving DecidableEq, Repr

/-- The per-version file store: the two live files and the two archive
series (archives hold the compressed codec output, keyed by timestamp). -/
structure Store where
  liveSchema : LiveFile
  liveState : LiveFile
  schemaArchive : List (Int × CompressedDoc)
  stateArchive : List (Int × CompressedDoc)
deriving DecidableEq, Repr

/-- create_initial_schema_and_state (lines 269-280): writes BOTH live files
as empty graphs, unconditionally. -/
def createInitialSchemaAndState (st : Store) : Store :=
  { st with liveSchema := .good DiGraph.empty, liveState := .good DiGraph.empty }

/-- load_live_schema (lines 283-290): FileNotFoundError / JSONDecodeError
trigger create_initial_schema_and_state and a reload of the now-empty file. -/
def load_live_schema (st : Store) : Store × DiGraph :=
  match st.liveSchema with
  | .good g => (st, g)
  | _ => (createInitialSchemaAndState st, DiGraph.empty)

/-- load_live_state (lines 293-300), same recovery path. -/
def load_live_state (st : Store) : Store × DiGraph :=
  match st.liveState with
  | .good g => (st, g)
  | _ => (createInitialSchemaAndState st, DiGraph.empty)

/-- Write an archive file <ts>.json (overwrite if present). -/
def archivePut (l : List (Int × CompressedDoc)) (ts : Int) (c : CompressedDoc) :
    List (Int × CompressedDoc) :=
  if l.any (fun p => p.1 = ts) then l.map (fun p => if p.1 = ts then (ts, c) else p)
  else l ++ [(ts, c)]

/-- save_graph with a timestamp (lines 322-339): convert to node-link form,
compress, write to the archive path; a compression KeyError propagates. -/
def save_graph_archive (st : Store) (g : DiGraph) (ts : Int) (is_schema : Bool) :
    Except String Store :=
  match compress_graph_json (node_link_data g) with
  | .error e => .error e
  | .ok c =>
    if is_schema then .ok { st with schemaArchive := archivePut st.schemaArchive ts c }
    else .ok { st with stateArchive := archivePut st.stateArchive ts c }

/-- save_graph without a timestamp (lines 340-352): whole-file write of the
live node-link document. -/
def save_graph_live (st : Store) (g : DiGraph) (is_schema : Bool) : Store :=
  if is_schema then { st with liveSchema := .good g } else { st with liveState := .good g }

/-- The payload slot of a request envelope. -/
inductive PayloadData where
  | single (p : Payload)
  | bulk (ps : List Payload)
  | direct (d : NodeLinkDoc)
deriving DecidableEq, Repr

/-- A queued change request. -/
structure ChangeData where
  version : Option String
  action : String
  timestamp : Int
  payload : PayloadData
deriving DecidableEq, Repr

/-- The action dispatch of process_schema_change (lines 427-533): bulk
variants fold the single-item rules in list order; an unrecognised action
falls through every elif and the unchanged graphs are persisted. A payload
whose shape does not fit the action is a Python TypeError. -/
def applyAction (action : String) (pd : PayloadData) (schema_data state_data : DiGraph)
    (ts now : Int) (supply : List String) :
    Except String (DiGraph × DiGraph × List String) :=
  if action = "create" then
    match pd with
    | .single p => process_schema_create p schema_data state_data ts now supply
    | _ => .error "TypeError: payload shape"
  else if action = "update" then
    match pd with
    | .single p => process_schema_update p schema_data state_data ts supply
    | _ => .error "TypeError: payload shape"
  else if action = "delete" then
    match pd with
    | .single p => process_schema_delete p schema_data state_data ts supply
    | _ => .error "TypeError: payload shape"
  else if action = "bulk_create" then
    match pd with
    | .bulk ps =>
      ps.foldlM (fun acc p => process_schema_create p acc.1 acc.2.1 ts now acc.2.2)
        (schema_data, state_data, supply)
    | _ => .error "TypeError: payload shape"
  else if action = "bulk_update" then
    match pd with
    | .bulk ps =>
      ps.foldlM (fun acc p => process_schema_update p acc.1 acc.2.1 ts acc.2.2)
        (schema_data, state_data, supply)
    | _ => .error "TypeError: payload shape"
  else if action = "bulk_delete" then
    match pd with
    | .bulk ps =>
      ps.foldlM (fun acc p => process_schema_delete p acc.1 acc.2.1 ts acc.2.2)
        (schema_data, state_data, supply)
    | _ => .error "TypeError: payload shape"
  else if action = "direct_create" then
    match pd with
    | .direct d => process_schema_create_direct d state_data ts now supply
    | _ => .error "TypeError: payload shape"
  else
    .ok (schema_data, state_data, supply)

/-- The part of the worker state surviving between payloads: the store and
the process-wide CURRENT_TIMESTAMP global. -/
structure WorkerState where
  store : Store
  currentTimestamp : Option Int
deriving DecidableEq, Repr

/-- Steps 8-10 of process_schema_change: run the action; on success persist
both live files, then both archive snapshots at the current timestamp. -/
def actionPhase (change : ChangeData) (st : Store) (schema_data state_data : DiGraph)
    (ct now : Int) (supply : List String) : Store × Bool :=
  match applyAction change.action change.payload schema_data state_data ct now supply with
  | .error _ => (st, false)
  | .ok r =>
    let st1 := save_graph_live st r.1 true
    let st2 := save_graph_live st1 r.2.1 false
    match save_graph_archive st2 r.1 ct true with
    | .error _ => (st2, false)
    | .ok st3 =>
      match save_graph_archive st3 r.2.1 ct false with
      | .error _ => (st3, false)
      | .ok st4 => (st4, true)

/-- process_schema_change (lines 374-578). The fcntl lock and the
PROCESSING_TIMESTAMPS observability map serialise access and are not
modelled; any exception is caught at the bottom and turned into a False
return. CURRENT_TIMESTAMP is assigned before the initial archive writes
(line 406) but only after the advancing archive writes (line 425). -/
def process_schema_change (change : ChangeData) (ws : WorkerState) (now : Int)
    (supply : List String) : WorkerState × Bool :=
  let l1 := load_live_schema ws.store
  let l2 := load_live_state l1.1
  let st2 := l2.1
  let schema_data := l1.2
  let state_data := l2.2
  match ws.currentTimestamp with
  | none =>
    let ct := change.timestamp
    match save_graph_archive st2 schema_data ct true with
    | .error _ => (⟨st2, some ct⟩, false)
    | .ok st3 =>
      match save_graph_archive st3 state_data ct false with
      | .error _ => (⟨st3, some ct⟩, false)
      | .ok st4 =>
        let r := actionPhase change st4 schema_data state_data ct now supply
        (⟨r.1, some ct⟩, r.2)
  | some ct0 =>
    if change.timestamp ≠ ct0 then
      let ts := change.timestamp
      match save_graph_archive st2 schema_data ts true with
      | .error _ => (⟨st2, some ct0⟩, false)
      | .ok st3 =>
        match save_graph_archive st3 state_data ts false with
        | .error _ => (⟨st3, some ct0⟩, false)
        | .ok st4 =>
          let r := actionPhase change st4 schema_data state_data ts now supply
          (⟨r.1, some ts⟩, r.2)
    else
      let r := actionPhase change st2 schema_data state_data ct0 now supply
      (⟨r.1, some ct0⟩, r.2)

/-! ## Worker queue loop (main_worker, lines 168-253) -/

/-- The two Redis lists: "changes" (pending) and "changes_processing"
(in-flight), holding raw item strings. -/
structure QueueState where
  main : List String
  processing : List String
deriving DecidableEq, Repr

/-- redis LREM with count 0: remove every occurrence of the value. -/
def lrem (l : List String) (x : String) : List String := l.filter (fun y => y ≠ x)

/-- The startup section of main_worker (lines 168-183): name the two
queues, ping Redis and log; on ping failure return, otherwise enter the
loop. No queue operation is performed either way. Returns the queue state
together with whether the loop is entered. -/
def worker_startup (redisUp : Bool) (q : QueueState) : QueueState × Bool :=
  if redisUp then (q, true) else (q, false)

/-- One iteration of the main loop (lines 184-253). `decodeOK` tells
whether json.loads succeeds on an item; `procOK` is the outcome of
process_change. lmove LEFT RIGHT takes the head of pending onto the tail
of in-flight; an empty pending list is a no-op iteration. -/
def worker_iteration (q : QueueState) (decodeOK procOK : String → Bool) : QueueState :=
  match q.main with
  | [] => q
  | x :: rest =>
    let pr := q.processing ++ [x]
    if ¬ decodeOK x then ⟨rest, lrem pr x⟩
    else if procOK x then ⟨rest, lrem pr x⟩
    else ⟨rest ++ [x], lrem pr x⟩

/-- Number of state instances bound to a parent (invariant I2 counts these). -/
def countParent (g : DiGraph) (p : Val) : Nat :=
  (find_nodes_with_property g "parent_id" p).length

/-! ## Counting state instances -/

/-- Does a state node bind to parent `p` through its parent_id attribute
(Python get-default None)? -/
def bindsParent (p : Val) (nd : NXNode) : Bool := (objGet "parent_id" nd.attrs).getD .null = p

/-- countParent restricted to a node list. -/
def countParentL (l : List NXNode) (p : Val) : Nat := l.countP (bindsParent p)

/-- Well-formed graph: node identifiers are pairwise distinct (always true
for a networkx graph). -/
def wfNodes (g : DiGraph) : Prop := (g.nodes.map NXNode.id).Nodup

/-! ## Claim C5 -/

/-- Claim-side definition (from the claim wording, not the source): string
view of an instance id, for the lexical tie-break the claim asserts. -/
def claimIdStr : Val → String
  | .s x => x
  | _ => ""

/-- Claim-side definition: lexicographic order on character lists. -/
def charListLt : List Char → List Char → Bool
  | [], [] => false
  | [], _ :: _ => true
  | _ :: _, [] => false
  | c :: cs, d :: ds =>
    if c.toNat < d.toNat then true
    else if c.toNat = d.toNat then charListLt cs ds
    else false

/-- Claim-side definition: lexicographic order on strings. -/
def strLexLt (a b : String) : Bool := charListLt a.data b.data

/-- Claim-side definition: the eviction precedence the claim asserts —
ascending eviction key, ties broken by lexical order of the instance id. -/
def claimOrderLt (g : DiGraph) (a b : Val) : Bool :=
  valLtB (evictKey g a) (evictKey g b) ||
    (decide (evictKey g a = evictKey g b) && strLexLt (claimIdStr a) (claimIdStr b))

/-- Claim-side definition: insertion sort by a Boolean precedence. -/
def insertSorted (lt : Val → Val → Bool) (x : Val) : List Val → List Val
  | [] => [x]
  | y :: ys => if lt x y then x :: y :: ys else y :: insertSorted lt x ys

def sortByLt (lt : Val → Val → Bool) (l : List Val) : List Val :=
  l.foldr (insertSorted lt) []

/-- Claim-side definition: the order in which the claim says instances are
evicted. -/
def claimEvictionOrder (g : DiGraph) (p : Val) : List Val :=
  sortByLt (claimOrderLt g) (find_nodes_with_property g "parent_id" p)

/-! ## Claim C1: invariant I2 -/

/-- Invariant I2 of the spec: every schema node whose units_in_chain
property is the integer k has exactly k state instances bound to it. -/
def I2 (s t : DiGraph) : Prop :=
  ∀ nd ∈ s.nodes, ∀ k : Int, objGet "units_in_chain" nd.attrs = some (.n k) →
    (countParent t nd.id : Int) = k

/-- A payload property dict as Python produces it: duplicate-free keys, and
(the claim's assumption) any units_in_chain value a non-negative integer. -/
def propsOK (props : Obj) : Prop :=
  (props.map Prod.fst).Nodup ∧
  ∀ v, objGet "units_in_chain" props = some v → ∃ kk : Nat, v = .n kk

def payloadOK (p : Payload) : Prop := ∀ props, p.properties = some props → propsOK props

def pdOK : PayloadData → Prop
  | .single p => payloadOK p
  | .bulk ps => ∀ p ∈ ps, payloadOK p
  | .direct d => ∀ nd ∈ d.nodes, ∀ v, objGet "units_in_chain" nd = some v → ∃ kk : Nat, v = .n kk

/-- The running hypotheses threaded through a sequence of operations. -/
def OpInv (s t : DiGraph) (supply : List String) : Prop :=
  I2 s t ∧ wfNodes t ∧ (∀ id ∈ supply, hasNode t (.s id) = false) ∧ supply.Nodup

/-- Concrete create payload used to witness C1: node A of type T with
units_in_chain 2. -/
def c1wPayload : Payload :=
  Payload.mk (some (.s "A")) (some (.s "T")) none none none none
    (some [("units_in_chain", Val.n 2)])

def c1wInstanceAttrs : Obj :=
  [("parent_id", .s "A"), ("node_type", .s "T"), ("created_at", .n 5),
   ("expiry", .n 31536005)]

def c1wSchema2 : DiGraph :=
  ⟨[⟨.s "A", [("node_type", .s "T"), ("units_in_chain", .n 2)]⟩], []⟩

def c1wState2 : DiGraph :=
  ⟨[⟨.s "i1", c1wInstanceAttrs⟩, ⟨.s "i2", c1wInstanceAttrs⟩], []⟩

/-- compress_graph_json followed by decompress_graph_json, the round trip
the spec asserts for archives. -/
def graphRoundTrip (x : NodeLinkDoc) : Except String NodeLinkDoc :=
  match compress_graph_json x with
  | .error e => .error e
  | .ok c => decompress_graph_json c

/-- A directed node-link document with two nodes of the same node_type but
different property keys, as a schema graph can hold after a property-adding
update of one node of a type. -/
def c2BadDoc : NodeLinkDoc :=
  ⟨true, false, [],
   [[("node_type", .s "T"), ("a", .n 1), ("id", .s "x")],
    [("node_type", .s "T"), ("bk", .n 2), ("id", .s "y")]],
   []⟩

/-- A well-behaved concrete document: two nodes of one type with equal key
sets, two links of one relationship type with relationship_type first. -/
def c2GoodDoc : NodeLinkDoc :=
  ⟨true, false, [],
   [[("node_type", .s "T"), ("id", .s "a")],
    [("node_type", .s "T"), ("id", .s "b")]],
   [[("relationship_type", .s "R"), ("source", .s "a"), ("target", .s "b")],
    [("relationship_type", .s "R"), ("source", .s "b"), ("target", .s "a")]]⟩
/-! ## Basic lemmas about dict and graph operations -/

theorem objGet_objSet (k k2 : String) (v : Val) :
    ∀ o : Obj, objGet k (objSet o k2 v) = if k2 = k then some v else objGet k o
  | [] => by by_cases h : k2 = k <;> simp [objSet, objGet, h]
  | (k0, v0) :: rest => by
    by_cases h0 : k0 = k2
    · subst h0
      by_cases hk : k0 = k <;> simp [objSet, objGet, hk]
    · by_cases hk : k0 = k
      · subst hk
        have h2 : ¬ k2 = k0 := fun h => h0 h.symm
        simp [objSet, objGet, h0, h2]
      · simp [objSet, objGet, h0, hk, objGet_objSet k k2 v rest]

theorem objGet_objUpdate_notin (k : String) (new : Obj) (hk : objHasKey k new = false) :
    ∀ o : Obj, objGet k (objUpdate o new) = objGet k o := by
  induction new with
  | nil => intro o; rfl
  | cons p rest ih =>
    intro o
    obtain ⟨k0, v0⟩ := p
    simp only [objHasKey, objGet] at hk
    by_cases h0 : k0 = k
    · simp [h0] at hk
    · simp only [h0, if_false] at hk
      have hr : objHasKey k rest = false := by simp [objHasKey, hk]
      show objGet k (objUpdate (objSet o k0 v0) rest) = objGet k o
      rw [ih hr, objGet_objSet, if_neg h0]

theorem objGet_objUpdate_in (k : String) (new : Obj) (hnd : (new.map Prod.fst).Nodup)
    (hk : objHasKey k new = true) :
    ∀ o : Obj, objGet k (objUpdate o new) = objGet k new := by
  induction new with
  | nil => simp [objHasKey, objGet] at hk
  | cons p rest ih =>
    intro o
    obtain ⟨k0, v0⟩ := p
    by_cases h0 : k0 = k
    · subst h0
      have hrest : objHasKey k0 rest = false := by
        simp only [List.map_cons, List.nodup_cons] at hnd
        by_contra hc
        simp only [Bool.not_eq_false, objHasKey, Option.isSome_iff_exists] at hc
        obtain ⟨w, hw⟩ := hc
        have hmem : k0 ∈ rest.map Prod.fst := by
          clear ih hk hnd
          induction rest with
          | nil => simp [objGet] at hw
          | cons q qs ihq =>
            obtain ⟨kq, vq⟩ := q
            by_cases hq : kq = k0
            · simp [hq]
            · simp only [objGet, hq, if_false] at hw
              simp [ihq hw]
        exact hnd.1 hmem
      show objGet k0 (objUpdate (objSet o k0 v0) rest) = _
      rw [objGet_objUpdate_notin k0 rest hrest, objGet_objSet, if_pos rfl]
      simp [objGet]
    · simp only [objGet, h0, if_false]
      simp only [List.map_cons, List.nodup_cons] at hnd
      simp only [objHasKey, objGet, h0, if_false] at hk
      show objGet k (objUpdate (objSet o k0 v0) rest) = _
      rw [ih hnd.2 hk]

theorem find_nodes_length (g : DiGraph) (k : String) (v : Val) :
    (find_nodes_with_property g k v).length =
      g.nodes.countP (fun nd => (objGet k nd.attrs).getD .null = v) := by
  show (g.nodes.filterMap _).length = _
  induction g.nodes with
  | nil => rfl
  | cons nd rest ih =>
    by_cases h : (objGet k nd.attrs).getD .null = v
    · simp [List.filterMap_cons, h, List.countP_cons, ih]
    · simp [List.filterMap_cons, h, List.countP_cons, ih]

theorem countParent_eq (g : DiGraph) (p : Val) : countParent g p = countParentL g.nodes p := by
  unfold countParent countParentL bindsParent
  exact find_nodes_length g "parent_id" p

theorem mem_find_nodes {g : DiGraph} {k : String} {v x : Val} :
    x ∈ find_nodes_with_property g k v ↔
      ∃ nd, nd ∈ g.nodes ∧ nd.id = x ∧ (objGet k nd.attrs).getD .null = v := by
  show x ∈ g.nodes.filterMap _ ↔ _
  rw [List.mem_filterMap]
  constructor
  · rintro ⟨nd, hmem, hf⟩
    by_cases h : (objGet k nd.attrs).getD .null = v
    · rw [if_pos h] at hf
      exact ⟨nd, hmem, Option.some_inj.mp hf, h⟩
    · rw [if_neg h] at hf; cases hf
  · rintro ⟨nd, hmem, hid, h⟩
    exact ⟨nd, hmem, by rw [if_pos h, hid]⟩

theorem wfNodes_removeNode (g : DiGraph) (v : Val) (h : wfNodes g) :
    wfNodes (removeNode g v) := by
  unfold wfNodes removeNode at *
  exact ((List.filter_sublist g.nodes).map NXNode.id).nodup h

theorem countParentL_removeNode (g : DiGraph) (v : Val) (hwf : wfNodes g)
    {nd0 : NXNode} (hmem : nd0 ∈ g.nodes) (hid : nd0.id = v) :
    ∀ q : Val, countParentL (removeNode g v).nodes q
      = countParentL g.nodes q - (if bindsParent q nd0 then 1 else 0) := by
  intro q
  obtain ⟨l1, l2, hdecomp⟩ := List.append_of_mem hmem
  have hno : ∀ x ∈ l1 ++ l2, x.id ≠ v := by
    intro x hx
    have hnd : ((l1 ++ nd0 :: l2).map NXNode.id).Nodup := by rw [← hdecomp]; exact hwf
    simp only [List.map_append, List.map_cons, List.nodup_append, List.nodup_cons] at hnd
    intro hxv
    rcases List.mem_append.mp hx with h1 | h2
    · exact hnd.2.2 (List.mem_map_of_mem NXNode.id h1) (by simp [hxv, hid])
    · refine hnd.2.1.1 ?_
      rw [hid, ← hxv]
      exact List.mem_map_of_mem NXNode.id h2
  have hf1 : l1.filter (fun nd => !decide (nd.id = v)) = l1 :=
    List.filter_eq_self.mpr (fun a ha => by simpa using hno a (List.mem_append_left _ ha))
  have hf2 : l2.filter (fun nd => !decide (nd.id = v)) = l2 :=
    List.filter_eq_self.mpr (fun a ha => by simpa using hno a (List.mem_append_right _ ha))
  have hfil : (removeNode g v).nodes = l1 ++ l2 := by
    show g.nodes.filter (fun nd => decide (nd.id ≠ v)) = l1 ++ l2
    rw [hdecomp, List.filter_append, List.filter_cons]
    simp [hid, hf1, hf2]
  rw [hfil, hdecomp]
  unfold countParentL
  simp only [List.countP_append, List.countP_cons]
  by_cases hb : bindsParent q nd0
  · simp [hb]
  · simp [hb]

/-! ## Spec lemmas for the reconciliation loop -/

theorem foldl_pick_mem {α : Type} (c : α → α → Bool) :
    ∀ (xs : List α) (x : α),
      xs.foldl (fun best y => if c y best then y else best) x ∈ x :: xs
  | [], x => by simp
  | y :: ys, x => by
    simp only [List.foldl_cons]
    by_cases hc : c y x
    · rw [if_pos hc]
      rcases List.mem_cons.mp (foldl_pick_mem c ys y) with h1 | h1
      · exact List.mem_cons.mpr (Or.inr (List.mem_cons.mpr (Or.inl h1)))
      · exact List.mem_cons.mpr (Or.inr (List.mem_cons.mpr (Or.inr h1)))
    · rw [if_neg hc]
      rcases List.mem_cons.mp (foldl_pick_mem c ys x) with h1 | h1
      · exact List.mem_cons.mpr (Or.inl h1)
      · exact List.mem_cons.mpr (Or.inr (List.mem_cons.mpr (Or.inr h1)))

theorem firstMinBy_mem {key : Val → Val} {l : List Val} {v : Val}
    (h : firstMinBy key l = some v) : v ∈ l := by
  cases l with
  | nil => cases h
  | cons x xs =>
    simp only [firstMinBy, Option.some_inj] at h
    rw [← h]
    exact foldl_pick_mem _ xs x

theorem hasNode_true_iff {g : DiGraph} {v : Val} :
    hasNode g v = true ↔ ∃ nd, nd ∈ g.nodes ∧ nd.id = v := by
  simp [hasNode, List.any_eq_true]

theorem evictLoop_spec (p : Val) :
    ∀ (m : Nat) (g g2 : DiGraph), wfNodes g → evictLoop p m g = .ok g2 →
      wfNodes g2 ∧
      countParentL g2.nodes p + m = countParentL g.nodes p ∧
      (∀ q, q ≠ p → countParentL g2.nodes q = countParentL g.nodes q) ∧
      (∀ nd, nd ∈ g2.nodes → nd ∈ g.nodes)
  | 0, g, g2, hwf, hok => by
    simp only [evictLoop, Except.ok.injEq] at hok
    subst hok
    exact ⟨hwf, by omega, fun q _ => rfl, fun nd h => h⟩
  | m + 1, g, g2, hwf, hok => by
    simp only [evictLoop] at hok
    by_cases hcomp :
        pairwiseComparable ((find_nodes_with_property g "parent_id" p).map (evictKey g))
    · rw [if_pos hcomp] at hok
      cases hmin : firstMinBy (evictKey g) (find_nodes_with_property g "parent_id" p) with
      | none => rw [hmin] at hok; cases hok
      | some v =>
        rw [hmin] at hok
        obtain ⟨nd0, hnd0, hid0, hbind⟩ := mem_find_nodes.mp (firstMinBy_mem hmin)
        have hrec := evictLoop_spec p m (removeNode g v) g2 (wfNodes_removeNode g v hwf) hok
        have hcount := countParentL_removeNode g v hwf hnd0 hid0
        have hbp : bindsParent p nd0 = true := by simp [bindsParent, hbind]
        refine ⟨hrec.1, ?_, ?_, ?_⟩
        · have h1 := hcount p
          rw [hbp, if_pos rfl] at h1
          have hpos : 1 ≤ countParentL g.nodes p := by
            unfold countParentL
            have h2 : 0 < List.countP (bindsParent p) g.nodes :=
              List.countP_pos_iff.mpr ⟨nd0, hnd0, hbp⟩
            omega
          omega
        · intro q hq
          have h1 := hcount q
          have : bindsParent q nd0 = false := by
            simp [bindsParent, hbind, Ne.symm hq]
          rw [this] at h1
          simp at h1
          rw [hrec.2.2.1 q hq, h1]
        · intro nd hnd
          have := hrec.2.2.2 nd hnd
          show nd ∈ g.nodes
          have hsub : (removeNode g v).nodes.Sublist g.nodes := List.filter_sublist g.nodes
          exact hsub.mem this
    · rw [if_neg hcomp] at hok
      cases hok

theorem hasNode_append_iff {ns : List NXNode} {ms : List NXNode} {es : List NXEdge} {v : Val} :
    hasNode ⟨ns ++ ms, es⟩ v = (hasNode ⟨ns, es⟩ v || hasNode ⟨ms, es⟩ v) := by
  simp [hasNode, List.any_append]

theorem creation_fold (p ty : Val) (t e : Int) :
    ∀ (ids : List String) (g : DiGraph),
      (∀ id ∈ ids, hasNode g (.s id) = false) → ids.Nodup →
      (ids.foldl (fun g2 fid => addNode g2 (.s fid) (instanceAttrs p ty t e)) g)
        = ⟨g.nodes ++ ids.map (fun fid => ⟨.s fid, instanceAttrs p ty t e⟩), g.edges⟩
  | [], g, _, _ => by simp
  | id0 :: rest, g, hfresh, hnd => by
    simp only [List.foldl_cons]
    have h0 : hasNode g (.s id0) = false := hfresh id0 (by simp)
    have hadd : addNode g (.s id0) (instanceAttrs p ty t e)
        = ⟨g.nodes ++ [⟨.s id0, instanceAttrs p ty t e⟩], g.edges⟩ := by
      unfold addNode
      rw [h0]
      simp
    rw [hadd]
    have hfresh2 : ∀ id ∈ rest,
        hasNode ⟨g.nodes ++ [⟨.s id0, instanceAttrs p ty t e⟩], g.edges⟩ (.s id) = false := by
      intro id hid
      rw [hasNode_append_iff]
      have h1 : hasNode ⟨g.nodes, g.edges⟩ (.s id) = false := hfresh id (by simp [hid])
      have h2 : hasNode ⟨[⟨.s id0, instanceAttrs p ty t e⟩], g.edges⟩ (.s id) = false := by
        simp only [hasNode, List.any_cons, List.any_nil, Bool.or_false]
        have : id0 ≠ id := by
          intro hc
          subst hc
          exact (List.nodup_cons.mp hnd).1 hid
        simp [this]
      rw [h1, h2]
      rfl
    rw [creation_fold p ty t e rest _ hfresh2 (List.nodup_cons.mp hnd).2]
    simp

theorem val_s_injective : Function.Injective Val.s := fun a b h => by cases h; rfl

/-- Behaviour of a successful update_state_instances run: the parent reaches
exactly the target count, every other parent keeps its count, identifiers
stay well formed and fresh, and any node not already present carries the
instance attributes. -/
theorem usi_spec {state : DiGraph} {p ty : Val} {k t : Int} {e : Option Int}
    {supply : List String} {g2 : DiGraph} {sup2 : List String}
    (hwf : wfNodes state)
    (hfresh : ∀ id ∈ supply, hasNode state (.s id) = false)
    (hnd : supply.Nodup)
    (hok : update_state_instances state p ty k t e supply = .ok (g2, sup2)) :
    wfNodes g2 ∧
    (countParentL g2.nodes p : Int) = k ∧
    (∀ q, q ≠ p → countParentL g2.nodes q = countParentL state.nodes q) ∧
    (∀ id ∈ sup2, hasNode g2 (.s id) = false) ∧
    sup2.Nodup ∧
    (∀ nd ∈ g2.nodes, nd ∈ state.nodes ∨ nd.attrs = instanceAttrs p ty t (e.getD (t + 31536000))) := by
  unfold update_state_instances at hok
  simp only [] at hok
  set cur := (find_nodes_with_property state "parent_id" p).length with hcurdef
  have hcur : cur = countParentL state.nodes p := by
    rw [hcurdef, find_nodes_length]; rfl
  by_cases h1 : k < (cur : Int)
  · rw [if_pos h1] at hok
    cases hev : evictLoop p ((cur : Int) - k).toNat state with
    | error msg => rw [hev] at hok; cases hok
    | ok gg =>
      rw [hev] at hok
      simp only [Except.map, Except.ok.injEq, Prod.mk.injEq] at hok
      obtain ⟨hg2, hsup⟩ := hok
      rw [hg2] at hev
      subst hsup
      obtain ⟨hwf2, hcnt, hothers, hsub⟩ := evictLoop_spec p _ state g2 hwf hev
      have hm : ((((cur : Int) - k).toNat : Nat) : Int) = (cur : Int) - k :=
        Int.toNat_of_nonneg (by omega)
      have hcast : (countParentL g2.nodes p : Int) + ((((cur : Int) - k).toNat : Nat) : Int)
          = (countParentL state.nodes p : Int) := by exact_mod_cast hcnt
      have hfresh2 : ∀ id ∈ supply, hasNode g2 (.s id) = false := by
        intro id hid
        by_contra hc
        have hc2 : hasNode g2 (.s id) = true := by simpa using hc
        obtain ⟨nd, hnd2, hideq⟩ := hasNode_true_iff.mp hc2
        have : hasNode state (.s id) = true := hasNode_true_iff.mpr ⟨nd, hsub nd hnd2, hideq⟩
        rw [hfresh id hid] at this; cases this
      refine ⟨hwf2, by omega, hothers, hfresh2, hnd, fun nd h => Or.inl (hsub nd h)⟩
  · rw [if_neg h1] at hok
    by_cases h2 : (cur : Int) < k
    · rw [if_pos h2] at hok
      set need := (k - (cur : Int)).toNat with hneeddef
      by_cases h3 : supply.length < need
      · rw [if_pos h3] at hok; cases hok
      · rw [if_neg h3] at hok
        simp only [Except.ok.injEq, Prod.mk.injEq] at hok
        obtain ⟨hg2, hsup⟩ := hok
        have htakesub : ∀ id ∈ supply.take need, id ∈ supply :=
          fun id hid => List.take_subset need supply hid
        have htakefresh : ∀ id ∈ supply.take need, hasNode state (.s id) = false :=
          fun id hid => hfresh id (htakesub id hid)
        have htakend : (supply.take need).Nodup := hnd.sublist (List.take_sublist need supply)
        have hfold := creation_fold p ty t (e.getD (t + 31536000)) (supply.take need)
          state htakefresh htakend
        rw [hfold] at hg2
        subst hg2
        have hlen : (supply.take need).length = need := by
          rw [List.length_take]; omega
        have hneedint : ((need : Nat) : Int) = k - (cur : Int) :=
          Int.toNat_of_nonneg (by omega)
        set newNodes := (supply.take need).map
          (fun fid => NXNode.mk (.s fid) (instanceAttrs p ty t (e.getD (t + 31536000))))
          with hnewdef
        have hcp : countParentL newNodes p = need := by
          rw [hnewdef]
          unfold countParentL
          rw [List.countP_eq_length.mpr, List.length_map, hlen]
          intro a ha
          obtain ⟨fid, _, hfid⟩ := List.mem_map.mp ha
          rw [← hfid]
          simp [bindsParent, instanceAttrs, objGet]
        have hcq : ∀ q, q ≠ p → countParentL newNodes q = 0 := by
          intro q hq
          rw [hnewdef]
          unfold countParentL
          rw [List.countP_eq_zero.mpr]
          intro a ha
          obtain ⟨fid, _, hfid⟩ := List.mem_map.mp ha
          rw [← hfid]
          simp [bindsParent, instanceAttrs, objGet, Ne.symm hq]
        have hcountapp : ∀ q, countParentL (state.nodes ++ newNodes) q
            = countParentL state.nodes q + countParentL newNodes q := by
          intro q; unfold countParentL; exact List.countP_append _ _ _
        have hwf2 : wfNodes ⟨state.nodes ++ newNodes, state.edges⟩ := by
          unfold wfNodes
          simp only [List.map_append]
          rw [List.nodup_append]
          refine ⟨hwf, ?_, ?_⟩
          · rw [hnewdef, List.map_map]
            exact htakend.map (fun a b h => val_s_injective (by simpa using h))
          · intro a ha hb
            rw [hnewdef, List.map_map] at hb
            obtain ⟨fid, hfid, hfeq⟩ := List.mem_map.mp hb
            obtain ⟨nd, hndmem, hndid⟩ := List.mem_map.mp ha
            have : hasNode state (.s fid) = true :=
              hasNode_true_iff.mpr ⟨nd, hndmem, by rw [hndid, ← hfeq]; rfl⟩
            rw [htakefresh fid hfid] at this; cases this
        have hfresh2 : ∀ id ∈ supply.drop need,
            hasNode ⟨state.nodes ++ newNodes, state.edges⟩ (.s id) = false := by
          intro id hid
          rw [hasNode_append_iff]
          have ha : hasNode ⟨state.nodes, state.edges⟩ (.s id) = false :=
            hfresh id (List.drop_subset need supply hid)
          have hb : hasNode ⟨newNodes, state.edges⟩ (.s id) = false := by
            by_contra hc
            have hc2 : hasNode ⟨newNodes, state.edges⟩ (.s id) = true := by simpa using hc
            obtain ⟨nd, hndmem, hndid⟩ := hasNode_true_iff.mp hc2
            rw [hnewdef] at hndmem
            obtain ⟨fid, hfid, hfeq⟩ := List.mem_map.mp hndmem
            have : fid = id := by
              apply val_s_injective
              rw [← hndid, ← hfeq]
            subst this
            exact (List.disjoint_take_drop hnd (le_refl need)) hfid hid
          rw [ha, hb]; rfl
        subst hsup
        refine ⟨hwf2, ?_, ?_, hfresh2, hnd.sublist (List.drop_sublist need supply), ?_⟩
        · rw [hcountapp, hcp]
          push_cast
          omega
        · intro q hq
          rw [hcountapp, hcq q hq]
          omega
        · intro nd hndmem
          rcases List.mem_append.mp hndmem with h | h
          · exact Or.inl h
          · rw [hnewdef] at h
            obtain ⟨fid, _, hfeq⟩ := List.mem_map.mp h
            exact Or.inr (by rw [← hfeq])
    · rw [if_neg h2] at hok
      simp only [Except.ok.injEq, Prod.mk.injEq] at hok
      obtain ⟨hg2, hsup⟩ := hok
      subst hg2; subst hsup
      exact ⟨hwf, by omega, fun q _ => rfl, hfresh, hnd, fun nd h => Or.inl h⟩

/-! ## Accessor lemmas -/

theorem find?_nodes_eq_none {g : DiGraph} {v : Val} (h : hasNode g v = false) :
    g.nodes.find? (fun nd => nd.id = v) = none := by
  rw [List.find?_eq_none]
  intro nd hmem
  simp only [decide_eq_true_eq]
  intro hc
  have h2 : hasNode g v = true := hasNode_true_iff.mpr ⟨nd, hmem, hc⟩
  rw [h2] at h; cases h

theorem getNodeAttrs_addNode_fresh {g : DiGraph} {v : Val} (a : Obj)
    (h : hasNode g v = false) : getNodeAttrs (addNode g v a) v = some a := by
  unfold addNode
  rw [h]
  simp only [Bool.false_eq_true, if_false]
  unfold getNodeAttrs
  rw [List.find?_append, find?_nodes_eq_none h]
  simp [List.find?]

theorem getNodeAttrs_isSome_hasNode {g : DiGraph} {v : Val} {a : Obj}
    (h : getNodeAttrs g v = some a) : hasNode g v = true := by
  unfold getNodeAttrs at h
  cases hf : g.nodes.find? (fun nd => nd.id = v) with
  | none => rw [hf] at h; cases h
  | some nd =>
    have hm := List.mem_of_find?_eq_some hf
    have hp := List.find?_some hf
    simp only [decide_eq_true_eq] at hp
    exact hasNode_true_iff.mpr ⟨nd, hm, hp⟩

theorem find?_map_nodeUpdate (v : Val) (new : Obj) :
    ∀ l : List NXNode,
      (l.map (fun nd => if nd.id = v then NXNode.mk nd.id (objUpdate nd.attrs new) else nd)).find?
          (fun nd => nd.id = v)
        = (l.find? (fun nd => nd.id = v)).map
            (fun nd => NXNode.mk nd.id (objUpdate nd.attrs new))
  | [] => rfl
  | nd :: rest => by
    by_cases hc : nd.id = v
    · simp [List.find?_cons, hc]
    · simp [List.find?_cons, hc, find?_map_nodeUpdate v new rest]

theorem getNodeAttrs_updateNodeAttrs_self (g : DiGraph) (v : Val) (new : Obj) :
    getNodeAttrs (updateNodeAttrs g v new) v
      = (getNodeAttrs g v).map (fun a => objUpdate a new) := by
  unfold getNodeAttrs updateNodeAttrs
  dsimp only
  rw [find?_map_nodeUpdate]
  cases g.nodes.find? (fun nd => nd.id = v) <;> rfl

theorem find?_map_edgeUpdate (src tgt : Val) (new : Obj) :
    ∀ l : List NXEdge,
      (l.map (fun e => if e.source = src ∧ e.target = tgt
          then NXEdge.mk src tgt (objUpdate e.attrs new) else e)).find?
          (fun e => e.source = src ∧ e.target = tgt)
        = (l.find? (fun e => e.source = src ∧ e.target = tgt)).map
            (fun e => NXEdge.mk src tgt (objUpdate e.attrs new))
  | [] => rfl
  | e :: rest => by
    by_cases hc : e.source = src ∧ e.target = tgt
    · simp [List.find?_cons, hc]
    · rw [List.map_cons, if_neg hc,
          List.find?_cons_of_neg _ (by simpa using hc),
          List.find?_cons_of_neg _ (by simpa using hc)]
      exact find?_map_edgeUpdate src tgt new rest

theorem getEdgeAttrs_updateEdgeAttrs (g : DiGraph) (src tgt : Val) (new : Obj) :
    getEdgeAttrs (updateEdgeAttrs g src tgt new) src tgt
      = (getEdgeAttrs g src tgt).map (fun a => objUpdate a new) := by
  unfold getEdgeAttrs updateEdgeAttrs
  dsimp only
  rw [find?_map_edgeUpdate]
  cases g.edges.find? (fun e => e.source = src ∧ e.target = tgt) <;> rfl

theorem getEdgeAttrs_of_hasEdge {g : DiGraph} {src tgt : Val}
    (h : hasEdge g src tgt = true) : ∃ a, getEdgeAttrs g src tgt = some a := by
  unfold hasEdge at h
  rw [List.any_eq_true] at h
  obtain ⟨e, hmem, hp⟩ := h
  unfold getEdgeAttrs
  cases hf : g.edges.find? (fun e2 => e2.source = src ∧ e2.target = tgt) with
  | none =>
    rw [List.find?_eq_none] at hf
    exact absurd hp (by simpa using hf e hmem)
  | some e2 => exact ⟨e2.attrs, rfl⟩

theorem hasEdge_of_getEdgeAttrs {g : DiGraph} {src tgt : Val} {a : Obj}
    (h : getEdgeAttrs g src tgt = some a) : hasEdge g src tgt = true := by
  unfold getEdgeAttrs at h
  cases hf : g.edges.find? (fun e2 => e2.source = src ∧ e2.target = tgt) with
  | none => rw [hf] at h; cases h
  | some e2 =>
    have hm := List.mem_of_find?_eq_some hf
    have hp := List.find?_some hf
    unfold hasEdge
    rw [List.any_eq_true]
    exact ⟨e2, hm, hp⟩

/-! ## Claim C10 -/

/-- C10: an edge-delete payload whose (source_id, target_id) edge exists but
whose given edge_type differs from the stored relationship_type completes
successfully while leaving the schema and state graphs untouched: the type
mismatch is a silent no-op, not a MissingEdge failure. -/
theorem C10_edge_delete_type_mismatch_noop (payload : Payload) (schema state : DiGraph)
    (ts : Int) (supply : List String) (src tgt et : Val)
    (hs : payload.source_id = some src) (ht : payload.target_id = some tgt)
    (he : payload.edge_type = some et)
    (hedge : hasEdge schema src tgt = true)
    (hmm2 : ¬ (objGet "relationship_type" ((getEdgeAttrs schema src tgt).getD [])).getD .null = et) :
    process_schema_delete payload schema state ts supply = .ok (schema, state, supply) := by
  unfold process_schema_delete
  rw [hs, ht]
  dsimp only
  rw [hedge]
  simp only [Bool.not_eq_true, not_true_eq_false, Bool.true_eq_false, if_false]
  rw [he]
  dsimp only
  rw [if_neg hmm2]

/-- C10 witness: a concrete run on an edge of type "r" deleted with
edge_type "q". -/
theorem C10_witness :
    process_schema_delete
      { source_id := some (.s "a"), target_id := some (.s "b"), edge_type := some (.s "q") }
      ⟨[⟨.s "a", [("node_type", .s "T")]⟩, ⟨.s "b", [("node_type", .s "T")]⟩],
       [⟨.s "a", .s "b", [("relationship_type", .s "r")]⟩]⟩
      DiGraph.empty 7 []
      = .ok (⟨[⟨.s "a", [("node_type", .s "T")]⟩, ⟨.s "b", [("node_type", .s "T")]⟩],
             [⟨.s "a", .s "b", [("relationship_type", .s "r")]⟩]⟩, DiGraph.empty, []) :=
  C10_edge_delete_type_mismatch_noop _ _ _ _ _ (.s "a") (.s "b") (.s "q")
    rfl rfl rfl (by decide) (by decide)

/-! ## Claim C7 -/

/-- C7: an edge-update payload on an absent (source_id, target_id) edge
re-checks the edge 3 times with a 0.1 second sleep between attempts (2
sleeps) and then fails with the missing-edge ValueError; on a present edge
the payload properties are merged into the edge attributes and the
operation succeeds. -/
theorem C7_edge_update_retry_behaviour (payload : Payload) (schema state : DiGraph)
    (ts : Int) (supply : List String) (src tgt et : Val)
    (hs : payload.source_id = some src) (ht : payload.target_id = some tgt)
    (he : payload.edge_type = some et) :
    (hasEdge schema src tgt = false →
      process_schema_update payload schema state ts supply
        = .error "ValueError: edge does not exist after 3 retries" ∧
      (edgeUpdateRetry schema src tgt (payload.properties.getD [])).2.2.1 = 3 ∧
      (edgeUpdateRetry schema src tgt (payload.properties.getD [])).2.2.2 = 2) ∧
    (∀ a0, getEdgeAttrs schema src tgt = some a0 →
      ∃ s2, process_schema_update payload schema state ts supply = .ok (s2, state, supply) ∧
        getEdgeAttrs s2 src tgt = some (objUpdate a0 (payload.properties.getD []))) := by
  constructor
  · intro hne
    have hloop : edgeUpdateRetry schema src tgt (payload.properties.getD [])
        = (schema, 3, 3, 2) := by
      unfold edgeUpdateRetry edgeUpdateGo
      rw [hne]
      simp [edgeUpdateGo, hne]
    refine ⟨?_, by rw [hloop], by rw [hloop]⟩
    unfold process_schema_update
    rw [hs, ht]
    dsimp only
    rw [he]
    dsimp only
    rw [hloop]
    rfl
  · intro a0 ha0
    have hhe : hasEdge schema src tgt = true := hasEdge_of_getEdgeAttrs ha0
    have hloop : edgeUpdateRetry schema src tgt (payload.properties.getD [])
        = ((if (payload.properties.getD []) = [] then schema
            else updateEdgeAttrs schema src tgt (payload.properties.getD [])), 0, 1, 0) := by
      unfold edgeUpdateRetry edgeUpdateGo
      rw [hhe]
      simp
    refine ⟨(if (payload.properties.getD []) = [] then schema
             else updateEdgeAttrs schema src tgt (payload.properties.getD [])), ?_, ?_⟩
    · unfold process_schema_update
      rw [hs, ht]
      dsimp only
      rw [he]
      dsimp only
      rw [hloop]
      dsimp only
      rw [if_neg (by omega)]
    · by_cases hp : (payload.properties.getD []) = []
      · rw [if_pos hp, ha0, hp]
        rfl
      · rw [if_neg hp, getEdgeAttrs_updateEdgeAttrs, ha0]
        rfl

/-- C7 witness: both branches at concrete inputs: an absent edge fails
after 3 checks and 2 sleeps; a present edge gets its properties merged. -/
theorem C7_witness :
    (process_schema_update
        { source_id := some (.s "a"), target_id := some (.s "b"), edge_type := some (.s "r"),
          properties := some [("w", .n 2)] }
        ⟨[⟨.s "a", []⟩, ⟨.s "b", []⟩], []⟩ DiGraph.empty 1 []
      = .error "ValueError: edge does not exist after 3 retries") ∧
    (∃ s2, process_schema_update
        { source_id := some (.s "a"), target_id := some (.s "b"), edge_type := some (.s "r"),
          properties := some [("w", .n 2)] }
        ⟨[⟨.s "a", []⟩, ⟨.s "b", []⟩],
         [⟨.s "a", .s "b", [("relationship_type", .s "r"), ("w", .n 1)]⟩]⟩
        DiGraph.empty 1 []
      = .ok (s2, DiGraph.empty, []) ∧
      getEdgeAttrs s2 (.s "a") (.s "b")
        = some [("relationship_type", .s "r"), ("w", .n 2)]) := by
  constructor
  · exact ((C7_edge_update_retry_behaviour _ _ _ _ _ (.s "a") (.s "b") (.s "r")
      rfl rfl rfl).1 (by decide)).1
  · obtain ⟨s2, h1, h2⟩ := (C7_edge_update_retry_behaviour
      { source_id := some (.s "a"), target_id := some (.s "b"), edge_type := some (.s "r"),
        properties := some [("w", .n 2)] }
      ⟨[⟨.s "a", []⟩, ⟨.s "b", []⟩],
       [⟨.s "a", .s "b", [("relationship_type", .s "r"), ("w", .n 1)]⟩]⟩
      DiGraph.empty 1 [] (.s "a") (.s "b") (.s "r") rfl rfl rfl).2
      [("relationship_type", .s "r"), ("w", .n 1)] (by decide)
    exact ⟨s2, h1, by rw [h2]; decide⟩

/-! ## Claim C8 -/

/-- C8 counterexample: with pending empty and one item "x" left in-flight,
the claim demands that startup produce queues (["x"], []); the worker
startup section performs no queue operation at all. -/
theorem C8_counterexample :
    (worker_startup true ⟨[], ["x"]⟩).1 ≠ ⟨["x"], []⟩ := by decide

/-- C8 (amended): the worker performs no startup sweep: startup leaves both
queues untouched, an iteration with an empty pending queue changes nothing,
and an item sitting in the in-flight list is never requeued by an iteration
that takes a different item (it is only removed when an identical raw
string is processed, via LREM count 0). -/
theorem C8_amended_no_startup_sweep :
    (∀ (redisUp : Bool) (q : QueueState), (worker_startup redisUp q).1 = q) ∧
    (∀ (pr : List String) (f g : String → Bool), worker_iteration ⟨[], pr⟩ f g = ⟨[], pr⟩) ∧
    (∀ (q : QueueState) (f g : String → Bool) (y : String),
      y ∈ q.processing → (∀ x, q.main.head? = some x → y ≠ x) →
      y ∈ (worker_iteration q f g).processing) := by
  refine ⟨fun r q => by cases r <;> rfl, fun pr f g => rfl, ?_⟩
  intro q f g y hy hne
  cases hm : q.main with
  | nil =>
    unfold worker_iteration
    rw [hm]
    exact hy
  | cons x rest =>
    have hyx : y ≠ x := hne x (by rw [hm]; rfl)
    have hmem : y ∈ lrem (q.processing ++ [x]) x := by
      unfold lrem
      rw [List.mem_filter]
      exact ⟨List.mem_append_left _ hy, by simp [hyx]⟩
    unfold worker_iteration
    rw [hm]
    by_cases h1 : f x
    · by_cases h2 : g x
      · simp only [h1, h2]
        simpa using hmem
      · simp only [h1, h2]
        simpa using hmem
    · simp only [h1]
      simpa using hmem

/-- C8 witness for the amended statement: a stale in-flight item "y"
survives an iteration that processes the unrelated pending item "a". -/
theorem C8_amended_witness :
    "y" ∈ (worker_iteration ⟨["a"], ["y"]⟩ (fun _ => true) (fun _ => true)).processing :=
  C8_amended_no_startup_sweep.2.2 ⟨["a"], ["y"]⟩ (fun _ => true) (fun _ => true) "y"
    (by decide) (fun x hx => by
      simp only [List.head?] at hx
      cases hx
      decide)

/-! ## Claim C9 -/

/-- C9 counterexample: creating a fresh node A at event timestamp 5
succeeds, but the stored node carries neither created_at nor updated_at:
no timestamp is stamped from the event. -/
theorem C9_counterexample :
    (process_schema_create
        { node_id := some (.s "A"), node_type := some (.s "T"), properties := some [] }
        DiGraph.empty DiGraph.empty 5 0 []).map
      (fun r => (objGet "created_at" ((getNodeAttrs r.1 (.s "A")).getD []),
                 objGet "updated_at" ((getNodeAttrs r.1 (.s "A")).getD [])))
      = .ok (none, none) := by rfl

/-- C9 (amended): node create and node update stamp no timestamps. A fresh
create stores exactly node_type plus the payload properties, so created_at
and updated_at are present only when the producer supplied them; an update
merges exactly the payload properties into the node, so updated_at keeps
its previous value unless the payload itself carries one. -/
theorem C9_amended_no_timestamp_stamping
    (payload : Payload) (node_id nt : Val) (props : Obj)
    (hni : payload.node_id = some node_id) (hsrc : payload.source_id = none)
    (hnt : payload.node_type = some nt) (hp : payload.properties = some props) :
    (∀ (s t s2 t2 : DiGraph) (ts now : Int) (supply sup2 : List String),
       hasNode s node_id = false →
       process_schema_create payload s t ts now supply = .ok (s2, t2, sup2) →
       getNodeAttrs s2 node_id = some (objUpdate [("node_type", nt)] props) ∧
       (objHasKey "created_at" props = false →
         objGet "created_at" ((getNodeAttrs s2 node_id).getD []) = none) ∧
       (objHasKey "updated_at" props = false →
         objGet "updated_at" ((getNodeAttrs s2 node_id).getD []) = none)) ∧
    (∀ (s t s2 t2 : DiGraph) (ts : Int) (supply sup2 : List String) (a0 : Obj),
       getNodeAttrs s node_id = some a0 →
       process_schema_update payload s t ts supply = .ok (s2, t2, sup2) →
       getNodeAttrs s2 node_id = some (objUpdate a0 props) ∧
       (objHasKey "updated_at" props = false →
         objGet "updated_at" ((getNodeAttrs s2 node_id).getD []) = objGet "updated_at" a0)) := by
  have hbase_created : objGet "created_at" [("node_type", nt)] = none := by
    simp [objGet]
  have hbase_updated : objGet "updated_at" [("node_type", nt)] = none := by
    simp [objGet]
  constructor
  · intro s t s2 t2 ts now supply sup2 hfreshn hok
    unfold process_schema_create at hok
    rw [hsrc] at hok
    dsimp only at hok
    unfold process_schema_create_node at hok
    rw [hni, hnt, hp] at hok
    dsimp only at hok
    rw [hfreshn] at hok
    simp only [Bool.false_eq_true, if_false] at hok
    have hschema : s2 = addNode s node_id (objUpdate [("node_type", nt)] props) := by
      by_cases hu : objHasKey "units_in_chain" props
      · rw [if_pos hu] at hok
        cases husi : update_state_instances t node_id nt
            (unitsOfCreate ((objGet "units_in_chain" props).getD (.n 0))) ts
            (if objHasKey "expiry" props then
              some (expiryOfCreate now ((objGet "expiry" props).getD (.n 0)))
            else none) supply with
        | error msg => rw [husi] at hok; cases hok
        | ok pr =>
          rw [husi] at hok
          simp only [Except.map, Except.ok.injEq, Prod.mk.injEq] at hok
          exact hok.1.symm
      · rw [if_neg hu] at hok
        simp only [Except.ok.injEq, Prod.mk.injEq] at hok
        exact hok.1.symm
    have hattrs : getNodeAttrs s2 node_id = some (objUpdate [("node_type", nt)] props) := by
      rw [hschema]
      exact getNodeAttrs_addNode_fresh _ hfreshn
    refine ⟨hattrs, ?_, ?_⟩
    · intro hnc
      rw [hattrs]
      simp only [Option.getD_some]
      rw [objGet_objUpdate_notin _ _ hnc, hbase_created]
    · intro hnu
      rw [hattrs]
      simp only [Option.getD_some]
      rw [objGet_objUpdate_notin _ _ hnu, hbase_updated]
  · intro s t s2 t2 ts supply sup2 a0 ha0 hok
    have hhas : hasNode s node_id = true := getNodeAttrs_isSome_hasNode ha0
    unfold process_schema_update at hok
    rw [hsrc] at hok
    dsimp only at hok
    unfold process_schema_update_node at hok
    rw [hni] at hok
    dsimp only at hok
    rw [hhas] at hok
    simp only [Bool.not_eq_true, not_true_eq_false, Bool.true_eq_false, if_false,
      Bool.not_true, Bool.false_eq_true] at hok
    rw [hp] at hok
    simp only [Option.getD_some] at hok
    have hschema : (props = [] ∧ s2 = s) ∨ s2 = updateNodeAttrs s node_id props := by
      by_cases hemp : props = []
      · rw [if_pos hemp] at hok
        simp only [Except.ok.injEq, Prod.mk.injEq] at hok
        exact Or.inl ⟨hemp, hok.1.symm⟩
      · rw [if_neg hemp] at hok
        by_cases hu : objHasKey "units_in_chain" props
        · rw [if_pos hu] at hok
          cases hcoerce : unitsOfUpdate ((objGet "units_in_chain" props).getD .null) with
          | error msg => rw [hcoerce] at hok; cases hok
          | ok units =>
            rw [hcoerce] at hok
            dsimp only at hok
            by_cases hex : objHasKey "expiry" props
            · rw [if_pos hex] at hok
              cases hec : expiryOfUpdate ((objGet "expiry" props).getD .null) with
              | error msg =>
                rw [hec] at hok
                cases hok
              | ok ev =>
                rw [hec] at hok
                dsimp only [Except.map] at hok
                cases hgt : (getNodeAttrs (updateNodeAttrs s node_id props) node_id).bind
                    (objGet "node_type") with
                | none => rw [hgt] at hok; cases hok
                | some nt2 =>
                  rw [hgt] at hok
                  dsimp only at hok
                  cases husi : update_state_instances t node_id nt2 units ts (some ev) supply with
                  | error msg => rw [husi] at hok; cases hok
                  | ok pr =>
                    rw [husi] at hok
                    simp only [Except.map, Except.ok.injEq, Prod.mk.injEq] at hok
                    exact Or.inr hok.1.symm
            · rw [if_neg hex] at hok
              dsimp only [Except.map] at hok
              cases hgt : (getNodeAttrs (updateNodeAttrs s node_id props) node_id).bind
                  (objGet "node_type") with
              | none => rw [hgt] at hok; cases hok
              | some nt2 =>
                rw [hgt] at hok
                dsimp only at hok
                cases husi : update_state_instances t node_id nt2 units ts none supply with
                | error msg => rw [husi] at hok; cases hok
                | ok pr =>
                  rw [husi] at hok
                  simp only [Except.map, Except.ok.injEq, Prod.mk.injEq] at hok
                  exact Or.inr hok.1.symm
        · rw [if_neg hu] at hok
          simp only [Except.ok.injEq, Prod.mk.injEq] at hok
          exact Or.inr hok.1.symm
    have hattrs : getNodeAttrs s2 node_id = some (objUpdate a0 props) := by
      rcases hschema with ⟨hemp, h⟩ | h
      · subst h
        rw [ha0, hemp]
        rfl
      · subst h
        rw [getNodeAttrs_updateNodeAttrs_self, ha0]
        rfl
    exact ⟨hattrs, fun hnu => by
      rw [hattrs]
      simp only [Option.getD_some]
      rw [objGet_objUpdate_notin _ _ hnu]⟩

/-- C9 witness for the amended statement: creating node A with properties
{w: 1} at timestamp 5 stores exactly node_type plus those properties,
with no created_at and no updated_at. -/
theorem C9_amended_witness :
    getNodeAttrs (DiGraph.mk [NXNode.mk (.s "A") [("node_type", .s "T"), ("w", .n 1)]] [])
        (.s "A") = some (objUpdate [("node_type", .s "T")] [("w", .n 1)]) ∧
    (objHasKey "created_at" [("w", .n 1)] = false →
      objGet "created_at"
        ((getNodeAttrs (DiGraph.mk [NXNode.mk (.s "A") [("node_type", .s "T"), ("w", .n 1)]] [])
          (.s "A")).getD []) = none) ∧
    (objHasKey "updated_at" [("w", .n 1)] = false →
      objGet "updated_at"
        ((getNodeAttrs (DiGraph.mk [NXNode.mk (.s "A") [("node_type", .s "T"), ("w", .n 1)]] [])
          (.s "A")).getD []) = none) :=
  (C9_amended_no_timestamp_stamping
      { node_id := some (.s "A"), node_type := some (.s "T"), properties := some [("w", .n 1)] }
      (.s "A") (.s "T") [("w", .n 1)] rfl rfl rfl rfl).1
    DiGraph.empty DiGraph.empty
    (DiGraph.mk [NXNode.mk (.s "A") [("node_type", .s "T"), ("w", .n 1)]] [])
    DiGraph.empty 5 0 [] [] (by decide) (by rfl)

/-! ## Claim C4 -/

/-- C4 counterexample: creating node A at timestamp 1 with properties
{units_in_chain: 3, expiry: 100} yields 3 instances, but none of them
carries a valid_to attribute (so none has valid_to = 101); the stored
attribute is expiry and it holds the raw payload value 100, not 101. -/
theorem C4_counterexample :
    (process_schema_create
        { node_id := some (.s "A"), node_type := some (.s "Parts"),
          properties := some [("units_in_chain", .n 3), ("expiry", .n 100)] }
        DiGraph.empty DiGraph.empty 1 999 ["u1", "u2", "u3"]).map
      (fun r => (r.2.1.nodes.length,
                 r.2.1.nodes.map (fun nd => objGet "valid_to" nd.attrs),
                 r.2.1.nodes.map (fun nd => objGet "expiry" nd.attrs)))
      = .ok (3, [none, none, none], [some (.n 100), some (.n 100), some (.n 100)]) := by rfl

/-- C4 (amended): every instance created by a node-create reconciliation
carries attributes parent_id, node_type, created_at = event timestamp, and
expiry; when the payload carries an integer expiry e, the stored expiry is
the raw value e (an absolute timestamp, not created_at + e), and no
valid_from or valid_to attribute exists; when the payload has no expiry,
the stored expiry is created_at + 31536000. -/
theorem C4_amended_instance_attributes (payload : Payload) (node_id nt : Val) (props : Obj)
    (s t s2 t2 : DiGraph) (ts now : Int) (supply sup2 : List String)
    (hni : payload.node_id = some node_id) (hsrc : payload.source_id = none)
    (hnt : payload.node_type = some nt) (hp : payload.properties = some props)
    (hwf : wfNodes t) (hfresh : ∀ id ∈ supply, hasNode t (.s id) = false)
    (hnd : supply.Nodup)
    (hok : process_schema_create payload s t ts now supply = .ok (s2, t2, sup2)) :
    (∀ e : Int, objGet "expiry" props = some (.n e) →
      ∀ nd ∈ t2.nodes, nd ∉ t.nodes →
        nd.attrs = instanceAttrs node_id nt ts e ∧
        objGet "expiry" nd.attrs = some (.n e) ∧
        objGet "created_at" nd.attrs = some (.n ts) ∧
        objGet "valid_to" nd.attrs = none ∧
        objGet "valid_from" nd.attrs = none) ∧
    (objHasKey "expiry" props = false →
      ∀ nd ∈ t2.nodes, nd ∉ t.nodes →
        nd.attrs = instanceAttrs node_id nt ts (ts + 31536000)) := by
  unfold process_schema_create at hok
  rw [hsrc] at hok
  dsimp only at hok
  unfold process_schema_create_node at hok
  rw [hni, hnt, hp] at hok
  dsimp only at hok
  by_cases hu : objHasKey "units_in_chain" props
  · rw [if_pos hu] at hok
    cases husi : update_state_instances t node_id nt
        (unitsOfCreate ((objGet "units_in_chain" props).getD (.n 0))) ts
        (if objHasKey "expiry" props then
          some (expiryOfCreate now ((objGet "expiry" props).getD (.n 0)))
        else none) supply with
    | error msg => rw [husi] at hok; cases hok
    | ok pr =>
      rw [husi] at hok
      simp only [Except.map, Except.ok.injEq, Prod.mk.injEq] at hok
      obtain ⟨-, ht2, -⟩ := hok
      have hspec := usi_spec hwf hfresh hnd husi
      have hmem := hspec.2.2.2.2.2
      constructor
      · intro e he nd hmemnd hnotint
        have hexp : objHasKey "expiry" props = true := by
          unfold objHasKey
          rw [he]
          rfl
        rw [if_pos hexp] at husi hmem
        have hval : expiryOfCreate now ((objGet "expiry" props).getD (.n 0)) = e := by
          rw [he]
          rfl
        rw [hval] at hmem
        rw [← ht2] at hmemnd
        rcases hmem nd hmemnd with h | h
        · exact absurd h hnotint
        · simp only [Option.getD_some] at h
          refine ⟨h, ?_, ?_, ?_, ?_⟩ <;> rw [h] <;> simp [instanceAttrs, objGet]
      · intro hnex nd hmemnd hnotint
        rw [if_neg (by rw [hnex]; exact fun h => by cases h)] at hmem
        rw [← ht2] at hmemnd
        rcases hmem nd hmemnd with h | h
        · exact absurd h hnotint
        · simp only [Option.getD_none] at h
          exact h
  · rw [if_neg hu] at hok
    simp only [Except.ok.injEq, Prod.mk.injEq] at hok
    obtain ⟨-, ht2, -⟩ := hok
    rw [← ht2]
    exact ⟨fun e he nd hm hn => absurd hm hn, fun hx nd hm hn => absurd hm hn⟩

/-- C4 witness: the S1 scenario (units 3, expiry 100, timestamp 1): the
first created instance has attributes with expiry = 100 and no valid_to. -/
theorem C4_amended_witness :
    NXNode.attrs ⟨.s "u1", instanceAttrs (.s "A") (.s "Parts") 1 100⟩
        = instanceAttrs (.s "A") (.s "Parts") 1 100 ∧
    objGet "expiry" (NXNode.attrs ⟨.s "u1", instanceAttrs (.s "A") (.s "Parts") 1 100⟩)
        = some (.n 100) ∧
    objGet "created_at" (NXNode.attrs ⟨.s "u1", instanceAttrs (.s "A") (.s "Parts") 1 100⟩)
        = some (.n 1) ∧
    objGet "valid_to" (NXNode.attrs ⟨.s "u1", instanceAttrs (.s "A") (.s "Parts") 1 100⟩)
        = none ∧
    objGet "valid_from" (NXNode.attrs ⟨.s "u1", instanceAttrs (.s "A") (.s "Parts") 1 100⟩)
        = none :=
  (C4_amended_instance_attributes
      { node_id := some (.s "A"), node_type := some (.s "Parts"),
        properties := some [("units_in_chain", .n 3), ("expiry", .n 100)] }
      (.s "A") (.s "Parts") [("units_in_chain", .n 3), ("expiry", .n 100)]
      DiGraph.empty DiGraph.empty
      (DiGraph.mk [NXNode.mk (.s "A")
        [("node_type", .s "Parts"), ("units_in_chain", .n 3), ("expiry", .n 100)]] [])
      (DiGraph.mk
        [⟨.s "u1", instanceAttrs (.s "A") (.s "Parts") 1 100⟩,
         ⟨.s "u2", instanceAttrs (.s "A") (.s "Parts") 1 100⟩,
         ⟨.s "u3", instanceAttrs (.s "A") (.s "Parts") 1 100⟩] [])
      1 999 ["u1", "u2", "u3"] []
      rfl rfl rfl rfl (by simp [wfNodes, DiGraph.empty]) (by decide) (by decide) (by rfl)).1
    100 rfl ⟨.s "u1", instanceAttrs (.s "A") (.s "Parts") 1 100⟩ (by decide) (by decide)

/-! ## Claim C3 -/

theorem getNodeAttrs_removeNode_ne (g : DiGraph) (w v : Val) (hne : v ≠ w) :
    getNodeAttrs (removeNode g w) v = getNodeAttrs g v := by
  unfold getNodeAttrs removeNode
  dsimp only
  induction g.nodes with
  | nil => rfl
  | cons nd rest ih =>
    by_cases hc : nd.id = v
    · have : ¬ nd.id = w := by rw [hc]; exact hne
      rw [List.filter_cons_of_pos (by simpa using this)]
      rw [List.find?_cons_of_pos _ (by simpa using hc),
          List.find?_cons_of_pos _ (by simpa using hc)]
    · by_cases hw : nd.id = w
      · rw [List.filter_cons_of_neg (by simpa using hw)]
        rw [List.find?_cons_of_neg _ (by simpa using hc)]
        exact ih
      · rw [List.filter_cons_of_pos (by simpa using hw)]
        rw [List.find?_cons_of_neg _ (by simpa using hc),
            List.find?_cons_of_neg _ (by simpa using hc)]
        exact ih

theorem getNodeAttrs_removeNodesFrom_ne (v : Val) :
    ∀ (vs : List Val) (g : DiGraph), v ∉ vs →
      getNodeAttrs (removeNodesFrom g vs) v = getNodeAttrs g v
  | [], g, _ => rfl
  | w :: rest, g, hnotin => by
    unfold removeNodesFrom
    simp only [List.foldl_cons]
    have h1 : v ∉ rest := fun h => hnotin (List.mem_cons.mpr (Or.inr h))
    have h2 : v ≠ w := fun h => hnotin (List.mem_cons.mpr (Or.inl h))
    show getNodeAttrs (removeNodesFrom (removeNode g w) rest) v = _
    rw [getNodeAttrs_removeNodesFrom_ne v rest (removeNode g w) h1,
        getNodeAttrs_removeNode_ne g w v h2]

theorem self_not_mem_descendants (g : DiGraph) (v : Val) : v ∉ descendants g v := by
  unfold descendants
  intro h
  have := List.of_mem_filter h
  simp at this

/-- C3 counterexample: cascading delete of A over A→B (both with
units_in_chain = 1 and one instance each) empties the schema, yet the
state keeps the instance bound to the removed descendant B — contradicting
the claim that no instance of any removed node survives. -/
theorem C3_counterexample :
    (process_schema_delete
        { node_id := some (.s "A"), cascade := some (.b true) }
        ⟨[⟨.s "A", [("node_type", .s "T"), ("units_in_chain", .n 1)]⟩,
          ⟨.s "B", [("node_type", .s "T"), ("units_in_chain", .n 1)]⟩],
         [⟨.s "A", .s "B", [("relationship_type", .s "r")]⟩]⟩
        ⟨[⟨.s "iA", [("parent_id", .s "A"), ("node_type", .s "T"),
                     ("created_at", .n 0), ("expiry", .n 5)]⟩,
          ⟨.s "iB", [("parent_id", .s "B"), ("node_type", .s "T"),
                     ("created_at", .n 0), ("expiry", .n 5)]⟩],
         []⟩
        3 []).map
      (fun r => (r.1.nodes.length, countParent r.2.1 (.s "A"), countParent r.2.1 (.s "B")))
      = .ok (0, 0, 1) := by rfl

/-- C3 (amended): a cascade node-delete reconciles only the NAMED node to
zero instances (and only when that node carries units_in_chain); the state
instances of every other node — in particular of the removed descendants —
are left untouched (orphaned). -/
theorem C3_amended_cascade_reconciles_only_named (payload : Payload)
    (s t s2 t2 : DiGraph) (ts : Int) (supply sup2 : List String) (v : Val)
    (hni : payload.node_id = some v) (hsrc : payload.source_id = none)
    (hwf : wfNodes t)
    (hfresh : ∀ id ∈ supply, hasNode t (.s id) = false) (hnd : supply.Nodup)
    (hok : process_schema_delete payload s t ts supply = .ok (s2, t2, sup2)) :
    (objHasKey "units_in_chain" ((getNodeAttrs
        (if pyTruthy (payload.cascade.getD (.b false)) then
          removeNodesFrom s (descendants s v) else s) v).getD []) = true →
      countParent t2 v = 0) ∧
    (∀ q, q ≠ v → countParent t2 q = countParent t q) := by
  unfold process_schema_delete at hok
  rw [hsrc] at hok
  dsimp only at hok
  unfold process_schema_delete_node at hok
  rw [hni] at hok
  dsimp only at hok
  by_cases hhas : hasNode s v
  · rw [hhas] at hok
    simp only [Bool.not_eq_true, not_true_eq_false, Bool.true_eq_false, if_false] at hok
    set schema1 := (if pyTruthy (payload.cascade.getD (.b false)) then
      removeNodesFrom s (descendants s v) else s) with hschema1
    by_cases hu : objHasKey "units_in_chain" ((getNodeAttrs schema1 v).getD [])
    · rw [if_pos hu] at hok
      cases hgt : objGet "node_type" ((getNodeAttrs schema1 v).getD []) with
      | none => rw [hgt] at hok; cases hok
      | some nt =>
        rw [hgt] at hok
        dsimp only at hok
        cases husi : update_state_instances t v nt 0 ts none supply with
        | error msg => rw [husi] at hok; cases hok
        | ok pr =>
          rw [husi] at hok
          simp only [Except.map, Except.ok.injEq, Prod.mk.injEq] at hok
          obtain ⟨-, ht2, -⟩ := hok
          have hspec := usi_spec hwf hfresh hnd husi
          constructor
          · intro _
            rw [← ht2, countParent_eq]
            have h0 := hspec.2.1
            omega
          · intro q hq
            rw [← ht2, countParent_eq, countParent_eq]
            exact hspec.2.2.1 q hq
    · rw [if_neg hu] at hok
      simp only [Except.ok.injEq, Prod.mk.injEq] at hok
      obtain ⟨-, ht2, -⟩ := hok
      exact ⟨fun h => absurd h hu, fun q _ => by rw [← ht2]⟩
  · rw [if_pos hhas] at hok
    cases hok

/-- C3 witness for the amended statement: after the cascade delete of A
over A→B, the named node A has zero instances while B (a removed
descendant) keeps its orphaned instance, whose count is unchanged. -/
theorem C3_amended_witness :
    countParent (DiGraph.mk [⟨.s "iB", [("parent_id", .s "B"), ("node_type", .s "T"),
        ("created_at", .n 0), ("expiry", .n 5)]⟩] []) (.s "A") = 0 ∧
    countParent (DiGraph.mk [⟨.s "iB", [("parent_id", .s "B"), ("node_type", .s "T"),
        ("created_at", .n 0), ("expiry", .n 5)]⟩] []) (.s "B")
      = countParent (DiGraph.mk
          [⟨.s "iA", [("parent_id", .s "A"), ("node_type", .s "T"),
                      ("created_at", .n 0), ("expiry", .n 5)]⟩,
           ⟨.s "iB", [("parent_id", .s "B"), ("node_type", .s "T"),
                      ("created_at", .n 0), ("expiry", .n 5)]⟩] []) (.s "B") := by
  have h := C3_amended_cascade_reconciles_only_named
    { node_id := some (.s "A"), cascade := some (.b true) }
    (DiGraph.mk
      [⟨.s "A", [("node_type", .s "T"), ("units_in_chain", .n 1)]⟩,
       ⟨.s "B", [("node_type", .s "T"), ("units_in_chain", .n 1)]⟩]
      [⟨.s "A", .s "B", [("relationship_type", .s "r")]⟩])
    (DiGraph.mk
      [⟨.s "iA", [("parent_id", .s "A"), ("node_type", .s "T"),
                  ("created_at", .n 0), ("expiry", .n 5)]⟩,
       ⟨.s "iB", [("parent_id", .s "B"), ("node_type", .s "T"),
                  ("created_at", .n 0), ("expiry", .n 5)]⟩] [])
    (DiGraph.mk [] [])
    (DiGraph.mk [⟨.s "iB", [("parent_id", .s "B"), ("node_type", .s "T"),
        ("created_at", .n 0), ("expiry", .n 5)]⟩] [])
    3 [] [] (.s "A") rfl rfl
    (by unfold wfNodes; decide) (by decide) (by decide) (by rfl)
  exact ⟨h.1 (by decide), h.2 (.s "B") (by decide)⟩

/-- C5 counterexample: two instances of P with equal expiry 10, inserted in
the order "b", "a". Shrinking to 1 instance removes "b" (the
earliest-inserted), keeping "a"; the claim demands removing the first 1
element of its (key, instance_id-lex) order, which is "a". -/
theorem C5_counterexample :
    ((update_state_instances
        (DiGraph.mk
          [⟨.s "b", [("parent_id", .s "P"), ("node_type", .s "T"),
                     ("created_at", .n 0), ("expiry", .n 10)]⟩,
           ⟨.s "a", [("parent_id", .s "P"), ("node_type", .s "T"),
                     ("created_at", .n 0), ("expiry", .n 10)]⟩] [])
        (.s "P") (.s "T") 1 5 none []).map (fun r => r.1.nodes.map NXNode.id)
      = .ok [.s "a"]) ∧
    (claimEvictionOrder
        (DiGraph.mk
          [⟨.s "b", [("parent_id", .s "P"), ("node_type", .s "T"),
                     ("created_at", .n 0), ("expiry", .n 10)]⟩,
           ⟨.s "a", [("parent_id", .s "P"), ("node_type", .s "T"),
                     ("created_at", .n 0), ("expiry", .n 10)]⟩] [])
        (.s "P")).take 1 = [.s "a"] :=
  ⟨by rfl, by decide⟩

theorem valLtB_of_num {a b : Val} (ha : (valNum? a).isSome) (hb : (valNum? b).isSome) :
    valLtB a b = decide ((valNum? a).getD 0 < (valNum? b).getD 0) := by
  obtain ⟨x, hx⟩ := Option.isSome_iff_exists.mp ha
  obtain ⟨y, hy⟩ := Option.isSome_iff_exists.mp hb
  unfold valLtB valLt?
  rw [hx, hy]
  simp

theorem foldl_pick_min (key : Val → Val) :
    ∀ (xs : List Val) (x : Val),
      (∀ y ∈ x :: xs, (valNum? (key y)).isSome) →
      ∀ z ∈ x :: xs,
        (valNum? (key (xs.foldl (fun best y => if valLtB (key y) (key best) then y else best) x))).getD 0
          ≤ (valNum? (key z)).getD 0
  | [], x, hnum, z, hz => by
    simp only [List.mem_singleton] at hz
    subst hz
    simp
  | y :: ys, x, hnum, z, hz => by
    simp only [List.foldl_cons]
    have hx : (valNum? (key x)).isSome := hnum x (by simp)
    have hy : (valNum? (key y)).isSome := hnum y (by simp)
    by_cases hc : valLtB (key y) (key x)
    · rw [if_pos hc]
      have hnum2 : ∀ w ∈ y :: ys, (valNum? (key w)).isSome := by
        intro w hw
        rcases List.mem_cons.mp hw with h | h
        · subst h; exact hy
        · exact hnum w (List.mem_cons.mpr (Or.inr (List.mem_cons.mpr (Or.inr h))))
      have hmin := foldl_pick_min key ys y hnum2
      rw [valLtB_of_num hy hx] at hc
      simp only [decide_eq_true_eq] at hc
      rcases List.mem_cons.mp hz with h | h
      · subst h
        have h1 := hmin y (List.mem_cons_self y ys)
        omega
      · rcases List.mem_cons.mp h with h2 | h2
        · subst h2
          exact hmin z (List.mem_cons_self z ys)
        · exact hmin z (List.mem_cons.mpr (Or.inr h2))
    · rw [if_neg hc]
      have hnum2 : ∀ w ∈ x :: ys, (valNum? (key w)).isSome := by
        intro w hw
        rcases List.mem_cons.mp hw with h | h
        · subst h; exact hx
        · exact hnum w (List.mem_cons.mpr (Or.inr (List.mem_cons.mpr (Or.inr h))))
      have hmin := foldl_pick_min key ys x hnum2
      rw [valLtB_of_num hy hx] at hc
      simp only [decide_eq_true_eq, not_lt] at hc
      rcases List.mem_cons.mp hz with h | h
      · subst h
        exact hmin z (List.mem_cons_self z ys)
      · rcases List.mem_cons.mp h with h2 | h2
        · subst h2
          have h1 := hmin x (List.mem_cons_self x ys)
          omega
        · exact hmin z (List.mem_cons.mpr (Or.inr h2))

theorem find?_eq_of_mem_wf :
    ∀ (l : List NXNode), (l.map NXNode.id).Nodup → ∀ nd ∈ l,
      l.find? (fun x => x.id = nd.id) = some nd
  | [], _, nd, h => by cases h
  | nd1 :: rest, hnd, nd, h => by
    rcases List.mem_cons.mp h with h1 | h1
    · subst h1
      exact List.find?_cons_of_pos _ (by simp)
    · by_cases hc : nd1.id = nd.id
      · exfalso
        simp only [List.map_cons, List.nodup_cons] at hnd
        exact hnd.1 (by rw [hc]; exact List.mem_map_of_mem NXNode.id h1)
      · rw [List.find?_cons_of_neg _ (by simpa using hc)]
        have hnd2 : (rest.map NXNode.id).Nodup := by
          simp only [List.map_cons, List.nodup_cons] at hnd
          exact hnd.2
        exact find?_eq_of_mem_wf rest hnd2 nd h1

theorem evictKey_of_mem_wf {g : DiGraph} (hwf : wfNodes g) {nd : NXNode} (h : nd ∈ g.nodes) :
    evictKey g nd.id = evictKeyOf nd.attrs := by
  unfold evictKey getNodeAttrs
  rw [find?_eq_of_mem_wf g.nodes hwf nd h]
  rfl

theorem eq_of_mem_wf {g : DiGraph} (hwf : wfNodes g) {nd1 nd2 : NXNode}
    (h1 : nd1 ∈ g.nodes) (h2 : nd2 ∈ g.nodes) (hid : nd1.id = nd2.id) : nd1 = nd2 := by
  have e1 := find?_eq_of_mem_wf g.nodes hwf nd1 h1
  have e2 := find?_eq_of_mem_wf g.nodes hwf nd2 h2
  rw [hid] at e1
  rw [e1] at e2
  exact Option.some_inj.mp e2

theorem mem_removeNode_of_ne {g : DiGraph} {nd : NXNode} {v : Val}
    (h : nd ∈ g.nodes) (hne : nd.id ≠ v) : nd ∈ (removeNode g v).nodes := by
  unfold removeNode
  exact List.mem_filter.mpr ⟨h, by simpa using hne⟩

theorem evictLoop_minkey (p : Val) :
    ∀ (m : Nat) (g g2 : DiGraph), wfNodes g →
      (∀ nd ∈ g.nodes, bindsParent p nd = true → (valNum? (evictKeyOf nd.attrs)).isSome) →
      evictLoop p m g = .ok g2 →
      ∀ ndR ∈ g.nodes, ndR ∉ g2.nodes → bindsParent p ndR = true →
        ∀ ndS ∈ g2.nodes, bindsParent p ndS = true →
          (valNum? (evictKeyOf ndR.attrs)).getD 0 ≤ (valNum? (evictKeyOf ndS.attrs)).getD 0
  | 0, g, g2, hwf, hkeys, hok, ndR, hR, hnR, hbR, ndS, hS, hbS => by
    simp only [evictLoop, Except.ok.injEq] at hok
    subst hok
    exact absurd hR hnR
  | m + 1, g, g2, hwf, hkeys, hok, ndR, hR, hnR, hbR, ndS, hS, hbS => by
    simp only [evictLoop] at hok
    by_cases hcomp :
        pairwiseComparable ((find_nodes_with_property g "parent_id" p).map (evictKey g))
    · rw [if_pos hcomp] at hok
      cases hmin : firstMinBy (evictKey g) (find_nodes_with_property g "parent_id" p) with
      | none => rw [hmin] at hok; cases hok
      | some v =>
        rw [hmin] at hok
        obtain ⟨nd0, hnd0, hid0, hbind0⟩ := mem_find_nodes.mp (firstMinBy_mem hmin)
        have hwf3 := wfNodes_removeNode g v hwf
        have hsub3 : ∀ nd ∈ (removeNode g v).nodes, nd ∈ g.nodes :=
          fun nd h => (List.filter_sublist g.nodes).mem h
        have hkeys3 : ∀ nd ∈ (removeNode g v).nodes, bindsParent p nd = true →
            (valNum? (evictKeyOf nd.attrs)).isSome :=
          fun nd h hb => hkeys nd (hsub3 nd h) hb
        have hsubloop := (evictLoop_spec p m (removeNode g v) g2 hwf3 hok).2.2.2
        by_cases hRin : ndR ∈ (removeNode g v).nodes
        · exact evictLoop_minkey p m (removeNode g v) g2 hwf3 hkeys3 hok
            ndR hRin hnR hbR ndS hS hbS
        · have hidR : ndR.id = v := by
            by_contra hc
            exact hRin (mem_removeNode_of_ne hR hc)
          have hndR0 : ndR = nd0 := eq_of_mem_wf hwf hR hnd0 (by rw [hidR, hid0])
          have hnumc : ∀ z ∈ find_nodes_with_property g "parent_id" p,
              (valNum? (evictKey g z)).isSome := by
            intro z hz
            obtain ⟨nd, hmem, hid, hb⟩ := mem_find_nodes.mp hz
            rw [← hid, evictKey_of_mem_wf hwf hmem]
            exact hkeys nd hmem (by simp [bindsParent, hb])
          have hSmem : ndS ∈ g.nodes := hsub3 ndS (hsubloop ndS hS)
          have hScand : ndS.id ∈ find_nodes_with_property g "parent_id" p :=
            mem_find_nodes.mpr ⟨ndS, hSmem, rfl, by simpa [bindsParent] using hbS⟩
          cases hcands : find_nodes_with_property g "parent_id" p with
          | nil => rw [hcands] at hScand; cases hScand
          | cons c0 crest =>
            rw [hcands] at hmin hnumc hScand
            simp only [firstMinBy, Option.some_inj] at hmin
            have hminle := foldl_pick_min (evictKey g) crest c0 hnumc ndS.id hScand
            rw [hmin] at hminle
            have e1 : evictKey g v = evictKeyOf nd0.attrs := by
              rw [← hid0]
              exact evictKey_of_mem_wf hwf hnd0
            have e2 : evictKey g ndS.id = evictKeyOf ndS.attrs :=
              evictKey_of_mem_wf hwf hSmem
            rw [e1, e2] at hminle
            rw [hndR0]
            exact hminle
    · rw [if_neg hcomp] at hok
      cases hok

/-- C5 (amended): when a successful reconciliation shrinks the instance set
of a parent, every removed instance has an eviction key (expiry, falling
back to created_at, then 0) no larger than the key of every surviving
instance of that parent; ties between equal keys are broken by the node
insertion order of the state graph, not by lexical instance_id order, so
two runs agree only when the graphs agree including insertion order. -/
theorem C5_amended_eviction_min_keys (state : DiGraph) (p ty : Val) (k t : Int)
    (e : Option Int) (supply sup2 : List String) (g2 : DiGraph)
    (hwf : wfNodes state)
    (hfresh : ∀ id ∈ supply, hasNode state (.s id) = false) (hnd : supply.Nodup)
    (hkeys : ∀ nd ∈ state.nodes, bindsParent p nd = true →
      (valNum? (evictKeyOf nd.attrs)).isSome)
    (hok : update_state_instances state p ty k t e supply = .ok (g2, sup2)) :
    ∀ ndR ∈ state.nodes, ndR ∉ g2.nodes → bindsParent p ndR = true →
      ∀ ndS ∈ g2.nodes, bindsParent p ndS = true →
        (valNum? (evictKeyOf ndR.attrs)).getD 0 ≤ (valNum? (evictKeyOf ndS.attrs)).getD 0 := by
  unfold update_state_instances at hok
  simp only [] at hok
  by_cases h1 : k < ((find_nodes_with_property state "parent_id" p).length : Int)
  · rw [if_pos h1] at hok
    cases hev : evictLoop p
        (((find_nodes_with_property state "parent_id" p).length : Int) - k).toNat state with
    | error msg => rw [hev] at hok; cases hok
    | ok gg =>
      rw [hev] at hok
      simp only [Except.map, Except.ok.injEq, Prod.mk.injEq] at hok
      rw [hok.1] at hev
      exact evictLoop_minkey p _ state g2 hwf hkeys hev
  · rw [if_neg h1] at hok
    by_cases h2 : ((find_nodes_with_property state "parent_id" p).length : Int) < k
    · rw [if_pos h2] at hok
      by_cases h3 : supply.length
          < (k - ((find_nodes_with_property state "parent_id" p).length : Int)).toNat
      · rw [if_pos h3] at hok; cases hok
      · rw [if_neg h3] at hok
        simp only [Except.ok.injEq, Prod.mk.injEq] at hok
        intro ndR hR hnR hbR ndS hS hbS
        exfalso
        apply hnR
        rw [← hok.1]
        set need := (k - ((find_nodes_with_property state "parent_id" p).length : Int)).toNat
        have htakefresh : ∀ id ∈ supply.take need, hasNode state (.s id) = false :=
          fun id hid => hfresh id (List.take_subset need supply hid)
        have htakend : (supply.take need).Nodup := hnd.sublist (List.take_sublist need supply)
        rw [creation_fold p ty t (e.getD (t + 31536000)) (supply.take need)
          state htakefresh htakend]
        exact List.mem_append_left _ hR
    · rw [if_neg h2] at hok
      simp only [Except.ok.injEq, Prod.mk.injEq] at hok
      intro ndR hR hnR hbR ndS hS hbS
      exact absurd (by rw [← hok.1]; exact hR) hnR

/-- C5 witness for the amended statement: shrinking P from 2 instances
(expiry 3 and 7) to 1 removes the instance with key 3; its key is no
larger than the surviving key 7. -/
theorem C5_amended_witness :
    (valNum? (evictKeyOf [("parent_id", .s "P"), ("node_type", .s "T"),
        ("created_at", .n 0), ("expiry", .n 3)])).getD 0
      ≤ (valNum? (evictKeyOf [("parent_id", .s "P"), ("node_type", .s "T"),
        ("created_at", .n 0), ("expiry", .n 7)])).getD 0 :=
  C5_amended_eviction_min_keys
    (DiGraph.mk
      [⟨.s "x1", [("parent_id", .s "P"), ("node_type", .s "T"),
                  ("created_at", .n 0), ("expiry", .n 3)]⟩,
       ⟨.s "x2", [("parent_id", .s "P"), ("node_type", .s "T"),
                  ("created_at", .n 0), ("expiry", .n 7)]⟩] [])
    (.s "P") (.s "T") 1 9 none [] []
    (DiGraph.mk
      [⟨.s "x2", [("parent_id", .s "P"), ("node_type", .s "T"),
                  ("created_at", .n 0), ("expiry", .n 7)]⟩] [])
    (by unfold wfNodes; decide) (by decide) (by decide) (by decide) (by rfl)
    ⟨.s "x1", [("parent_id", .s "P"), ("node_type", .s "T"),
               ("created_at", .n 0), ("expiry", .n 3)]⟩
    (by decide) (by decide) (by decide)
    ⟨.s "x2", [("parent_id", .s "P"), ("node_type", .s "T"),
               ("created_at", .n 0), ("expiry", .n 7)]⟩
    (by decide) (by decide)

/-! ## Claim C6 -/

/-- C6 counterexample: live schema present (node A), live state file
missing. A failing update payload (missing node Z) leaves the run failed,
yet the live schema file has been rewritten to the empty initial graph by
the lazy loader: the failed apply did change the live files. -/
theorem C6_counterexample :
    ((process_schema_change
        ⟨some "v", "update", 1, .single { node_id := some (.s "Z") }⟩
        ⟨⟨.good (DiGraph.mk [⟨.s "A", [("node_type", .s "T")]⟩] []), .missing, [], []⟩, some 1⟩
        0 []).2 = false) ∧
    ((process_schema_change
        ⟨some "v", "update", 1, .single { node_id := some (.s "Z") }⟩
        ⟨⟨.good (DiGraph.mk [⟨.s "A", [("node_type", .s "T")]⟩] []), .missing, [], []⟩, some 1⟩
        0 []).1.store.liveSchema = .good DiGraph.empty) ∧
    (LiveFile.good (DiGraph.mk [⟨.s "A", [("node_type", .s "T")]⟩] [])
      ≠ .good DiGraph.empty) := by
  refine ⟨by rfl, by rfl, by decide⟩

theorem save_graph_archive_live {st st2 : Store} {g : DiGraph} {ts : Int} {b : Bool}
    (h : save_graph_archive st g ts b = .ok st2) :
    st2.liveSchema = st.liveSchema ∧ st2.liveState = st.liveState := by
  unfold save_graph_archive at h
  cases hc : compress_graph_json (node_link_data g) with
  | error msg =>
    rw [hc] at h
    cases h
  | ok c =>
    rw [hc] at h
    cases b
    · simp only [Bool.false_eq_true, if_false, Except.ok.injEq] at h
      rw [← h]
      exact ⟨rfl, rfl⟩
    · simp only [if_true, Except.ok.injEq] at h
      rw [← h]
      exact ⟨rfl, rfl⟩

/-- C6 (amended): when both live files are present and well formed at the
moment the payload is processed, a payload whose action application raises
leaves both live files exactly as they were (the run returns failure;
archive snapshots may still have been written). Without that proviso the
lazy loader may rewrite both live files as empty graphs even though the
payload then fails, and a failure inside the post-apply archive write can
leave the live files already updated. -/
theorem C6_amended_failed_apply_preserves_live (change : ChangeData) (ws : WorkerState)
    (now : Int) (supply : List String) (gs gt : DiGraph) (msg : String)
    (hls : ws.store.liveSchema = .good gs) (hlt : ws.store.liveState = .good gt)
    (herr : applyAction change.action change.payload gs gt change.timestamp now supply
      = .error msg) :
    (process_schema_change change ws now supply).2 = false ∧
    (process_schema_change change ws now supply).1.store.liveSchema = .good gs ∧
    (process_schema_change change ws now supply).1.store.liveState = .good gt := by
  unfold process_schema_change
  have hload1 : load_live_schema ws.store = (ws.store, gs) := by
    unfold load_live_schema
    rw [hls]
  have hload2 : load_live_state ws.store = (ws.store, gt) := by
    unfold load_live_state
    rw [hlt]
  rw [hload1]
  dsimp only
  rw [hload2]
  dsimp only
  have hact : ∀ st : Store, st.liveSchema = .good gs → st.liveState = .good gt →
      actionPhase change st gs gt change.timestamp now supply = (st, false) := by
    intro st h1 h2
    unfold actionPhase
    rw [herr]
  cases hcts : ws.currentTimestamp with
  | none =>
    dsimp only
    cases ha1 : save_graph_archive ws.store gs change.timestamp true with
    | error m1 => exact ⟨rfl, hls, hlt⟩
    | ok st3 =>
      dsimp only
      have hl3 := save_graph_archive_live ha1
      cases ha2 : save_graph_archive st3 gt change.timestamp false with
      | error m2 =>
        refine ⟨rfl, ?_, ?_⟩
        · show st3.liveSchema = .good gs
          rw [hl3.1, hls]
        · show st3.liveState = .good gt
          rw [hl3.2, hlt]
      | ok st4 =>
        dsimp only
        have hl4 := save_graph_archive_live ha2
        rw [hact st4 (by rw [hl4.1, hl3.1, hls]) (by rw [hl4.2, hl3.2, hlt])]
        refine ⟨rfl, ?_, ?_⟩
        · show st4.liveSchema = .good gs
          rw [hl4.1, hl3.1, hls]
        · show st4.liveState = .good gt
          rw [hl4.2, hl3.2, hlt]
  | some ct0 =>
    dsimp only
    by_cases hts : change.timestamp ≠ ct0
    · rw [if_pos hts]
      cases ha1 : save_graph_archive ws.store gs change.timestamp true with
      | error m1 => exact ⟨rfl, hls, hlt⟩
      | ok st3 =>
        dsimp only
        have hl3 := save_graph_archive_live ha1
        cases ha2 : save_graph_archive st3 gt change.timestamp false with
        | error m2 =>
          refine ⟨rfl, ?_, ?_⟩
          · show st3.liveSchema = .good gs
            rw [hl3.1, hls]
          · show st3.liveState = .good gt
            rw [hl3.2, hlt]
        | ok st4 =>
          dsimp only
          have hl4 := save_graph_archive_live ha2
          rw [hact st4 (by rw [hl4.1, hl3.1, hls]) (by rw [hl4.2, hl3.2, hlt])]
          refine ⟨rfl, ?_, ?_⟩
          · show st4.liveSchema = .good gs
            rw [hl4.1, hl3.1, hls]
          · show st4.liveState = .good gt
            rw [hl4.2, hl3.2, hlt]
    · rw [if_neg hts]
      simp only [ne_eq, not_not] at hts
      rw [← hts]
      rw [hact ws.store hls hlt]
      exact ⟨rfl, hls, hlt⟩

/-- C6 witness for the amended statement: a failing update (missing node)
over good live files leaves both live files unchanged and reports failure. -/
theorem C6_amended_witness :
    ((process_schema_change
        ⟨some "v", "update", 2, .single { node_id := some (.s "Z") }⟩
        ⟨⟨.good (DiGraph.mk [⟨.s "A", [("node_type", .s "T")]⟩] []),
          .good DiGraph.empty, [], []⟩, some 2⟩
        0 []).2 = false) ∧
    ((process_schema_change
        ⟨some "v", "update", 2, .single { node_id := some (.s "Z") }⟩
        ⟨⟨.good (DiGraph.mk [⟨.s "A", [("node_type", .s "T")]⟩] []),
          .good DiGraph.empty, [], []⟩, some 2⟩
        0 []).1.store.liveSchema = .good (DiGraph.mk [⟨.s "A", [("node_type", .s "T")]⟩] [])) ∧
    ((process_schema_change
        ⟨some "v", "update", 2, .single { node_id := some (.s "Z") }⟩
        ⟨⟨.good (DiGraph.mk [⟨.s "A", [("node_type", .s "T")]⟩] []),
          .good DiGraph.empty, [], []⟩, some 2⟩
        0 []).1.store.liveState = .good DiGraph.empty) :=
  C6_amended_failed_apply_preserves_live
    ⟨some "v", "update", 2, .single { node_id := some (.s "Z") }⟩
    ⟨⟨.good (DiGraph.mk [⟨.s "A", [("node_type", .s "T")]⟩] []),
      .good DiGraph.empty, [], []⟩, some 2⟩
    0 [] (DiGraph.mk [⟨.s "A", [("node_type", .s "T")]⟩] []) DiGraph.empty
    "ValueError: node does not exist in schema" rfl rfl (by rfl)

theorem objNodupKeys_objSet (k : String) (v : Val) :
    ∀ o : Obj, (o.map Prod.fst).Nodup → ((objSet o k v).map Prod.fst).Nodup
  | [], _ => by simp [objSet]
  | (k0, v0) :: rest, hnd => by
    unfold objSet
    by_cases hc : k0 = k
    · rw [if_pos hc]
      simp only [List.map_cons, List.nodup_cons] at hnd ⊢
      rw [← hc]
      exact hnd
    · rw [if_neg hc]
      simp only [List.map_cons, List.nodup_cons] at hnd ⊢
      refine ⟨?_, objNodupKeys_objSet k v rest hnd.2⟩
      intro hmem
      have hsub : ∀ k2 ∈ (objSet rest k v).map Prod.fst, k2 ∈ rest.map Prod.fst ∨ k2 = k := by
        clear hmem hnd
        intro k2
        induction rest with
        | nil => simp [objSet]
        | cons p2 r2 ih =>
          obtain ⟨ka, va⟩ := p2
          unfold objSet
          by_cases hc2 : ka = k
          · rw [if_pos hc2]
            intro h
            simp only [List.map_cons, List.mem_cons] at h ⊢
            rcases h with h | h
            · exact Or.inr h
            · exact Or.inl (Or.inr h)
          · rw [if_neg hc2]
            intro h
            simp only [List.map_cons, List.mem_cons] at h ⊢
            rcases h with h | h
            · exact Or.inl (Or.inl h)
            · rcases ih h with h2 | h2
              · exact Or.inl (Or.inr h2)
              · exact Or.inr h2
      rcases hsub k0 hmem with h | h
      · exact hnd.1 h
      · exact hc h

theorem objNodupKeys_objUpdate (o : Obj) (hnd : (o.map Prod.fst).Nodup) :
    ∀ new : Obj, ((objUpdate o new).map Prod.fst).Nodup := by
  intro new
  induction new generalizing o with
  | nil => exact hnd
  | cons p rest ih =>
    obtain ⟨k0, v0⟩ := p
    show ((objUpdate (objSet o k0 v0) rest).map Prod.fst).Nodup
    exact ih (objSet o k0 v0) (objNodupKeys_objSet k0 v0 o hnd)

theorem mem_removeNodesFrom :
    ∀ (vs : List Val) (g : DiGraph) (nd : NXNode),
      nd ∈ (removeNodesFrom g vs).nodes → nd ∈ g.nodes
  | [], _, _, h => h
  | v :: rest, g, nd, h => by
    unfold removeNodesFrom at h
    simp only [List.foldl_cons] at h
    have h2 : nd ∈ (removeNode g v).nodes :=
      mem_removeNodesFrom rest (removeNode g v) nd h
    exact (List.filter_sublist g.nodes).mem h2

theorem hasNode_false_forall {g : DiGraph} {v : Val} (h : hasNode g v = false) :
    ∀ nd ∈ g.nodes, nd.id ≠ v := by
  intro nd hmem hc
  have h2 : hasNode g v = true := hasNode_true_iff.mpr ⟨nd, hmem, hc⟩
  rw [h2] at h; cases h

/-- I2 is preserved by the node arm of process_schema_create. -/
theorem create_node_preserves {payload : Payload} {s t s2 t2 : DiGraph} {ts now : Int}
    {supply sup2 : List String}
    (hpl : payloadOK payload) (hinv : OpInv s t supply)
    (hok : process_schema_create_node payload s t ts now supply = .ok (s2, t2, sup2)) :
    OpInv s2 t2 sup2 := by
  obtain ⟨hI2, hwf, hfresh, hnd⟩ := hinv
  unfold process_schema_create_node at hok
  cases hni : payload.node_id with
  | none => rw [hni] at hok; cases hok
  | some node_id =>
  rw [hni] at hok
  cases hnt : payload.node_type with
  | none => rw [hnt] at hok; cases hok
  | some nt =>
  rw [hnt] at hok
  cases hp : payload.properties with
  | none => rw [hp] at hok; cases hok
  | some props =>
  rw [hp] at hok
  dsimp only at hok
  have hprops := hpl props hp
  have hXnodup : ((objUpdate [("node_type", nt)] props).map Prod.fst).Nodup :=
    objNodupKeys_objUpdate [("node_type", nt)] (by simp) props
  by_cases hu : objHasKey "units_in_chain" props
  · rw [if_pos hu] at hok
    have hXu : objGet "units_in_chain" (objUpdate [("node_type", nt)] props)
        = objGet "units_in_chain" props :=
      objGet_objUpdate_in _ props hprops.1 hu [("node_type", nt)]
    have hXkey : objHasKey "units_in_chain" (objUpdate [("node_type", nt)] props) = true := by
      unfold objHasKey
      rw [hXu]
      exact hu
    cases husi : update_state_instances t node_id nt
        (unitsOfCreate ((objGet "units_in_chain" props).getD (.n 0))) ts
        (if objHasKey "expiry" props then
          some (expiryOfCreate now ((objGet "expiry" props).getD (.n 0)))
        else none) supply with
    | error msg => rw [husi] at hok; cases hok
    | ok pr =>
      obtain ⟨t2x, sup2x⟩ := pr
      rw [husi] at hok
      simp only [Except.map, Except.ok.injEq, Prod.mk.injEq] at hok
      obtain ⟨hs2, ht2, hsup⟩ := hok
      subst ht2; subst hsup
      have hsp := usi_spec hwf hfresh hnd husi
      refine ⟨?_, hsp.1, hsp.2.2.2.1, hsp.2.2.2.2.1⟩
      intro nd2 hmem k hk
      rw [countParent_eq]
      by_cases hucount : objGet "units_in_chain" props = some (.n k) ∧ nd2.id = node_id
      · rw [hucount.2]
        have : unitsOfCreate ((objGet "units_in_chain" props).getD (.n 0)) = k := by
          rw [hucount.1]
          rfl
        rw [← this]
        exact hsp.2.1
      · -- nd2 is either an untouched original node, or carries the merged
        -- units value, which then forces the first disjunct
        by_cases hidq : nd2.id = node_id
        · -- nd2 must carry the merged units value = props value
          exfalso
          apply hucount
          refine ⟨?_, hidq⟩
          rw [← hs2] at hmem
          by_cases hhas : hasNode s node_id
          · rw [if_pos hhas] at hmem
            obtain ⟨nd, hndmem, hnd2⟩ := List.mem_map.mp hmem
            by_cases hcnd : nd.id = node_id
            · rw [if_pos hcnd] at hnd2
              rw [← hnd2] at hk
              dsimp only at hk
              rw [objGet_objUpdate_in _ _ hXnodup hXkey, hXu] at hk
              exact hk
            · rw [if_neg hcnd] at hnd2
              rw [← hnd2] at hidq
              exact absurd hidq hcnd
          · rw [if_neg hhas] at hmem
            unfold addNode at hmem
            rw [if_neg hhas] at hmem
            dsimp only at hmem
            rcases List.mem_append.mp hmem with h | h
            · exact absurd hidq (hasNode_false_forall (by simpa using hhas) nd2 h)
            · simp only [List.mem_singleton] at h
              rw [h] at hk
              dsimp only at hk
              rw [hXu] at hk
              exact hk
        · -- untouched original: old count, preserved by reconciliation
          rw [hsp.2.2.1 nd2.id hidq, ← countParent_eq]
          rw [← hs2] at hmem
          by_cases hhas : hasNode s node_id
          · rw [if_pos hhas] at hmem
            obtain ⟨nd, hndmem, hnd2⟩ := List.mem_map.mp hmem
            by_cases hcnd : nd.id = node_id
            · rw [if_pos hcnd] at hnd2
              rw [← hnd2] at hidq
              exact absurd hcnd hidq
            · rw [if_neg hcnd] at hnd2
              rw [← hnd2] at hk ⊢
              exact hI2 nd hndmem k hk
          · rw [if_neg hhas] at hmem
            unfold addNode at hmem
            rw [if_neg hhas] at hmem
            dsimp only at hmem
            rcases List.mem_append.mp hmem with h | h
            · exact hI2 nd2 h k hk
            · simp only [List.mem_singleton] at h
              rw [h] at hidq
              exact absurd rfl hidq
  · rw [if_neg hu] at hok
    simp only [Except.ok.injEq, Prod.mk.injEq] at hok
    obtain ⟨hs2, ht2, hsup⟩ := hok
    subst ht2; subst hsup
    have hXnone : objGet "units_in_chain" (objUpdate [("node_type", nt)] props) = none := by
      rw [objGet_objUpdate_notin _ props (by simpa using hu)]
      simp [objGet]
    have hXkeyf : objHasKey "units_in_chain" (objUpdate [("node_type", nt)] props) = false := by
      unfold objHasKey
      rw [hXnone]
      rfl
    refine ⟨?_, hwf, hfresh, hnd⟩
    intro nd2 hmem k hk
    rw [← hs2] at hmem
    by_cases hhas : hasNode s node_id
    · rw [if_pos hhas] at hmem
      obtain ⟨nd, hndmem, hnd2⟩ := List.mem_map.mp hmem
      by_cases hcnd : nd.id = node_id
      · rw [if_pos hcnd] at hnd2
        rw [← hnd2] at hk
        dsimp only at hk
        rw [objGet_objUpdate_notin _ _ hXkeyf] at hk
        rw [← hnd2]
        exact hI2 nd hndmem k hk
      · rw [if_neg hcnd] at hnd2
        rw [← hnd2] at hk ⊢
        exact hI2 nd hndmem k hk
    · rw [if_neg hhas] at hmem
      unfold addNode at hmem
      rw [if_neg hhas] at hmem
      dsimp only at hmem
      rcases List.mem_append.mp hmem with h | h
      · exact hI2 nd2 h k hk
      · simp only [List.mem_singleton] at h
        rw [h] at hk
        dsimp only at hk
        rw [hXnone] at hk
        cases hk

/-- I2 is preserved by the node arm of process_schema_update. -/
theorem update_node_preserves {payload : Payload} {s t s2 t2 : DiGraph} {ts : Int}
    {supply sup2 : List String}
    (hpl : payloadOK payload) (hinv : OpInv s t supply)
    (hok : process_schema_update_node payload s t ts supply = .ok (s2, t2, sup2)) :
    OpInv s2 t2 sup2 := by
  obtain ⟨hI2, hwf, hfresh, hnd⟩ := hinv
  unfold process_schema_update_node at hok
  cases hni : payload.node_id with
  | none => rw [hni] at hok; cases hok
  | some node_id =>
  rw [hni] at hok
  dsimp only at hok
  by_cases hhas : ¬ hasNode s node_id = true
  · rw [if_pos hhas] at hok; cases hok
  · rw [if_neg hhas] at hok
    cases hp : payload.properties with
    | none =>
      rw [hp] at hok
      simp only [Option.getD_none, ↓reduceIte] at hok
      simp only [Except.ok.injEq, Prod.mk.injEq] at hok
      obtain ⟨hs2, ht2, hsup⟩ := hok
      subst hs2; subst ht2; subst hsup
      exact ⟨hI2, hwf, hfresh, hnd⟩
    | some props =>
      rw [hp] at hok
      simp only [Option.getD_some] at hok
      have hprops := hpl props hp
      by_cases hemp : props = []
      · rw [if_pos hemp] at hok
        simp only [Except.ok.injEq, Prod.mk.injEq] at hok
        obtain ⟨hs2, ht2, hsup⟩ := hok
        subst hs2; subst ht2; subst hsup
        exact ⟨hI2, hwf, hfresh, hnd⟩
      · rw [if_neg hemp] at hok
        -- common facts about the merged node attributes
        have hI2core : ∀ (t2x : DiGraph),
            ((objHasKey "units_in_chain" props = false ∧
              ∀ q, countParentL t2x.nodes q = countParentL t.nodes q) ∨
             (objHasKey "units_in_chain" props = true ∧
              (∀ k2 : Int, objGet "units_in_chain" props = some (.n k2) →
                (countParentL t2x.nodes node_id : Int) = k2) ∧
              (∀ q, q ≠ node_id → countParentL t2x.nodes q = countParentL t.nodes q))) →
            I2 (updateNodeAttrs s node_id props) t2x := by
          intro t2x hcnt nd2 hmem k hk
          obtain ⟨nd, hndmem, hnd2⟩ := List.mem_map.mp hmem
          rw [countParent_eq]
          by_cases hcnd : nd.id = node_id
          · rw [if_pos hcnd] at hnd2
            rw [← hnd2] at hk
            dsimp only at hk
            by_cases hu : objHasKey "units_in_chain" props
            · rw [objGet_objUpdate_in _ props hprops.1 hu] at hk
              rcases hcnt with hcnt | hcnt
              · rw [hcnt.1] at hu
                cases hu
              · rw [← hnd2]
                dsimp only
                rw [hcnd]
                exact hcnt.2.1 k hk
            · rw [objGet_objUpdate_notin _ props (by simpa using hu)] at hk
              rcases hcnt with hcnt | hcnt
              · rw [← hnd2]
                dsimp only
                rw [hcnd, hcnt.2 node_id, ← countParent_eq]
                have := hI2 nd hndmem k hk
                rw [hcnd] at this
                exact this
              · exact absurd hcnt.1 (by simpa using hu)
          · rw [if_neg hcnd] at hnd2
            rw [← hnd2] at hk ⊢
            rcases hcnt with hcnt | hcnt
            · rw [hcnt.2 nd.id, ← countParent_eq]
              exact hI2 nd hndmem k hk
            · rw [hcnt.2.2 nd.id hcnd, ← countParent_eq]
              exact hI2 nd hndmem k hk
        by_cases hu : objHasKey "units_in_chain" props
        · rw [if_pos hu] at hok
          cases hcoerce : unitsOfUpdate ((objGet "units_in_chain" props).getD .null) with
          | error msg => rw [hcoerce] at hok; cases hok
          | ok units =>
            rw [hcoerce] at hok
            dsimp only at hok
            cases hexE : (if objHasKey "expiry" props = true then
                Except.map some (expiryOfUpdate ((objGet "expiry" props).getD Val.null))
              else Except.ok none) with
            | error msg => rw [hexE] at hok; cases hok
            | ok expiry =>
              rw [hexE] at hok
              dsimp only at hok
              cases hgt : (getNodeAttrs (updateNodeAttrs s node_id props) node_id).bind
                  (objGet "node_type") with
              | none => rw [hgt] at hok; cases hok
              | some nt2 =>
                rw [hgt] at hok
                dsimp only at hok
                cases husi : update_state_instances t node_id nt2 units ts expiry supply with
                | error msg => rw [husi] at hok; cases hok
                | ok pr =>
                  obtain ⟨t2x, sup2x⟩ := pr
                  rw [husi] at hok
                  simp only [Except.map, Except.ok.injEq, Prod.mk.injEq] at hok
                  obtain ⟨hs2, ht2, hsup⟩ := hok
                  subst ht2; subst hsup
                  have hsp := usi_spec hwf hfresh hnd husi
                  refine ⟨?_, hsp.1, hsp.2.2.2.1, hsp.2.2.2.2.1⟩
                  rw [← hs2]
                  apply hI2core
                  refine Or.inr ⟨hu, ?_, hsp.2.2.1⟩
                  intro k2 hk2
                  have : unitsOfUpdate ((objGet "units_in_chain" props).getD .null)
                      = .ok k2 := by
                    rw [hk2]
                    rfl
                  rw [this] at hcoerce
                  cases hcoerce
                  exact hsp.2.1
        · rw [if_neg hu] at hok
          simp only [Except.ok.injEq, Prod.mk.injEq] at hok
          obtain ⟨hs2, ht2, hsup⟩ := hok
          subst ht2; subst hsup
          refine ⟨?_, hwf, hfresh, hnd⟩
          rw [← hs2]
          exact hI2core t (Or.inl ⟨by simpa using hu, fun q => rfl⟩)

/-- I2 is preserved by the node arm of process_schema_delete. -/
theorem delete_node_preserves {payload : Payload} {s t s2 t2 : DiGraph} {ts : Int}
    {supply sup2 : List String}
    (hinv : OpInv s t supply)
    (hok : process_schema_delete_node payload s t ts supply = .ok (s2, t2, sup2)) :
    OpInv s2 t2 sup2 := by
  obtain ⟨hI2, hwf, hfresh, hnd⟩ := hinv
  unfold process_schema_delete_node at hok
  cases hni : payload.node_id with
  | none => rw [hni] at hok; cases hok
  | some node_id =>
  rw [hni] at hok
  dsimp only at hok
  by_cases hhas : ¬ hasNode s node_id = true
  · rw [if_pos hhas] at hok; cases hok
  · rw [if_neg hhas] at hok
    set schema1 := (if pyTruthy (payload.cascade.getD (.b false)) = true then
      removeNodesFrom s (descendants s node_id) else s) with hschema1
    have hsch1mem : ∀ nd ∈ schema1.nodes, nd ∈ s.nodes := by
      intro nd h
      rw [hschema1] at h
      by_cases hc : pyTruthy (payload.cascade.getD (.b false)) = true
      · rw [if_pos hc] at h
        exact mem_removeNodesFrom _ s nd h
      · rw [if_neg hc] at h
        exact h
    have hs2mem : ∀ nd ∈ (removeNode schema1 node_id).nodes,
        nd ∈ s.nodes ∧ nd.id ≠ node_id := by
      intro nd h
      have h2 := List.mem_filter.mp h
      exact ⟨hsch1mem nd h2.1, by simpa using h2.2⟩
    by_cases hu : objHasKey "units_in_chain" ((getNodeAttrs schema1 node_id).getD [])
    · rw [if_pos hu] at hok
      cases hgt : objGet "node_type" ((getNodeAttrs schema1 node_id).getD []) with
      | none => rw [hgt] at hok; cases hok
      | some nt =>
        rw [hgt] at hok
        dsimp only at hok
        cases husi : update_state_instances t node_id nt 0 ts none supply with
        | error msg => rw [husi] at hok; cases hok
        | ok pr =>
          obtain ⟨t2x, sup2x⟩ := pr
          rw [husi] at hok
          simp only [Except.map, Except.ok.injEq, Prod.mk.injEq] at hok
          obtain ⟨hs2, ht2, hsup⟩ := hok
          subst ht2; subst hsup
          have hsp := usi_spec hwf hfresh hnd husi
          refine ⟨?_, hsp.1, hsp.2.2.2.1, hsp.2.2.2.2.1⟩
          intro nd2 hmem k hk
          rw [← hs2] at hmem
          obtain ⟨hmem_s, hne⟩ := hs2mem nd2 hmem
          rw [countParent_eq, hsp.2.2.1 nd2.id hne, ← countParent_eq]
          exact hI2 nd2 hmem_s k hk
    · rw [if_neg hu] at hok
      simp only [Except.ok.injEq, Prod.mk.injEq] at hok
      obtain ⟨hs2, ht2, hsup⟩ := hok
      subst ht2; subst hsup
      refine ⟨?_, hwf, hfresh, hnd⟩
      intro nd2 hmem k hk
      rw [← hs2] at hmem
      exact hI2 nd2 (hs2mem nd2 hmem).1 k hk

/-- The retry loop of the edge-update arm never changes the node list. -/
theorem edgeUpdateGo_nodes (g : DiGraph) (src tgt : Val) (props : Obj) :
    ∀ (fuel rc ch sl : Nat), (edgeUpdateGo g src tgt props fuel rc ch sl).1.nodes = g.nodes
  | 0, _, _, _ => rfl
  | fuel + 1, rc, ch, sl => by
    unfold edgeUpdateGo
    by_cases hc : hasEdge g src tgt
    · rw [if_pos hc]
      dsimp only
      by_cases hp : props = []
      · rw [if_pos hp]
      · rw [if_neg hp]
        rfl
    · rw [if_neg hc]
      dsimp only
      by_cases hr : rc + 1 < 3
      · rw [if_pos hr]
        exact edgeUpdateGo_nodes g src tgt props fuel (rc + 1) (ch + 1) (sl + 1)
      · rw [if_neg hr]

/-- I2 is preserved by a successful process_schema_create. -/
theorem create_preserves {payload : Payload} {s t s2 t2 : DiGraph} {ts now : Int}
    {supply sup2 : List String}
    (hpl : payloadOK payload) (hinv : OpInv s t supply)
    (hok : process_schema_create payload s t ts now supply = .ok (s2, t2, sup2)) :
    OpInv s2 t2 sup2 := by
  unfold process_schema_create at hok
  cases hsrc : payload.source_id with
  | none =>
    rw [hsrc] at hok
    exact create_node_preserves hpl hinv hok
  | some src =>
  rw [hsrc] at hok
  cases htgt : payload.target_id with
  | none =>
    rw [htgt] at hok
    exact create_node_preserves hpl hinv hok
  | some tgt =>
  rw [htgt] at hok
  dsimp only at hok
  obtain ⟨hI2, hwf, hfresh, hnd⟩ := hinv
  by_cases h1 : ¬ hasNode s src = true
  · rw [if_pos h1] at hok; cases hok
  · rw [if_neg h1] at hok
    by_cases h2 : ¬ hasNode s tgt = true
    · rw [if_pos h2] at hok; cases hok
    · rw [if_neg h2] at hok
      cases het : payload.edge_type with
      | none => rw [het] at hok; cases hok
      | some et =>
        rw [het] at hok
        dsimp only at hok
        simp only [Except.ok.injEq, Prod.mk.injEq] at hok
        obtain ⟨hs2, ht2, hsup⟩ := hok
        subst ht2; subst hsup
        have hnodes : s2.nodes = s.nodes := by
          rw [← hs2]
          by_cases hedge : hasEdge s src tgt
          · rw [if_pos hedge]
            rfl
          · rw [if_neg hedge]
            unfold addEdge
            have hsrcn : hasNode s src = true := by
              simp only [Bool.not_eq_true, not_not] at h1
              simpa using h1
            have htgtn : hasNode s tgt = true := by
              simp only [Bool.not_eq_true, not_not] at h2
              simpa using h2
            rw [hsrcn]
            simp only [if_true]
            rw [htgtn]
            simp only [if_true]
            by_cases he3 : hasEdge s src tgt
            · rw [if_pos he3]
            · rw [if_neg he3]
        refine ⟨?_, hwf, hfresh, hnd⟩
        intro nd hmem k hk
        exact hI2 nd (by rw [← hnodes]; exact hmem) k hk

/-- I2 is preserved by a successful process_schema_update. -/
theorem update_preserves {payload : Payload} {s t s2 t2 : DiGraph} {ts : Int}
    {supply sup2 : List String}
    (hpl : payloadOK payload) (hinv : OpInv s t supply)
    (hok : process_schema_update payload s t ts supply = .ok (s2, t2, sup2)) :
    OpInv s2 t2 sup2 := by
  unfold process_schema_update at hok
  cases hsrc : payload.source_id with
  | none =>
    rw [hsrc] at hok
    exact update_node_preserves hpl hinv hok
  | some src =>
  rw [hsrc] at hok
  cases htgt : payload.target_id with
  | none =>
    rw [htgt] at hok
    exact update_node_preserves hpl hinv hok
  | some tgt =>
  rw [htgt] at hok
  dsimp only at hok
  obtain ⟨hI2, hwf, hfresh, hnd⟩ := hinv
  cases het : payload.edge_type with
  | none => rw [het] at hok; cases hok
  | some et =>
    rw [het] at hok
    dsimp only at hok
    by_cases hr : (edgeUpdateRetry s src tgt (payload.properties.getD [])).2.1 = 3
    · rw [if_pos hr] at hok; cases hok
    · rw [if_neg hr] at hok
      simp only [Except.ok.injEq, Prod.mk.injEq] at hok
      obtain ⟨hs2, ht2, hsup⟩ := hok
      subst ht2; subst hsup
      refine ⟨?_, hwf, hfresh, hnd⟩
      intro nd hmem k hk
      have hnodes : s2.nodes = s.nodes := by
        rw [← hs2]
        exact edgeUpdateGo_nodes s src tgt _ 3 0 0 0
      exact hI2 nd (by rw [← hnodes]; exact hmem) k hk

/-- I2 is preserved by a successful process_schema_delete. -/
theorem delete_preserves {payload : Payload} {s t s2 t2 : DiGraph} {ts : Int}
    {supply sup2 : List String}
    (hinv : OpInv s t supply)
    (hok : process_schema_delete payload s t ts supply = .ok (s2, t2, sup2)) :
    OpInv s2 t2 sup2 := by
  unfold process_schema_delete at hok
  cases hsrc : payload.source_id with
  | none =>
    rw [hsrc] at hok
    exact delete_node_preserves hinv hok
  | some src =>
  rw [hsrc] at hok
  cases htgt : payload.target_id with
  | none =>
    rw [htgt] at hok
    exact delete_node_preserves hinv hok
  | some tgt =>
  rw [htgt] at hok
  dsimp only at hok
  obtain ⟨hI2, hwf, hfresh, hnd⟩ := hinv
  by_cases h1 : ¬ hasEdge s src tgt = true
  · rw [if_pos h1] at hok; cases hok
  · rw [if_neg h1] at hok
    have hgen : ∀ g2 : DiGraph, g2.nodes = s.nodes → s2 = g2 → t2 = t → sup2 = supply →
        OpInv s2 t2 sup2 := by
      intro g2 hg2 hs2 ht2 hsup
      subst hs2; subst ht2; subst hsup
      refine ⟨?_, hwf, hfresh, hnd⟩
      intro nd hmem k hk
      exact hI2 nd (by rw [← hg2]; exact hmem) k hk
    cases het : payload.edge_type with
    | none =>
      rw [het] at hok
      simp only [Except.ok.injEq, Prod.mk.injEq] at hok
      exact hgen (removeEdge s src tgt) rfl hok.1.symm hok.2.1.symm hok.2.2.symm
    | some et =>
      rw [het] at hok
      dsimp only at hok
      by_cases hmatch : (objGet "relationship_type"
          ((getEdgeAttrs s src tgt).getD [])).getD .null = et
      · rw [if_pos hmatch] at hok
        simp only [Except.ok.injEq, Prod.mk.injEq] at hok
        exact hgen (removeEdge s src tgt) rfl hok.1.symm hok.2.1.symm hok.2.2.symm
      · rw [if_neg hmatch] at hok
        simp only [Except.ok.injEq, Prod.mk.injEq] at hok
        exact hgen s rfl hok.1.symm hok.2.1.symm hok.2.2.symm

theorem wfNodes_addNode (g : DiGraph) (v : Val) (a : Obj) (h : wfNodes g) :
    wfNodes (addNode g v a) := by
  unfold addNode
  by_cases hc : hasNode g v
  · rw [if_pos hc]
    unfold wfNodes at h ⊢
    dsimp only
    have heq : (g.nodes.map
        (fun nd => if nd.id = v then NXNode.mk v (objUpdate nd.attrs a) else nd)).map NXNode.id
        = g.nodes.map NXNode.id := by
      rw [List.map_map]
      apply List.map_congr_left
      intro nd _
      by_cases hcn : nd.id = v
      · simp [hcn]
      · simp [hcn]
    rw [heq]
    exact h
  · rw [if_neg hc]
    unfold wfNodes at h ⊢
    dsimp only
    rw [List.map_append]
    rw [List.nodup_append]
    refine ⟨h, by simp, ?_⟩
    intro x hx hmem
    simp only [List.map_cons, List.map_nil, List.mem_singleton] at hmem
    obtain ⟨nd, hnd, hid⟩ := List.mem_map.mp hx
    have : hasNode g v = true := hasNode_true_iff.mpr ⟨nd, hnd, by rw [hid, hmem]⟩
    exact hc (by simpa using this)

theorem wfNodes_addEdge (g : DiGraph) (src tgt : Val) (a : Obj) (h : wfNodes g) :
    wfNodes (addEdge g src tgt a) := by
  unfold addEdge
  have step : ∀ (g2 : DiGraph) (v : Val), wfNodes g2 →
      wfNodes (if hasNode g2 v then g2 else ⟨g2.nodes ++ [⟨v, []⟩], g2.edges⟩) := by
    intro g2 v h2
    by_cases hc : hasNode g2 v
    · rw [if_pos hc]
      exact h2
    · rw [if_neg hc]
      unfold wfNodes at h2 ⊢
      dsimp only
      rw [List.map_append, List.nodup_append]
      refine ⟨h2, by simp, ?_⟩
      intro x hx hmem
      simp only [List.map_cons, List.map_nil, List.mem_singleton] at hmem
      obtain ⟨nd, hnd, hid⟩ := List.mem_map.mp hx
      have : hasNode g2 v = true := hasNode_true_iff.mpr ⟨nd, hnd, by rw [hid, hmem]⟩
      exact hc (by simpa using this)
  have h1 := step g src h
  have h2 := step (if hasNode g src then g else ⟨g.nodes ++ [⟨src, []⟩], g.edges⟩) tgt h1
  set g2 := (if hasNode (if hasNode g src then g else ⟨g.nodes ++ [⟨src, []⟩], g.edges⟩) tgt
    then (if hasNode g src then g else ⟨g.nodes ++ [⟨src, []⟩], g.edges⟩)
    else ⟨(if hasNode g src then g else ⟨g.nodes ++ [⟨src, []⟩], g.edges⟩).nodes ++ [⟨tgt, []⟩],
          (if hasNode g src then g else ⟨g.nodes ++ [⟨src, []⟩], g.edges⟩).edges⟩) with hg2
  by_cases hc : hasEdge g2 src tgt
  · rw [if_pos hc]
    exact h2
  · rw [if_neg hc]
    exact h2

theorem node_fold_wf :
    ∀ (l : List Obj) (g g1 : DiGraph), wfNodes g →
      l.foldlM (fun g nd =>
        match objGet "id" nd with
        | none => Except.error "KeyError: id"
        | some i => Except.ok (addNode g i (objRemoveKeys nd ["id"]))) g = .ok g1 →
      wfNodes g1
  | [], g, g1, hwf, hok => by
    simp only [List.foldlM_nil, pure, Except.pure, Except.ok.injEq] at hok
    rw [← hok]
    exact hwf
  | nd :: rest, g, g1, hwf, hok => by
    rw [List.foldlM_cons] at hok
    cases hid : objGet "id" nd with
    | none =>
      rw [hid] at hok
      cases hok
    | some i =>
      rw [hid] at hok
      simp only [Except.bind] at hok
      exact node_fold_wf rest _ g1 (wfNodes_addNode g i _ hwf) hok

theorem link_fold_wf :
    ∀ (l : List Obj) (g g1 : DiGraph), wfNodes g →
      l.foldlM (fun g lk =>
        match objGet "source" lk, objGet "target" lk with
        | some sv, some tv => Except.ok (addEdge g sv tv (objRemoveKeys lk ["source", "target"]))
        | _, _ => Except.error "KeyError: source/target") g = .ok g1 →
      wfNodes g1
  | [], g, g1, hwf, hok => by
    simp only [List.foldlM_nil, pure, Except.pure, Except.ok.injEq] at hok
    rw [← hok]
    exact hwf
  | lk :: rest, g, g1, hwf, hok => by
    rw [List.foldlM_cons] at hok
    cases hsv : objGet "source" lk with
    | none =>
      rw [hsv] at hok
      simp only [Except.bind] at hok
      cases hok
    | some sv =>
      rw [hsv] at hok
      cases htv : objGet "target" lk with
      | none =>
        rw [htv] at hok
        simp only [Except.bind] at hok
        cases hok
      | some tv =>
        rw [htv] at hok
        simp only [Except.bind] at hok
        exact link_fold_wf rest _ g1 (wfNodes_addEdge g sv tv _ hwf) hok

theorem node_link_graph_wf {d : NodeLinkDoc} {g : DiGraph}
    (h : node_link_graph d = .ok g) : wfNodes g := by
  unfold node_link_graph at h
  cases hn : d.nodes.foldlM (fun g nd =>
      match objGet "id" nd with
      | none => Except.error "KeyError: id"
      | some i => Except.ok (addNode g i (objRemoveKeys nd ["id"]))) DiGraph.empty with
  | error msg => rw [hn] at h; cases h
  | ok g1 =>
    rw [hn] at h
    have hwf1 : wfNodes g1 := node_fold_wf d.nodes DiGraph.empty g1 (by simp [wfNodes, DiGraph.empty]) hn
    exact link_fold_wf d.links g1 g hwf1 h

/-- Behaviour of the direct-create reconciliation loop over a duplicate-free
node list: every processed node carrying an integer units value ends with
exactly that many instances, parents outside the list are untouched, and
the freshness bookkeeping survives. -/
theorem direct_fold (ts now : Int) :
    ∀ (l : List NXNode) (t0 : DiGraph) (sup0 : List String) (t2 : DiGraph) (sup2 : List String),
      wfNodes t0 → (∀ id ∈ sup0, hasNode t0 (.s id) = false) → sup0.Nodup →
      (l.map NXNode.id).Nodup →
      l.foldlM (directStep ts now) (t0, sup0) = .ok (t2, sup2) →
      wfNodes t2 ∧ (∀ id ∈ sup2, hasNode t2 (.s id) = false) ∧ sup2.Nodup ∧
      (∀ q, q ∉ l.map NXNode.id → countParentL t2.nodes q = countParentL t0.nodes q) ∧
      (∀ nd ∈ l, ∀ k : Int, objGet "units_in_chain" nd.attrs = some (.n k) →
        (countParentL t2.nodes nd.id : Int) = k)
  | [], t0, sup0, t2, sup2, hwf, hfresh, hnd, hlnd, hok => by
    simp only [List.foldlM_nil, pure, Except.pure, Except.ok.injEq, Prod.mk.injEq] at hok
    obtain ⟨h1, h2⟩ := hok
    subst h1; subst h2
    exact ⟨hwf, hfresh, hnd, fun q _ => rfl, fun nd h => by cases h⟩
  | nd0 :: rest, t0, sup0, t2, sup2, hwf, hfresh, hnd, hlnd, hok => by
    rw [List.foldlM_cons] at hok
    have hlnd2 : (rest.map NXNode.id).Nodup := by
      simp only [List.map_cons, List.nodup_cons] at hlnd
      exact hlnd.2
    have hid0notin : nd0.id ∉ rest.map NXNode.id := by
      simp only [List.map_cons, List.nodup_cons] at hlnd
      exact hlnd.1
    unfold directStep at hok
    by_cases hu : objHasKey "units_in_chain" nd0.attrs
    · rw [if_pos hu] at hok
      dsimp only at hok
      cases husi : update_state_instances t0 nd0.id
          ((objGet "node_type" nd0.attrs).getD (.s "unknown"))
          (unitsOfCreate ((objGet "units_in_chain" nd0.attrs).getD (.n 0))) ts
          (if objHasKey "expiry" nd0.attrs = true then
            some (expiryOfCreate now ((objGet "expiry" nd0.attrs).getD (.n 0)))
          else none) sup0 with
      | error msg =>
        rw [husi] at hok
        cases hok
      | ok pr =>
        obtain ⟨t1, sup1⟩ := pr
        rw [husi] at hok
        have hsp := usi_spec hwf hfresh hnd husi
        have hrec := direct_fold ts now rest t1 sup1 t2 sup2
          hsp.1 hsp.2.2.2.1 hsp.2.2.2.2.1 hlnd2 hok
        refine ⟨hrec.1, hrec.2.1, hrec.2.2.1, ?_, ?_⟩
        · intro q hq
          have hqne : q ≠ nd0.id := by
            intro hc
            exact hq (by rw [hc]; simp)
          have hqrest : q ∉ rest.map NXNode.id := by
            intro hc
            exact hq (by simp [hc])
          rw [hrec.2.2.2.1 q hqrest, hsp.2.2.1 q hqne]
        · intro nd hmem k hk
          rcases List.mem_cons.mp hmem with h | h
          · subst h
            rw [hrec.2.2.2.1 nd.id hid0notin]
            have : unitsOfCreate ((objGet "units_in_chain" nd.attrs).getD (.n 0)) = k := by
              rw [hk]
              rfl
            rw [← this]
            exact hsp.2.1
          · exact hrec.2.2.2.2 nd h k hk
    · rw [if_neg hu] at hok
      have hrec := direct_fold ts now rest t0 sup0 t2 sup2 hwf hfresh hnd hlnd2 hok
      refine ⟨hrec.1, hrec.2.1, hrec.2.2.1, ?_, ?_⟩
      · intro q hq
        have hqrest : q ∉ rest.map NXNode.id := by
          intro hc
          exact hq (by simp [hc])
        exact hrec.2.2.2.1 q hqrest
      · intro nd hmem k hk
        rcases List.mem_cons.mp hmem with h | h
        · subst h
          exfalso
          have : objHasKey "units_in_chain" nd.attrs = true := by
            unfold objHasKey
            rw [hk]
            rfl
          rw [this] at hu
          exact hu rfl
        · exact hrec.2.2.2.2 nd h k hk

/-- I2 holds after a successful process_schema_create_direct. -/
theorem direct_preserves {d : NodeLinkDoc} {s t s2 t2 : DiGraph} {ts now : Int}
    {supply sup2 : List String}
    (hinv : OpInv s t supply)
    (hok : process_schema_create_direct d t ts now supply = .ok (s2, t2, sup2)) :
    OpInv s2 t2 sup2 := by
  obtain ⟨hI2, hwf, hfresh, hnd⟩ := hinv
  unfold process_schema_create_direct at hok
  cases hnl : node_link_graph d with
  | error msg => rw [hnl] at hok; cases hok
  | ok new_schema =>
    rw [hnl] at hok
    dsimp only at hok
    have hwfns := node_link_graph_wf hnl
    cases hfold : List.foldlM (directStep ts now) (t, supply) new_schema.nodes with
    | error msg => rw [hfold] at hok; cases hok
    | ok r =>
      obtain ⟨t2x, sup2x⟩ := r
      rw [hfold] at hok
      dsimp only at hok
      simp only [Except.ok.injEq, Prod.mk.injEq] at hok
      obtain ⟨hs2, ht2, hsup⟩ := hok
      subst hs2; subst ht2; subst hsup
      have hdf := direct_fold ts now new_schema.nodes t supply t2x sup2x
        hwf hfresh hnd hwfns hfold
      exact ⟨fun nd hmem k hk => by
        rw [countParent_eq]
        exact hdf.2.2.2.2 nd hmem k hk, hdf.1, hdf.2.1, hdf.2.2.1⟩

/-- OpInv survives the bulk_create fold of applyAction. -/
theorem bulk_create_fold (ts now : Int) :
    ∀ (ps : List Payload) (s t : DiGraph) (supply : List String)
      (s2 t2 : DiGraph) (sup2 : List String),
      (∀ p ∈ ps, payloadOK p) → OpInv s t supply →
      ps.foldlM (fun acc p => process_schema_create p acc.1 acc.2.1 ts now acc.2.2)
        (s, t, supply) = .ok (s2, t2, sup2) →
      OpInv s2 t2 sup2
  | [], s, t, supply, s2, t2, sup2, _, hinv, hok => by
    simp only [List.foldlM_nil, pure, Except.pure, Except.ok.injEq, Prod.mk.injEq] at hok
    obtain ⟨h1, h2, h3⟩ := hok
    subst h1; subst h2; subst h3
    exact hinv
  | p :: rest, s, t, supply, s2, t2, sup2, hpl, hinv, hok => by
    rw [List.foldlM_cons] at hok
    cases hstep : process_schema_create p s t ts now supply with
    | error msg => rw [hstep] at hok; cases hok
    | ok acc1 =>
      obtain ⟨s1, t1, sup1⟩ := acc1
      rw [hstep] at hok
      exact bulk_create_fold ts now rest s1 t1 sup1 s2 t2 sup2
        (fun q hq => hpl q (List.mem_cons_of_mem p hq))
        (create_preserves (hpl p (List.mem_cons_self p rest)) hinv hstep) hok

/-- OpInv survives the bulk_update fold of applyAction. -/
theorem bulk_update_fold (ts : Int) :
    ∀ (ps : List Payload) (s t : DiGraph) (supply : List String)
      (s2 t2 : DiGraph) (sup2 : List String),
      (∀ p ∈ ps, payloadOK p) → OpInv s t supply →
      ps.foldlM (fun acc p => process_schema_update p acc.1 acc.2.1 ts acc.2.2)
        (s, t, supply) = .ok (s2, t2, sup2) →
      OpInv s2 t2 sup2
  | [], s, t, supply, s2, t2, sup2, _, hinv, hok => by
    simp only [List.foldlM_nil, pure, Except.pure, Except.ok.injEq, Prod.mk.injEq] at hok
    obtain ⟨h1, h2, h3⟩ := hok
    subst h1; subst h2; subst h3
    exact hinv
  | p :: rest, s, t, supply, s2, t2, sup2, hpl, hinv, hok => by
    rw [List.foldlM_cons] at hok
    cases hstep : process_schema_update p s t ts supply with
    | error msg => rw [hstep] at hok; cases hok
    | ok acc1 =>
      obtain ⟨s1, t1, sup1⟩ := acc1
      rw [hstep] at hok
      exact bulk_update_fold ts rest s1 t1 sup1 s2 t2 sup2
        (fun q hq => hpl q (List.mem_cons_of_mem p hq))
        (update_preserves (hpl p (List.mem_cons_self p rest)) hinv hstep) hok

/-- OpInv survives the bulk_delete fold of applyAction. -/
theorem bulk_delete_fold (ts : Int) :
    ∀ (ps : List Payload) (s t : DiGraph) (supply : List String)
      (s2 t2 : DiGraph) (sup2 : List String),
      OpInv s t supply →
      ps.foldlM (fun acc p => process_schema_delete p acc.1 acc.2.1 ts acc.2.2)
        (s, t, supply) = .ok (s2, t2, sup2) →
      OpInv s2 t2 sup2
  | [], s, t, supply, s2, t2, sup2, hinv, hok => by
    simp only [List.foldlM_nil, pure, Except.pure, Except.ok.injEq, Prod.mk.injEq] at hok
    obtain ⟨h1, h2, h3⟩ := hok
    subst h1; subst h2; subst h3
    exact hinv
  | p :: rest, s, t, supply, s2, t2, sup2, hinv, hok => by
    rw [List.foldlM_cons] at hok
    cases hstep : process_schema_delete p s t ts supply with
    | error msg => rw [hstep] at hok; cases hok
    | ok acc1 =>
      obtain ⟨s1, t1, sup1⟩ := acc1
      rw [hstep] at hok
      exact bulk_delete_fold ts rest s1 t1 sup1 s2 t2 sup2
        (delete_preserves hinv hstep) hok

/-- OpInv is preserved by every successful applyAction dispatch. -/
theorem applyAction_preserves {action : String} {pd : PayloadData}
    {s t s2 t2 : DiGraph} {ts now : Int} {supply sup2 : List String}
    (hpd : pdOK pd) (hinv : OpInv s t supply)
    (hok : applyAction action pd s t ts now supply = .ok (s2, t2, sup2)) :
    OpInv s2 t2 sup2 := by
  unfold applyAction at hok
  by_cases h1 : action = "create"
  · rw [if_pos h1] at hok
    cases pd with
    | single p => exact create_preserves hpd hinv hok
    | bulk ps => cases hok
    | direct d => cases hok
  · rw [if_neg h1] at hok
    by_cases h2 : action = "update"
    · rw [if_pos h2] at hok
      cases pd with
      | single p => exact update_preserves hpd hinv hok
      | bulk ps => cases hok
      | direct d => cases hok
    · rw [if_neg h2] at hok
      by_cases h3 : action = "delete"
      · rw [if_pos h3] at hok
        cases pd with
        | single p => exact delete_preserves hinv hok
        | bulk ps => cases hok
        | direct d => cases hok
      · rw [if_neg h3] at hok
        by_cases h4 : action = "bulk_create"
        · rw [if_pos h4] at hok
          cases pd with
          | single p => cases hok
          | bulk ps => exact bulk_create_fold ts now ps s t supply s2 t2 sup2 hpd hinv hok
          | direct d => cases hok
        · rw [if_neg h4] at hok
          by_cases h5 : action = "bulk_update"
          · rw [if_pos h5] at hok
            cases pd with
            | single p => cases hok
            | bulk ps => exact bulk_update_fold ts ps s t supply s2 t2 sup2 hpd hinv hok
            | direct d => cases hok
          · rw [if_neg h5] at hok
            by_cases h6 : action = "bulk_delete"
            · rw [if_pos h6] at hok
              cases pd with
              | single p => cases hok
              | bulk ps => exact bulk_delete_fold ts ps s t supply s2 t2 sup2 hinv hok
              | direct d => cases hok
            · rw [if_neg h6] at hok
              by_cases h7 : action = "direct_create"
              · rw [if_pos h7] at hok
                cases pd with
                | single p => cases hok
                | bulk ps => cases hok
                | direct d => exact direct_preserves hinv hok
              · rw [if_neg h7] at hok
                simp only [Except.ok.injEq, Prod.mk.injEq] at hok
                obtain ⟨hs2, ht2, hsup⟩ := hok
                subst hs2; subst ht2; subst hsup
                exact hinv

/-- C1: after every successfully applied mutation (create, update, delete,
the bulk variants and direct_create), assuming every units_in_chain value in
the payload is a non-negative integer, every schema node whose
units_in_chain equals k has exactly k state instances whose parent_id is its
node_id (invariant I2), provided I2 held before, the state graph had
well-formed duplicate-free node ids, and the fresh-id supply was unused. -/
theorem C1_I2_preserved_by_every_mutation {action : String} {pd : PayloadData}
    {s t s2 t2 : DiGraph} {ts now : Int} {supply sup2 : List String}
    (hpd : pdOK pd) (hinv : OpInv s t supply)
    (hok : applyAction action pd s t ts now supply = .ok (s2, t2, sup2)) :
    I2 s2 t2 :=
  (applyAction_preserves hpd hinv hok).1

theorem c1wPayload_pdOK : pdOK (.single c1wPayload) := by
  intro props hp
  injection hp with h
  subst h
  refine ⟨by decide, fun v hv => ⟨2, ?_⟩⟩
  simp only [objGet, if_pos] at hv
  injection hv with h2
  exact h2.symm

theorem c1wStart : OpInv DiGraph.empty DiGraph.empty ["i1", "i2"] := by
  refine ⟨fun nd h => absurd h (List.not_mem_nil nd), ?_, fun id h => rfl, by decide⟩
  simp [wfNodes, DiGraph.empty]

theorem C1_I2_preserved_by_every_mutation_witness : I2 c1wSchema2 c1wState2 :=
  C1_I2_preserved_by_every_mutation c1wPayload_pdOK c1wStart
    (by rfl :
      applyAction "create" (.single c1wPayload) DiGraph.empty DiGraph.empty 5 5
        ["i1", "i2"] = .ok (c1wSchema2, c1wState2, []))

/-! ## Round-trip analysis of the compression codec -/

theorem objGet_cons_ne (k : String) (p : String × Val) (o : Obj) (h : p.1 ≠ k) :
    objGet k (p :: o) = objGet k o := by
  obtain ⟨k0, v0⟩ := p
  simp only [objGet]
  rw [if_neg h]

theorem recordRow_skip :
    ∀ (ks : List String) (p : String × Val) (o : Obj), p.1 ∉ ks →
      recordRow ks (p :: o) = recordRow ks o
  | [], _, _, _ => rfl
  | k :: ks, p, o, hmem => by
    simp only [recordRow, List.mapM_cons] at *
    rw [objGet_cons_ne k p o (fun hc => hmem (by rw [hc]; exact List.mem_cons_self k ks))]
    have := recordRow_skip ks p o (fun hc => hmem (List.mem_cons_of_mem k hc))
    simp only [recordRow] at this
    rw [this]

theorem recordRow_self : ∀ o : Obj, (objKeys o).Nodup →
    recordRow (objKeys o) o = some (o.map Prod.snd)
  | [], _ => rfl
  | (k, v) :: rest, hnd => by
    simp only [objKeys, List.map_cons, List.nodup_cons] at hnd
    simp only [objKeys, List.map_cons, recordRow, List.mapM_cons]
    have h1 : objGet k ((k, v) :: rest) = some v := by
      simp [objGet]
    rw [h1]
    have h2 := recordRow_skip (rest.map Prod.fst) (k, v) rest hnd.1
    simp only [recordRow] at h2
    rw [h2]
    have h3 := recordRow_self rest hnd.2
    simp only [recordRow, objKeys] at h3
    rw [h3]
    rfl

theorem zipObj_keys_vals : ∀ o : Obj, zipObj (objKeys o) (o.map Prod.snd) = o
  | [] => rfl
  | (k, v) :: rest => by
    simp only [zipObj, objKeys, List.map_cons, List.zip_cons_cons]
    have := zipObj_keys_vals rest
    simp only [zipObj, objKeys] at this
    rw [this]

theorem assocGet_append_some {β : Type} (k : Val) (l1 l2 : List (Val × β)) (v : β)
    (h : assocGet k l1 = some v) : assocGet k (l1 ++ l2) = some v := by
  induction l1 with
  | nil => cases h
  | cons p rest ih =>
    obtain ⟨k0, v0⟩ := p
    simp only [assocGet, List.cons_append] at h ⊢
    by_cases hc : k0 = k
    · rw [if_pos hc] at h ⊢; exact h
    · rw [if_neg hc] at h ⊢; exact ih h

theorem assocGet_append_none {β : Type} (k : Val) (l1 l2 : List (Val × β))
    (h : assocGet k l1 = none) : assocGet k (l1 ++ l2) = assocGet k l2 := by
  induction l1 with
  | nil => rfl
  | cons p rest ih =>
    obtain ⟨k0, v0⟩ := p
    simp only [assocGet, List.cons_append] at h ⊢
    by_cases hc : k0 = k
    · rw [if_pos hc] at h; cases h
    · rw [if_neg hc] at h ⊢; exact ih h

theorem assocGet_none_iff {β : Type} (k : Val) :
    ∀ l : List (Val × β), assocGet k l = none ↔ k ∉ l.map Prod.fst
  | [] => by simp [assocGet]
  | (k0, v0) :: rest => by
    simp only [assocGet, List.map_cons, List.mem_cons]
    by_cases hc : k0 = k
    · rw [if_pos hc]
      simp [hc]
    · rw [if_neg hc]
      rw [assocGet_none_iff k rest]
      constructor
      · intro h hmem
        rcases hmem with h2 | h2
        · exact hc h2.symm
        · exact h h2
      · intro h h2
        exact h (Or.inr h2)

theorem assocGet_isSome_of_mem {β : Type} (k : Val) (l : List (Val × β))
    (h : k ∈ l.map Prod.fst) : ∃ v, assocGet k l = some v := by
  cases hg : assocGet k l with
  | none => exact absurd h ((assocGet_none_iff k l).mp hg)
  | some v => exact ⟨v, rfl⟩

theorem assocGet_mem_of_some {β : Type} (k : Val) (v : β) :
    ∀ l : List (Val × β), assocGet k l = some v → k ∈ l.map Prod.fst
  | [], h => by cases h
  | (k0, v0) :: rest, h => by
    simp only [assocGet] at h
    simp only [List.map_cons, List.mem_cons]
    by_cases hc : k0 = k
    · exact Or.inl hc.symm
    · rw [if_neg hc] at h
      exact Or.inr (assocGet_mem_of_some k v rest h)

theorem assocAppendRow_fst (k : Val) (row : List Val) :
    ∀ l : List (Val × List (List Val)),
      (assocAppendRow k row l).map Prod.fst = l.map Prod.fst
  | [] => rfl
  | (k0, v0) :: rest => by
    simp only [assocAppendRow, List.map_cons]
    by_cases hc : k0 = k
    · rw [if_pos hc]
      simp only [List.map_cons]
      have := assocAppendRow_fst k row rest
      simp only [assocAppendRow] at this
      rw [this, hc]
    · rw [if_neg hc]
      simp only [List.map_cons]
      have := assocAppendRow_fst k row rest
      simp only [assocAppendRow] at this
      rw [this]

theorem assocGet_appendRow_eq (k : Val) (row : List Val) :
    ∀ l : List (Val × List (List Val)),
      assocGet k (assocAppendRow k row l) = (assocGet k l).map (fun rows => rows ++ [row])
  | [] => rfl
  | (k0, v0) :: rest => by
    simp only [assocAppendRow, List.map_cons]
    by_cases hc : k0 = k
    · subst hc
      rw [if_pos rfl]
      simp [assocGet]
    · rw [if_neg hc]
      simp only [assocGet]
      rw [if_neg hc, if_neg hc]
      have := assocGet_appendRow_eq k row rest
      simp only [assocAppendRow] at this
      exact this

theorem assocGet_appendRow_ne (k q : Val) (row : List Val) (hq : q ≠ k) :
    ∀ l : List (Val × List (List Val)),
      assocGet q (assocAppendRow k row l) = assocGet q l
  | [] => rfl
  | (k0, v0) :: rest => by
    simp only [assocAppendRow, List.map_cons]
    by_cases hc : k0 = k
    · rw [if_pos hc]
      simp only [assocGet]
      have hkq : ¬ k = q := fun h => hq h.symm
      rw [if_neg hkq, if_neg (show ¬ k0 = q by rw [hc]; exact hkq)]
      have := assocGet_appendRow_ne k q row hq rest
      simp only [assocAppendRow] at this
      exact this
    · rw [if_neg hc]
      simp only [assocGet]
      by_cases hc2 : k0 = q
      · rw [if_pos hc2, if_pos hc2]
      · rw [if_neg hc2, if_neg hc2]
        have := assocGet_appendRow_ne k q row hq rest
        simp only [assocAppendRow] at this
        exact this

theorem objGet_head (k : String) (v : Val) (rest : Obj) :
    objGet k ((k, v) :: rest) = some v := by
  simp [objGet]

/-- Behaviour of the link-compression loop under the amended hypotheses:
every link row is the value list of its dict, and the running
relationship_type bucket table stays consistent with every link's own keys. -/
theorem compressLinksAux_spec :
    ∀ (todo : List Obj) (rts : List (Val × List String)) (lvs : List (List Val)),
      (∀ lk ∈ todo, (objKeys lk).Nodup) →
      (∀ lk ∈ todo, ∃ r rest0, lk = ("relationship_type", r) :: rest0) →
      (∀ a ∈ todo, ∀ b ∈ todo, objGet "relationship_type" a = objGet "relationship_type" b →
        objKeys a = objKeys b) →
      (∀ lk ∈ todo, ∀ r, objGet "relationship_type" lk = some r →
        ∀ ks, assocGet r rts = some ks → ks = objKeys lk) →
      ∃ rts2, compressLinksAux todo rts lvs =
          .ok (rts2, lvs ++ todo.map (fun lk => lk.map Prod.snd)) ∧
        (∀ r ks, assocGet r rts = some ks → assocGet r rts2 = some ks) ∧
        (∀ lk ∈ todo, ∀ r, objGet "relationship_type" lk = some r →
          assocGet r rts2 = some (objKeys lk))
  | [], rts, lvs, _, _, _, _ =>
    ⟨rts, by simp [compressLinksAux], fun r ks h => h, fun lk h => absurd h (List.not_mem_nil lk)⟩
  | lk :: rest, rts, lvs, hnd, hfirst, hsame, hbuck => by
    obtain ⟨r0, rest0, hlk⟩ := hfirst lk (List.mem_cons_self lk rest)
    have hget : objGet "relationship_type" lk = some r0 := by
      rw [hlk]; exact objGet_head _ _ _
    unfold compressLinksAux
    rw [hget]
    dsimp only
    cases hb : assocGet r0 rts with
    | some keys =>
      dsimp only
      have hkeys : keys = objKeys lk := hbuck lk (List.mem_cons_self lk rest) r0 hget keys hb
      have hrr : recordRow keys lk = some (lk.map Prod.snd) := by
        rw [hkeys]
        exact recordRow_self lk (hnd lk (List.mem_cons_self lk rest))
      rw [hrr]
      dsimp only
      obtain ⟨rts2, hrun, hpres, hall⟩ := compressLinksAux_spec rest rts (lvs ++ [lk.map Prod.snd])
        (fun q hq => hnd q (List.mem_cons_of_mem lk hq))
        (fun q hq => hfirst q (List.mem_cons_of_mem lk hq))
        (fun a ha b hb2 => hsame a (List.mem_cons_of_mem lk ha) b (List.mem_cons_of_mem lk hb2))
        (fun q hq => hbuck q (List.mem_cons_of_mem lk hq))
      refine ⟨rts2, ?_, hpres, ?_⟩
      · rw [hrun]
        simp
      · intro q hq r hr
        rcases List.mem_cons.mp hq with h | h
        · subst h
          rw [hget] at hr
          injection hr with hr2
          rw [← hr2, ← hkeys]
          exact hpres r0 keys hb
        · exact hall q h r hr
    | none =>
      dsimp only
      have hrr : recordRow (objKeys lk) lk = some (lk.map Prod.snd) :=
        recordRow_self lk (hnd lk (List.mem_cons_self lk rest))
      rw [hrr]
      dsimp only
      have hbuck2 : ∀ q ∈ rest, ∀ r, objGet "relationship_type" q = some r →
          ∀ ks, assocGet r (rts ++ [(r0, objKeys lk)]) = some ks → ks = objKeys q := by
        intro q hq r hr ks hks
        cases hb2 : assocGet r rts with
        | some ks0 =>
          rw [assocGet_append_some r rts _ ks0 hb2] at hks
          injection hks with h2
          subst h2
          exact hbuck q (List.mem_cons_of_mem lk hq) r hr ks0 hb2
        | none =>
          rw [assocGet_append_none r rts _ hb2] at hks
          simp only [assocGet] at hks
          by_cases hc : r0 = r
          · rw [if_pos hc] at hks
            injection hks with h2
            subst h2
            rw [hsame q (List.mem_cons_of_mem lk hq) lk (List.mem_cons_self lk rest)
              (by rw [hr, hget, hc])]
          · rw [if_neg hc] at hks
            cases hks
      obtain ⟨rts2, hrun, hpres, hall⟩ := compressLinksAux_spec rest
        (rts ++ [(r0, objKeys lk)]) (lvs ++ [lk.map Prod.snd])
        (fun q hq => hnd q (List.mem_cons_of_mem lk hq))
        (fun q hq => hfirst q (List.mem_cons_of_mem lk hq))
        (fun a ha b hb2 => hsame a (List.mem_cons_of_mem lk ha) b (List.mem_cons_of_mem lk hb2))
        hbuck2
      refine ⟨rts2, ?_, ?_, ?_⟩
      · rw [hrun]
        simp
      · intro r ks h
        exact hpres r ks (assocGet_append_some r rts _ ks h)
      · intro q hq r hr
        rcases List.mem_cons.mp hq with h | h
        · subst h
          rw [hget] at hr
          injection hr with hr2
          rw [← hr2]
          refine hpres r0 (objKeys q) ?_
          rw [assocGet_append_none r0 rts _ hb]
          simp [assocGet]
        · exact hall q h r hr

/-- decompress_graph_json reproduces a link list exactly when every row is a
link's value list, the first key of each link is relationship_type, and the
bucket table maps each relationship type to that link's key list. -/
theorem decompressLinks_gen (rts : List (Val × List String)) :
    ∀ (lks : List Obj) (acc : List Obj),
      (∀ lk ∈ lks, (objKeys lk).Nodup ∧
        (∃ r rest0, lk = ("relationship_type", r) :: rest0) ∧
        ∀ r, objGet "relationship_type" lk = some r → assocGet r rts = some (objKeys lk)) →
      (lks.map (fun lk => lk.map Prod.snd)).foldlM
        (fun a row =>
          match row with
          | [] => Except.error "IndexError: empty link row"
          | r :: _ =>
            match assocGet r rts with
            | none => Except.error "KeyError: unknown relationship type"
            | some keys => Except.ok (a ++ [zipObj keys row])) acc
        = .ok (acc ++ lks)
  | [], acc, _ => by
    simp [List.foldlM_nil, pure, Except.pure]
  | lk :: rest, acc, h => by
    obtain ⟨hnd, ⟨r0, rest0, hlk⟩, hbuck⟩ := h lk (List.mem_cons_self lk rest)
    rw [List.map_cons, List.foldlM_cons]
    have hrow : lk.map Prod.snd = r0 :: rest0.map Prod.snd := by rw [hlk]; rfl
    rw [hrow]
    dsimp only
    have hget : objGet "relationship_type" lk = some r0 := by
      rw [hlk]; exact objGet_head _ _ _
    rw [hbuck r0 hget]
    dsimp only
    rw [← hrow, zipObj_keys_vals lk]
    have hrec := decompressLinks_gen rts rest (acc ++ [lk])
      (fun q hq => h q (List.mem_cons_of_mem lk hq))
    exact hrec.trans (by simp)

/-- Behaviour of the node-compression loop under the amended hypotheses:
the run succeeds, the bucket tables keep aligned duplicate-free keys, every
processed node's type maps to its own key list, and each value bucket holds
exactly the value rows of the nodes of its type in list order. -/
theorem compressNodesAux_spec :
    ∀ (todo : List Obj) (nts : List (Val × List String)) (nvs : List (Val × List (List Val))),
      (∀ nd ∈ todo, (objKeys nd).Nodup) →
      (∀ nd ∈ todo, objHasKey "node_type" nd = true) →
      (∀ a ∈ todo, ∀ b ∈ todo, objGet "node_type" a = objGet "node_type" b →
        objKeys a = objKeys b) →
      (∀ nd ∈ todo, ∀ t, objGet "node_type" nd = some t →
        ∀ ks, assocGet t nts = some ks → ks = objKeys nd) →
      nts.map Prod.fst = nvs.map Prod.fst →
      (nts.map Prod.fst).Nodup →
      ∃ nts2 nvs2, compressNodesAux todo nts nvs = .ok (nts2, nvs2) ∧
        nts2.map Prod.fst = nvs2.map Prod.fst ∧
        (nts2.map Prod.fst).Nodup ∧
        (∀ r ks, assocGet r nts = some ks → assocGet r nts2 = some ks) ∧
        (∀ nd ∈ todo, ∀ t, objGet "node_type" nd = some t →
          assocGet t nts2 = some (objKeys nd)) ∧
        (∀ t ks, assocGet t nts2 = some ks →
          assocGet t nts = some ks ∨
            ∃ nd ∈ todo, objGet "node_type" nd = some t ∧ ks = objKeys nd) ∧
        (∀ t rows, assocGet t nvs2 = some rows →
          ∃ rows0, (assocGet t nvs = some rows0 ∨ (assocGet t nvs = none ∧ rows0 = [])) ∧
            rows = rows0 ++
              (todo.filter (fun nd => decide (objGet "node_type" nd = some t))).map
                (fun nd => nd.map Prod.snd))
  | [], nts, nvs, _, _, _, _, hfst, hnodup => by
    refine ⟨nts, nvs, by simp [compressNodesAux], hfst, hnodup, fun r ks h => h,
      fun nd h => absurd h (List.not_mem_nil nd), fun t ks h => Or.inl h, ?_⟩
    intro t rows h
    exact ⟨rows, Or.inl h, by simp⟩
  | nd :: rest, nts, nvs, hnd, hty, hsame, hbuck, hfst, hnodup => by
    have hty0 : ∃ t0, objGet "node_type" nd = some t0 := by
      have := hty nd (List.mem_cons_self nd rest)
      unfold objHasKey at this
      cases hg : objGet "node_type" nd with
      | none => rw [hg] at this; cases this
      | some t0 => exact ⟨t0, rfl⟩
    obtain ⟨t0, hg⟩ := hty0
    unfold compressNodesAux
    rw [hg]
    dsimp only
    cases hb : assocGet t0 nts with
    | some keys =>
      dsimp only
      have hkeys : keys = objKeys nd := hbuck nd (List.mem_cons_self nd rest) t0 hg keys hb
      have hrr : recordRow keys nd = some (nd.map Prod.snd) := by
        rw [hkeys]
        exact recordRow_self nd (hnd nd (List.mem_cons_self nd rest))
      rw [hrr]
      dsimp only
      have hfst2 : nts.map Prod.fst = (assocAppendRow t0 (nd.map Prod.snd) nvs).map Prod.fst := by
        rw [assocAppendRow_fst]
        exact hfst
      obtain ⟨nts2, nvs2, hrun, c1, c2, c3, c4, c5, c6⟩ := compressNodesAux_spec rest nts
        (assocAppendRow t0 (nd.map Prod.snd) nvs)
        (fun q hq => hnd q (List.mem_cons_of_mem nd hq))
        (fun q hq => hty q (List.mem_cons_of_mem nd hq))
        (fun a ha b hb2 => hsame a (List.mem_cons_of_mem nd ha) b (List.mem_cons_of_mem nd hb2))
        (fun q hq => hbuck q (List.mem_cons_of_mem nd hq))
        hfst2 hnodup
      refine ⟨nts2, nvs2, hrun, c1, c2, c3, ?_, ?_, ?_⟩
      · intro q hq t hqt
        rcases List.mem_cons.mp hq with h | h
        · subst h
          rw [hg] at hqt
          injection hqt with h2
          rw [← h2, ← hkeys]
          exact c3 t0 keys hb
        · exact c4 q h t hqt
      · intro t ks h
        rcases c5 t ks h with h2 | h2
        · exact Or.inl h2
        · obtain ⟨q, hq, hq2⟩ := h2
          exact Or.inr ⟨q, List.mem_cons_of_mem nd hq, hq2⟩
      · intro t rows h
        obtain ⟨rows0p, hdisj, hrows⟩ := c6 t rows h
        by_cases hteq : t = t0
        · subst hteq
          have htmem : t ∈ nvs.map Prod.fst := by
            rw [← hfst]
            exact assocGet_mem_of_some t keys nts hb
          obtain ⟨rows0, hrows0⟩ := assocGet_isSome_of_mem t nvs htmem
          have happ : assocGet t (assocAppendRow t (nd.map Prod.snd) nvs) =
              some (rows0 ++ [nd.map Prod.snd]) := by
            rw [assocGet_appendRow_eq, hrows0]
            rfl
          refine ⟨rows0, Or.inl hrows0, ?_⟩
          rcases hdisj with h2 | h2
          · rw [happ] at h2
            injection h2 with h3
            rw [hrows, ← h3]
            have hfc : (nd :: rest).filter
                (fun q => decide (objGet "node_type" q = some t)) =
                nd :: rest.filter (fun q => decide (objGet "node_type" q = some t)) := by
              rw [List.filter_cons]
              rw [if_pos (by rw [hg]; simp)]
            rw [hfc, List.map_cons, List.append_assoc]
            simp
          · rw [happ] at h2
            cases h2.1
        · have happ : assocGet t (assocAppendRow t0 (nd.map Prod.snd) nvs) = assocGet t nvs :=
            assocGet_appendRow_ne t0 t (nd.map Prod.snd) hteq nvs
          have hfc : (nd :: rest).filter
              (fun q => decide (objGet "node_type" q = some t)) =
              rest.filter (fun q => decide (objGet "node_type" q = some t)) := by
            rw [List.filter_cons]
            rw [if_neg (by rw [hg]; simp; intro hc; exact hteq hc.symm)]
          rw [happ] at hdisj
          exact ⟨rows0p, hdisj, by rw [hrows, hfc]⟩
    | none =>
      dsimp only
      have hrr : recordRow (objKeys nd) nd = some (nd.map Prod.snd) :=
        recordRow_self nd (hnd nd (List.mem_cons_self nd rest))
      rw [hrr]
      dsimp only
      have htnotin : t0 ∉ nts.map Prod.fst := (assocGet_none_iff t0 nts).mp hb
      have hvnone : assocGet t0 nvs = none := by
        rw [assocGet_none_iff]
        rw [← hfst]
        exact htnotin
      have hfst2 : (nts ++ [(t0, objKeys nd)]).map Prod.fst =
          (nvs ++ [(t0, [nd.map Prod.snd])]).map Prod.fst := by
        simp only [List.map_append, List.map_cons, List.map_nil]
        rw [hfst]
      have hnodup2 : ((nts ++ [(t0, objKeys nd)]).map Prod.fst).Nodup := by
        simp only [List.map_append, List.map_cons, List.map_nil]
        rw [List.nodup_append]
        exact ⟨hnodup, List.nodup_singleton t0,
          fun a ha hb2 => by
            simp only [List.mem_singleton] at hb2
            rw [hb2] at ha
            exact htnotin ha⟩
      have hbuck2 : ∀ q ∈ rest, ∀ t, objGet "node_type" q = some t →
          ∀ ks, assocGet t (nts ++ [(t0, objKeys nd)]) = some ks → ks = objKeys q := by
        intro q hq t ht ks hks
        cases hb2 : assocGet t nts with
        | some ks0 =>
          rw [assocGet_append_some t nts _ ks0 hb2] at hks
          injection hks with h2
          subst h2
          exact hbuck q (List.mem_cons_of_mem nd hq) t ht ks0 hb2
        | none =>
          rw [assocGet_append_none t nts _ hb2] at hks
          simp only [assocGet] at hks
          by_cases hc : t0 = t
          · rw [if_pos hc] at hks
            injection hks with h2
            subst h2
            rw [hsame q (List.mem_cons_of_mem nd hq) nd (List.mem_cons_self nd rest)
              (by rw [ht, hg, hc])]
          · rw [if_neg hc] at hks
            cases hks
      obtain ⟨nts2, nvs2, hrun, c1, c2, c3, c4, c5, c6⟩ := compressNodesAux_spec rest
        (nts ++ [(t0, objKeys nd)]) (nvs ++ [(t0, [nd.map Prod.snd])])
        (fun q hq => hnd q (List.mem_cons_of_mem nd hq))
        (fun q hq => hty q (List.mem_cons_of_mem nd hq))
        (fun a ha b hb2 => hsame a (List.mem_cons_of_mem nd ha) b (List.mem_cons_of_mem nd hb2))
        hbuck2 hfst2 hnodup2
      refine ⟨nts2, nvs2, hrun, c1, c2, ?_, ?_, ?_, ?_⟩
      · intro r ks h
        exact c3 r ks (assocGet_append_some r nts _ ks h)
      · intro q hq t hqt
        rcases List.mem_cons.mp hq with h | h
        · subst h
          rw [hg] at hqt
          injection hqt with h2
          rw [← h2]
          refine c3 t0 (objKeys q) ?_
          rw [assocGet_append_none t0 nts _ hb]
          simp [assocGet]
        · exact c4 q h t hqt
      · intro t ks h
        rcases c5 t ks h with h2 | h2
        · cases hb2 : assocGet t nts with
          | some ks0 =>
            rw [assocGet_append_some t nts _ ks0 hb2] at h2
            exact Or.inl h2
          | none =>
            rw [assocGet_append_none t nts _ hb2] at h2
            simp only [assocGet] at h2
            by_cases hc : t0 = t
            · rw [if_pos hc] at h2
              injection h2 with h3
              exact Or.inr ⟨nd, List.mem_cons_self nd rest, by rw [hg, hc], h3.symm⟩
            · rw [if_neg hc] at h2
              cases h2
        · obtain ⟨q, hq, hq2⟩ := h2
          exact Or.inr ⟨q, List.mem_cons_of_mem nd hq, hq2⟩
      · intro t rows h
        obtain ⟨rows0p, hdisj, hrows⟩ := c6 t rows h
        by_cases hteq : t = t0
        · subst hteq
          have happ : assocGet t (nvs ++ [(t, [nd.map Prod.snd])]) =
              some [nd.map Prod.snd] := by
            rw [assocGet_append_none t nvs _ hvnone]
            simp [assocGet]
          refine ⟨[], Or.inr ⟨hvnone, rfl⟩, ?_⟩
          rcases hdisj with h2 | h2
          · rw [happ] at h2
            injection h2 with h3
            rw [hrows, ← h3]
            have hfc : (nd :: rest).filter
                (fun q => decide (objGet "node_type" q = some t)) =
                nd :: rest.filter (fun q => decide (objGet "node_type" q = some t)) := by
              rw [List.filter_cons]
              rw [if_pos (by rw [hg]; simp)]
            rw [hfc, List.map_cons]
            simp
          · rw [happ] at h2
            cases h2.1
        · have happ : assocGet t (nvs ++ [(t0, [nd.map Prod.snd])]) = assocGet t nvs := by
            cases hb2 : assocGet t nvs with
            | some r2 => exact assocGet_append_some t nvs _ r2 hb2
            | none =>
              rw [assocGet_append_none t nvs _ hb2]
              simp only [assocGet]
              rw [if_neg (fun hc => hteq hc.symm)]
          have hfc : (nd :: rest).filter
              (fun q => decide (objGet "node_type" q = some t)) =
              rest.filter (fun q => decide (objGet "node_type" q = some t)) := by
            rw [List.filter_cons]
            rw [if_neg (by rw [hg]; simp; intro hc; exact hteq hc.symm)]
          rw [happ] at hdisj
          exact ⟨rows0p, hdisj, by rw [hrows, hfc]⟩

theorem decompressNodes_gen (nvs : List (Val × List (List Val)))
    (f : Val × List String → List Obj) :
    ∀ (nts : List (Val × List String)) (acc : List Obj),
      (∀ p ∈ nts, ∃ rows, assocGet p.1 nvs = some rows ∧ rows.map (zipObj p.2) = f p) →
      nts.foldlM
        (fun a p =>
          match assocGet p.1 nvs with
          | none => Except.error "KeyError: node_values bucket missing"
          | some rows => Except.ok (a ++ rows.map (zipObj p.2)))
        acc = .ok (acc ++ nts.foldr (fun p r => f p ++ r) [])
  | [], acc, _ => by
    simp [List.foldlM_nil, pure, Except.pure]
  | p :: rest, acc, h => by
    obtain ⟨rows, hget, hf⟩ := h p (List.mem_cons_self p rest)
    rw [List.foldlM_cons, hget]
    dsimp only
    rw [hf]
    have hrec := decompressNodes_gen nvs f rest (acc ++ f p)
      (fun q hq => h q (List.mem_cons_of_mem p hq))
    exact hrec.trans (by rw [List.foldr_cons, List.append_assoc])

theorem assocGet_of_mem_nodup {β : Type} :
    ∀ (l : List (Val × β)) (p : Val × β), (l.map Prod.fst).Nodup → p ∈ l →
      assocGet p.1 l = some p.2
  | [], p, _, h => absurd h (List.not_mem_nil p)
  | q :: rest, p, hnd, h => by
    obtain ⟨k0, v0⟩ := q
    simp only [List.map_cons, List.nodup_cons] at hnd
    rcases List.mem_cons.mp h with h2 | h2
    · rw [h2]
      simp [assocGet]
    · have hne : ¬ k0 = p.1 := by
        intro hc
        have hmem : p.1 ∈ rest.map Prod.fst := List.mem_map_of_mem Prod.fst h2
        rw [← hc] at hmem
        exact hnd.1 hmem
      simp only [assocGet]
      rw [if_neg hne]
      exact assocGet_of_mem_nodup rest p hnd.2 h2

theorem bucketsFoldr_congr (F G : Val → List Obj) :
    ∀ ts : List Val, (∀ t ∈ ts, F t = G t) →
      ts.foldr (fun t r => F t ++ r) [] = ts.foldr (fun t r => G t ++ r) []
  | [], _ => rfl
  | t :: ts, h => by
    simp only [List.foldr_cons]
    rw [h t (List.mem_cons_self t ts),
      bucketsFoldr_congr F G ts (fun q hq => h q (List.mem_cons_of_mem t hq))]

theorem filter_filter_ne (t t' : Val) (hne : t' ≠ t) :
    ∀ l : List Obj,
      (l.filter (fun q => !decide (objGet "node_type" q = some t))).filter
        (fun q => decide (objGet "node_type" q = some t')) =
      l.filter (fun q => decide (objGet "node_type" q = some t'))
  | [] => rfl
  | nd :: rest => by
    rw [List.filter_cons]
    by_cases hq : objGet "node_type" nd = some t
    · rw [if_neg (by simp [hq])]
      rw [List.filter_cons]
      rw [if_neg (by
        rw [hq]
        simp only [Option.some.injEq, decide_eq_true_eq]
        exact fun hc => hne hc.symm)]
      exact filter_filter_ne t t' hne rest
    · rw [if_pos (by simp [hq])]
      rw [List.filter_cons, List.filter_cons]
      by_cases hq2 : objGet "node_type" nd = some t'
      · rw [if_pos (by simp [hq2]), if_pos (by simp [hq2])]
        rw [filter_filter_ne t t' hne rest]
      · rw [if_neg (by simp [hq2]), if_neg (by simp [hq2])]
        exact filter_filter_ne t t' hne rest

/-- Concatenating, over a duplicate-free list of types covering every node,
the sublists of nodes of each type is a permutation of the node list: the
decompressed node list is the original one regrouped by node_type. -/
theorem buckets_perm :
    ∀ (ts : List Val) (l : List Obj),
      ts.Nodup →
      (∀ nd ∈ l, ∃ t ∈ ts, objGet "node_type" nd = some t) →
      (ts.foldr (fun t r => l.filter (fun q => decide (objGet "node_type" q = some t)) ++ r)
        []).Perm l
  | [], l, _, hcov => by
    cases l with
    | nil => exact List.Perm.refl []
    | cons a as =>
      obtain ⟨t, ht, _⟩ := hcov a (List.mem_cons_self a as)
      exact absurd ht (List.not_mem_nil t)
  | t :: ts, l, hnd, hcov => by
    simp only [List.foldr_cons]
    simp only [List.nodup_cons] at hnd
    have hcong := bucketsFoldr_congr
      (fun t' => l.filter (fun q => decide (objGet "node_type" q = some t')))
      (fun t' => (l.filter (fun q => !decide (objGet "node_type" q = some t))).filter
        (fun q => decide (objGet "node_type" q = some t')))
      ts
      (fun t' ht' => (filter_filter_ne t t' (fun hc => hnd.1 (hc ▸ ht')) l).symm)
    rw [hcong]
    have hcov2 : ∀ nd ∈ l.filter (fun q => !decide (objGet "node_type" q = some t)),
        ∃ t' ∈ ts, objGet "node_type" nd = some t' := by
      intro nd hmem
      have h2 := List.of_mem_filter hmem
      have h3 := List.mem_of_mem_filter hmem
      obtain ⟨t', ht', hty⟩ := hcov nd h3
      rcases List.mem_cons.mp ht' with h4 | h4
      · exfalso
        rw [h4] at hty
        rw [hty] at h2
        simp at h2
      · exact ⟨t', h4, hty⟩
    have hrec := buckets_perm ts (l.filter (fun q => !decide (objGet "node_type" q = some t)))
      hnd.2 hcov2
    exact (List.Perm.append_left _ hrec).trans (List.filter_append_perm _ l)

/-- C2 counterexample: the round trip is not total on directed property
graphs: two nodes sharing a node_type but not a key set (node x carries
property a, node y carries property bk) make compress_graph_json read key
"a" out of node y and raise KeyError, so decompress(compress(x)) equals
nothing at all, rather than x up to bucket ordering and grouping. -/
theorem C2_counterexample :
    graphRoundTrip c2BadDoc = .error "KeyError: node lacks a key of its type bucket" := by
  rfl

/-- C2 (amended): on documents whose records are genuine Python dicts
(duplicate-free keys), whose nodes all carry node_type and share one key set
per node_type, and whose links put relationship_type first and share one key
set per relationship type, the round trip succeeds: the links come back
exactly, the nodes come back as a permutation (grouped by node_type, keeping
list order inside each group), the scalar header fields survive, and every
link_values row starts with the relationship type, which indexes
relationship_types. -/
theorem C2_amended_roundtrip_grouped {x : NodeLinkDoc}
    (hnk : ∀ nd ∈ x.nodes, (objKeys nd).Nodup)
    (hnt : ∀ nd ∈ x.nodes, objHasKey "node_type" nd = true)
    (hns : ∀ a ∈ x.nodes, ∀ b ∈ x.nodes,
      objGet "node_type" a = objGet "node_type" b → objKeys a = objKeys b)
    (hlk : ∀ lk ∈ x.links, (objKeys lk).Nodup)
    (hlf : ∀ lk ∈ x.links, ∃ r rest0, lk = ("relationship_type", r) :: rest0)
    (hls : ∀ a ∈ x.links, ∀ b ∈ x.links,
      objGet "relationship_type" a = objGet "relationship_type" b → objKeys a = objKeys b) :
    ∃ c y, compress_graph_json x = .ok c ∧ decompress_graph_json c = .ok y ∧
      y.directed = x.directed ∧ y.multigraph = x.multigraph ∧ y.graph = x.graph ∧
      y.nodes.Perm x.nodes ∧ y.links = x.links ∧
      ∀ row ∈ c.link_values, ∃ r rest0, row = r :: rest0 ∧
        (assocGet r c.relationship_types).isSome = true := by
  obtain ⟨nts2, nvs2, hrunN, c1, c2, c3, c4, c5, c6⟩ := compressNodesAux_spec x.nodes [] []
    hnk hnt hns (fun nd h t ht ks hks => by simp [assocGet] at hks) rfl List.nodup_nil
  obtain ⟨rts2, hrunL, hpresL, hallL⟩ := compressLinksAux_spec x.links [] []
    hlk hlf hls (fun lk h r hr ks hks => by simp [assocGet] at hks)
  simp only [List.nil_append] at hrunL
  have hF : ∀ p ∈ nts2, ∃ rows, assocGet p.1 nvs2 = some rows ∧
      rows.map (zipObj p.2) =
      x.nodes.filter (fun q => decide (objGet "node_type" q = some p.1)) := by
    intro p hp
    have hmem : p.1 ∈ nvs2.map Prod.fst := by
      rw [← c1]
      exact List.mem_map_of_mem Prod.fst hp
    obtain ⟨rows, hrows⟩ := assocGet_isSome_of_mem p.1 nvs2 hmem
    obtain ⟨rows0, hdisj, hrowseq⟩ := c6 p.1 rows hrows
    have hrows0 : rows0 = [] := by
      rcases hdisj with h | h
      · simp [assocGet] at h
      · exact h.2
    refine ⟨rows, hrows, ?_⟩
    rw [hrowseq, hrows0, List.nil_append, List.map_map]
    have hks : assocGet p.1 nts2 = some p.2 := assocGet_of_mem_nodup nts2 p c2 hp
    rcases c5 p.1 p.2 hks with h | h
    · simp [assocGet] at h
    · obtain ⟨nd0, hnd0, hty0, hkeq⟩ := h
      have hpt : ∀ q ∈ x.nodes.filter (fun q => decide (objGet "node_type" q = some p.1)),
          (zipObj p.2 ∘ fun nd => nd.map Prod.snd) q = q := by
        intro q hq
        have hq1 := List.mem_of_mem_filter hq
        have hq2 := List.of_mem_filter hq
        simp only [decide_eq_true_eq] at hq2
        have hkq : objKeys q = objKeys nd0 := hns q hq1 nd0 hnd0 (by rw [hq2, hty0])
        show zipObj p.2 (q.map Prod.snd) = q
        rw [hkeq, ← hkq]
        exact zipObj_keys_vals q
      exact (List.map_congr_left hpt).trans (List.map_id _)
  have hnodes := decompressNodes_gen nvs2
    (fun p => x.nodes.filter (fun q => decide (objGet "node_type" q = some p.1))) nts2 [] hF
  have hLok : ∀ lk ∈ x.links, (objKeys lk).Nodup ∧
      (∃ r rest0, lk = ("relationship_type", r) :: rest0) ∧
      ∀ r, objGet "relationship_type" lk = some r → assocGet r rts2 = some (objKeys lk) :=
    fun lk h => ⟨hlk lk h, hlf lk h, fun r hr => hallL lk h r hr⟩
  have hlinks := decompressLinks_gen rts2 x.links [] hLok
  have hcov : ∀ nd ∈ x.nodes, ∃ t ∈ nts2.map Prod.fst, objGet "node_type" nd = some t := by
    intro nd h
    have hhk := hnt nd h
    unfold objHasKey at hhk
    cases hg : objGet "node_type" nd with
    | none => rw [hg] at hhk; cases hhk
    | some t0 =>
      exact ⟨t0, assocGet_mem_of_some t0 (objKeys nd) nts2 (c4 nd h t0 hg), rfl⟩
  have hperm0 := buckets_perm (nts2.map Prod.fst) x.nodes c2 hcov
  have hfm : (nts2.map Prod.fst).foldr
      (fun t r => x.nodes.filter (fun q => decide (objGet "node_type" q = some t)) ++ r) [] =
      nts2.foldr
        (fun p r => x.nodes.filter (fun q => decide (objGet "node_type" q = some p.1)) ++ r)
        [] := by
    rw [List.foldr_map]
  rw [hfm] at hperm0
  refine ⟨⟨x.directed, x.multigraph, x.graph, nts2, nvs2, rts2,
    x.links.map (fun lk => lk.map Prod.snd)⟩,
    ⟨x.directed, x.multigraph, x.graph,
      nts2.foldr
        (fun p r => x.nodes.filter (fun q => decide (objGet "node_type" q = some p.1)) ++ r)
        [],
      x.links⟩, ?_, ?_, rfl, rfl, rfl, hperm0, rfl, ?_⟩
  · unfold compress_graph_json
    rw [hrunN]
    dsimp only
    rw [hrunL]
  · unfold decompress_graph_json
    dsimp only
    have hdecN : decompressNodes nts2 nvs2 = .ok
        (nts2.foldr
          (fun p r => x.nodes.filter (fun q => decide (objGet "node_type" q = some p.1)) ++ r)
          []) := by
      unfold decompressNodes
      exact hnodes.trans (by rw [List.nil_append])
    have hdecL : decompressLinks rts2 (x.links.map (fun lk => lk.map Prod.snd)) =
        .ok x.links := by
      unfold decompressLinks
      exact hlinks.trans (by rw [List.nil_append])
    rw [hdecN]
    dsimp only
    rw [hdecL]
  · intro row hrow
    obtain ⟨lk, hlkmem, hrowq⟩ := List.mem_map.mp hrow
    obtain ⟨r0, rest0, hlkeq⟩ := hlf lk hlkmem
    refine ⟨r0, rest0.map Prod.snd, ?_, ?_⟩
    · rw [← hrowq, hlkeq]
      rfl
    · have hsome := hallL lk hlkmem r0 (by rw [hlkeq]; exact objGet_head _ _ _)
      dsimp only
      rw [hsome]
      rfl

theorem C2_amended_witness :
    ∃ c y, compress_graph_json c2GoodDoc = .ok c ∧ decompress_graph_json c = .ok y ∧
      y.directed = c2GoodDoc.directed ∧ y.multigraph = c2GoodDoc.multigraph ∧
      y.graph = c2GoodDoc.graph ∧
      y.nodes.Perm c2GoodDoc.nodes ∧ y.links = c2GoodDoc.links ∧
      ∀ row ∈ c.link_values, ∃ r rest0, row = r :: rest0 ∧
        (assocGet r c.relationship_types).isSome = true :=
  C2_amended_roundtrip_grouped
    (by decide)
    (by decide)
    (by decide)
    (by decide)
    (by
      intro lk h
      simp only [c2GoodDoc, List.mem_cons, List.not_mem_nil, or_false] at h
      rcases h with h | h
      · exact ⟨.s "R", _, h⟩
      · exact ⟨.s "R", _, h⟩)
    (by decide)
